import Mathlib

/-!
# Protocol engine of `xvcserver.c` (Xilinx Virtual Cable server)

A shallow embedding of the per-connection protocol engine: the variable-length
integer codec (`get_uleb128`, `reply_uleb128`), the reply buffer, the command
framer and dispatcher (`read_packet`) and the connection driver.

Conventions of the embedding

* A byte is a `Nat` below 256.  `unsigned` is 32 bits wide and `size_t` and
  pointers are 64 bits wide; every assignment to a variable of one of these
  types is reduced with `u32` or `u64`.
* A left shift is reduced to the width of its type and its count is taken
  modulo that width, as the shift instructions of the 64-bit targets do; in
  `get_uleb128` this matters from the eleventh byte of an encoding on (a count
  of 64 or more, which C leaves undefined).
* Pointers into the input buffer are offsets from `c->buf`, and `buf_addr` is
  the address held in `c->buf`.  The allocation lies inside the address space
  with more than `2^33` bytes above it, so that of all pointer additions only
  `p + num_bytes` of the `idpc:` branch, which adds a `size_t`, can wrap
  around; it is computed on addresses and reduced to 64 bits.  When it has
  wrapped, the cursor it yields lies before the end of the two varints; the
  backend call and the status byte are recorded, the round then ends with
  `wild` and the run is not followed further.
* Pointers into the reply buffer are offsets from `reply_buf`.
* The input buffer `c->buf[0 .. buf_len)` is a list of bytes, `buf_len` is its
  length.  The `configure:` parser stores into it: the terminator at
  `pktend`, the terminators that `get_field` and the field loop put over a
  separator, over `=` and over the last character of a field, and the saved
  byte that is put back at `pktend`.  When `pktend` is the end of the buffered
  bytes, the byte saved and put back there lies behind the list and the list
  end stands for the terminator.
* The reply buffer is a flat memory `Nat → Nat`, so that bytes left over from
  earlier writes stay visible; the ghost field `hi` records one past the
  highest offset written so far.
* The pending error is the C string held in `pending_error`.
* The backend is a record of optional operations acting on a state `β`; an
  operation reports a call to `xvcserver_set_error` by returning the text.
  The input transaction is handed the buffered bytes that follow the two
  varints, at most `4 * num_words` of them.
* `calls`, `tx` and `hi` are ghost fields: they record the backend calls, the
  packets handed to `send` and the extent of reply-buffer writes.
* The loops of `read_packet` are driven by a fuel argument; `none` or `stuck`
  is returned only when the fuel runs out.
-/

namespace Xvc

/-! ## Machine integers, strings and memory -/

/-- Reduction to `unsigned` (32 bits). -/
def u32 (x : Nat) : Nat := x % 2 ^ 32

/-- Reduction to `size_t` (64 bits). -/
def u64 (x : Nat) : Nat := x % 2 ^ 64

/-- Bytes of a string literal. -/
def cstr (s : String) : List Nat := s.toList.map Char.toNat

/-- Length of the C string stored in `s` (the list end acts as terminator). -/
def strlen (s : List Nat) : Nat := (s.takeWhile (fun b => b ≠ 0)).length

/-- Memory seen through a pointer to the first byte of `s`. -/
def mem_of (s : List Nat) : Nat → Nat := fun i => s.getD i 0

/-- Store of one byte. -/
def store (mem : Nat → Nat) (i v : Nat) : Nat → Nat :=
  fun j => if j = i then v else mem j

/-- Copy of `n` bytes from `src` to offset `dst`. -/
def memcpy (mem : Nat → Nat) (dst : Nat) (src : Nat → Nat) (n : Nat) : Nat → Nat :=
  fun j => if dst ≤ j ∧ j < dst + n then src (j - dst) else mem j

/-- Fill of `n` bytes at offset `dst` with `v`. -/
def memset (mem : Nat → Nat) (dst v n : Nat) : Nat → Nat :=
  fun j => if dst ≤ j ∧ j < dst + n then v else mem j

/-- Bytes `mem[off .. off + n)`. -/
def mem_slice (mem : Nat → Nat) (off n : Nat) : List Nat :=
  (List.range n).map (fun i => mem (off + i))

def MAX_PACKET_LEN : Nat := 10000

def XVC_VERSION : Nat := 11

def max_packet_len : Nat := MAX_PACKET_LEN

/-! ## Data model -/

/-- Record `struct XvcClient` without the transport and backend handles. -/
structure XvcClient where
  buf : List Nat
  buf_addr : Nat
  buf_max : Nat
  enable_locking : Int
  enable_status : Int
  pending_error : List Nat
deriving DecidableEq, Repr

/-- Statics `reply_buf`, `reply_max`, `reply_len`, and the ghost mark `hi`. -/
structure ReplyBuf where
  reply_buf : Nat → Nat
  reply_max : Nat
  reply_len : Nat
  hi : Nat

/-- Outcome of a backend output transaction. -/
structure EdpcResult (β : Type) where
  client_data : β
  num_words : Nat
  epkt_buf : Option (Nat → Nat)
  error : Option (List Nat)

/-- Record `XvcServerHandlers`: which operations are present, and what the
transactions and the flush do. -/
structure XvcServerHandlers (β : Type) where
  lock : Bool
  unlock : Bool
  flush : Option (β → β × Int)
  edpc : Option (β → Nat → EdpcResult β)
  idpc : Option (β → Nat → Nat → List Nat → β × Option (List Nat))

/-- Backend calls made by `read_packet`.  For `idpc`, `avail` is the number of
buffered bytes that follow the two varints. -/
inductive Call where
  | edpc (flags : Nat)
  | idpc (flags num_words avail : Nat)
  | flush
deriving DecidableEq, Repr

/-- Everything `read_packet` reads or changes.  `rx` lists what the following
`recv` calls return (`some chunk`, or `none` for a failure; the empty list is
a closed peer), `send_ok k` tells whether the `k`-th `send` succeeds. -/
structure World (β : Type) where
  c : XvcClient
  r : ReplyBuf
  client_data : β
  calls : List Call
  rx : List (Option (List Nat))
  send_ok : Nat → Bool
  tx : List (List Nat)

/-! ## Reply buffer primitives -/

/-- Store into `reply_buf[i]`. -/
def ReplyBuf.put (r : ReplyBuf) (i v : Nat) : ReplyBuf :=
  { r with reply_buf := store r.reply_buf i v, hi := max r.hi (i + 1) }

/-- Call `memcpy(reply_buf + reply_len, src, n)`. -/
def ReplyBuf.copy (r : ReplyBuf) (src : Nat → Nat) (n : Nat) : ReplyBuf :=
  { r with reply_buf := memcpy r.reply_buf r.reply_len src n,
           hi := if n = 0 then r.hi else max r.hi (r.reply_len + n) }

/-- Call `memset(reply_buf + reply_len, v, n)`. -/
def ReplyBuf.fill (r : ReplyBuf) (v n : Nat) : ReplyBuf :=
  { r with reply_buf := memset r.reply_buf r.reply_len v n,
           hi := if n = 0 then r.hi else max r.hi (r.reply_len + n) }

/-- Statement `reply_len += n`. -/
def ReplyBuf.advance (r : ReplyBuf) (n : Nat) : ReplyBuf :=
  { r with reply_len := u32 (r.reply_len + n) }

/-- The bytes `reply_buf[0 .. reply_len)` handed to `send`. -/
def ReplyBuf.packet (r : ReplyBuf) : List Nat := mem_slice r.reply_buf 0 r.reply_len

/-- Doubling loop of `reply_buf_size`. -/
def reply_buf_size_loop : Nat → Nat → Nat → Nat
  | 0, reply_max, _ => reply_max
  | fuel + 1, reply_max, bytes =>
    if reply_max < bytes then reply_buf_size_loop fuel (u32 (reply_max * 2)) bytes
    else reply_max

/-- Function `reply_buf_size`: the reallocation keeps the old content. -/
def reply_buf_size (r : ReplyBuf) (bytes : Nat) : ReplyBuf :=
  if r.reply_max < bytes then
    { r with reply_max :=
        reply_buf_size_loop 33 (if r.reply_max = 0 then 1 else r.reply_max) bytes }
  else r

/-! ## Variable-length integers -/

/-- Loop of `get_uleb128` over the bytes from `p` up to `bufend`; past them a
zero byte is read.  Of the counter `i` only the shift count `i % 64` is used,
so its own reduction to 64 bits is left out. -/
def get_uleb128_loop : List Nat → Nat → Nat → Nat → Nat × Nat
  | [], value, i, p => (value ||| u64 ((0 &&& 0x7f) <<< (i % 64)), p + 1)
  | n :: rest, value, i, p =>
    let value := value ||| u64 ((n &&& 0x7f) <<< (i % 64))
    if n &&& 0x80 ≠ 0 then get_uleb128_loop rest value (i + 7) (p + 1)
    else (value, p + 1)

/-- Function `get_uleb128`: the decoded value and the new cursor. -/
def get_uleb128 (buf : List Nat) (p bufend : Nat) : Nat × Nat :=
  get_uleb128_loop ((buf.take bufend).drop p) 0 0 p

/-- Function `reply_status`. -/
def reply_status (c : XvcClient) (r : ReplyBuf) : ReplyBuf :=
  let r1 := if r.reply_len < max_packet_len then
      r.put r.reply_len (if c.pending_error.headD 0 ≠ 0 then 1 else 0)
    else r
  r1.advance 1

/-- Loop of `reply_uleb128`: the buffer and `pos` after the last round. -/
def reply_uleb128_loop : Nat → ReplyBuf → Nat → Nat → ReplyBuf × Nat
  | 0, r, _, pos => (r, pos)
  | fuel + 1, r, value, pos =>
    let r1 := if u32 (r.reply_len + pos) < max_packet_len then
        (if value ≥ 0x80 then r.put (u32 (r.reply_len + pos)) ((value &&& 0x7f) ||| 0x80)
         else r.put (u32 (r.reply_len + pos)) (value &&& 0x7f))
      else r
    let value := value >>> 7
    let pos := u32 (pos + 1)
    if value ≠ 0 then reply_uleb128_loop fuel r1 value pos else (r1, pos)

/-- Function `reply_uleb128`; an `unsigned` value needs at most five rounds. -/
def reply_uleb128 (r : ReplyBuf) (value : Nat) : ReplyBuf :=
  let (r1, pos) := reply_uleb128_loop 5 r (u32 value) 0
  r1.advance pos

/-- Function `xvcserver_set_error` applied to the formatted text. -/
def xvcserver_set_error (c : XvcClient) (text : List Nat) : XvcClient :=
  { c with pending_error := (text.take 1023).takeWhile (fun b => b ≠ 0) }

/-! ## The `configure:` parser -/

/-- Function `get_field` on the C string `s`: the field and the rest. -/
def get_field : List Nat → Nat → List Nat × List Nat
  | [], _ => ([], [])
  | b :: rest, c =>
    if b = 0 then ([], b :: rest)
    else if b = c then ([], rest)
    else ((b :: (get_field rest c).1), (get_field rest c).2)

/-- The byte that `get_field` leaves where the field ended: the terminator
stored over the separator (`*s++ = '\0'`), nothing when the string ended
there. -/
def get_field_stop : List Nat → Nat → List Nat
  | [], _ => []
  | b :: rest, c =>
    if b = 0 then []
    else if b = c then [0]
    else get_field_stop rest c

/-- Call `strchr(config, ch)` on a string without terminator inside: the
text before the first `ch` and the text after it. -/
def strchr : List Nat → Nat → Option (List Nat × List Nat)
  | [], _ => none
  | b :: rest, ch =>
    if b = ch then some ([], rest)
    else (strchr rest ch).map (fun q => (b :: q.1, q.2))

/-- Name and `enable` value of one field of a `configure:` body. -/
def config_enable (config : List Nat) : List Nat × Int :=
  match strchr config (Char.toNat '=') with
  | some q => (q.1, -1)
  | none =>
    let config_len := u32 (strlen config)
    if config_len > 1 then
      let last := config.getD (config_len - 1) 0
      let enable : Int :=
        if last = Char.toNat '+' then 1 else if last = Char.toNat '-' then 0 else -1
      (config.take (config_len - 1), enable)
    else (config, -1)

/-- The field `config` after the stores of one pass of the field loop: a
terminator over the first `=` (`*assign++ = '\0'`), or over the last character
of a field without `=` that is longer than one character
(`config[config_len - 1] = '\0'`). -/
def config_stores (config : List Nat) : List Nat :=
  match strchr config (Char.toNat '=') with
  | some q => q.1 ++ 0 :: q.2
  | none =>
    let config_len := u32 (strlen config)
    if config_len > 1 then config.set (config_len - 1) 0 else config

/-- Field loop of the `configure:` branch over the body `s`: the connection
after it. -/
def configure_fields {β : Type} (h : XvcServerHandlers β) :
    Nat → List Nat → XvcClient → XvcClient
  | 0, _, c => c
  | fuel + 1, s, c =>
    if s.headD 0 ≠ 0 ∧ c.pending_error.headD 0 = 0 then
      let field := get_field s (Char.toNat ',')
      let ce := config_enable field.1
      if ce.1 = cstr "locking" ∧ h.lock = true ∧ h.unlock = true then
        if ce.2 < 0 then
          xvcserver_set_error c (cstr "configuration \"locking\" requires boolean + or -")
        else configure_fields h fuel field.2 { c with enable_locking := ce.2 }
      else if ce.1 = cstr "status" then
        if ce.2 < 0 then
          xvcserver_set_error c (cstr "configuration \"status\" requires boolean + or -")
        else configure_fields h fuel field.2 { c with enable_status := ce.2 }
      else xvcserver_set_error c (cstr "unexpected configuration: " ++ ce.1)
    else c

/-- Field loop of the `configure:` branch over the body `s`: the bytes of `s`
after it, with the terminators stored by `get_field` and by the passes that
were made. -/
def configure_stores {β : Type} (h : XvcServerHandlers β) :
    Nat → List Nat → XvcClient → List Nat
  | 0, s, _ => s
  | fuel + 1, s, c =>
    if s.headD 0 ≠ 0 ∧ c.pending_error.headD 0 = 0 then
      let field := get_field s (Char.toNat ',')
      let ce := config_enable field.1
      let m := config_stores field.1 ++ get_field_stop s (Char.toNat ',')
      if ce.1 = cstr "locking" ∧ h.lock = true ∧ h.unlock = true then
        if ce.2 < 0 then m ++ field.2
        else m ++ configure_stores h fuel field.2 { c with enable_locking := ce.2 }
      else if ce.1 = cstr "status" then
        if ce.2 < 0 then m ++ field.2
        else m ++ configure_stores h fuel field.2 { c with enable_status := ce.2 }
      else m ++ field.2
    else s

/-! ## Formatting -/

/-- Conversion `%u` of an `unsigned` value: its decimal digits. -/
def utoa (v : Nat) : List Nat := (Nat.toDigits 10 (u32 v)).map Char.toNat

/-- Text that `snprintf(_, 100, "xvcServer_v%u.%u:%u\n", ...)` stores before
the terminator. -/
def getinfo_text (buf_max : Nat) : List Nat :=
  (cstr "xvcServer_v" ++ utoa (XVC_VERSION / 10) ++ cstr "." ++ utoa (XVC_VERSION % 10)
    ++ cstr ":" ++ utoa buf_max ++ cstr "\n").take 99

/-! ## Framing and dispatch -/

/-- Result of one round of the command loop of `read_packet`. -/
inductive Step (β : Type) where
  | next (p : Nat) (w : World β)
  | fill (w : World β)
  | error (w : World β)
  | abort (w : World β)
  | wild (w : World β)

/-- Colon scan `while (p < e && *p != ':') p++` over the window `[p, e)`. -/
def scan : List Nat → Nat → Nat
  | [], p => p
  | b :: rest, p => if b ≠ Char.toNat ':' then scan rest (p + 1) else p

/-- Branch `getinfo:`. -/
def cmd_getinfo {β : Type} (w : World β) (p : Nat) : Step β :=
  let text := getinfo_text w.c.buf_max
  let r1 := w.r.copy (mem_of (text ++ [0])) (text.length + 1)
  .next p { w with r := r1.advance (strlen text) }

/-- Branch `capabilities:`. -/
def cmd_capabilities {β : Type} (h : XvcServerHandlers β) (w : World β) (p : Nat) : Step β :=
  let capabilities := cstr "status," ++
    (if h.idpc.isSome = true ∧ h.edpc.isSome = true then cstr "dpc" else [])
  let bytes := u32 (strlen capabilities)
  let r1 := reply_uleb128 w.r bytes
  let r2 := r1.copy (mem_of capabilities) bytes
  .next p { w with r := r2.advance bytes }

/-- Branch `configure:`; ends at the label `reply_with_status`.  `m0`, `m1`
and `m2` are the input buffer after the terminator was stored at `pktend`,
after the field loop, and after the saved byte was put back. -/
def cmd_configure {β : Type} (h : XvcServerHandlers β) (w : World β) (cbuf p : Nat) : Step β :=
  let cend := w.c.buf.length
  let g := get_uleb128 w.c.buf p cend
  let bytes := u32 g.1
  let pktend := g.2 + bytes
  if cend < pktend then
    if pktend - cbuf < w.c.buf_max then .fill w else .abort w
  else
    let oldc := w.c.buf.getD pktend 0
    let m0 := w.c.buf.set pktend 0
    let s := (m0.take pktend).drop g.2
    let c1 := configure_fields h s.length s w.c
    let m1 := m0.take g.2 ++ configure_stores h s.length s w.c ++ m0.drop pktend
    let m2 := m1.set pktend oldc
    .next pktend { w with c := { c1 with buf := m2 }, r := reply_status c1 w.r }

/-- Branch `error:`. -/
def cmd_error {β : Type} (w : World β) (p : Nat) : Step β :=
  let bytes := u32 (strlen w.c.pending_error)
  let limit := u32 (w.c.buf_max + 2 ^ 32 - u32 (bytes + 127) / 128)
  let bytes := if bytes > limit then limit else bytes
  let r1 := reply_uleb128 w.r bytes
  let r2 := r1.copy (mem_of w.c.pending_error) bytes
  .next p { w with c := { w.c with pending_error := [] }, r := r2.advance bytes }

/-- Branch `edpc:` with the backend operation `f`. -/
def cmd_edpc {β : Type} (f : β → Nat → EdpcResult β) (w : World β) (cbuf p : Nat) : Step β :=
  let cend := w.c.buf.length
  let g := get_uleb128 w.c.buf p cend
  let flags := u32 g.1
  if cend < g.2 then
    if g.2 - cbuf ≤ w.c.buf_max then .fill w else .abort w
  else
    let res : EdpcResult β :=
      if w.c.pending_error.headD 0 = 0 then f w.client_data flags
      else { client_data := w.client_data, num_words := 0, epkt_buf := none, error := none }
    let calls := if w.c.pending_error.headD 0 = 0 then w.calls ++ [Call.edpc flags] else w.calls
    let c1 := match res.error with
      | some text => xvcserver_set_error w.c text
      | none => w.c
    let num_words := u64 res.num_words
    let num_bytes := u64 (num_words * 4)
    let r1 := reply_uleb128 w.r num_words
    let r2 := match res.epkt_buf with
      | some src => r1.copy src num_bytes
      | none => r1
    let r3 := if c1.pending_error.headD 0 ≠ 0 then r2.fill 0 num_bytes else r2
    let r4 := r3.advance num_bytes
    .next g.2 { w with c := c1, client_data := res.client_data, calls := calls,
                       r := reply_status c1 r4 }

/-- Branch `idpc:` with the backend operation `f`.  `pend` is the address
`p + num_bytes`; the assertion compares the signed difference
`p + num_bytes - cbuf`, which is negative from `2^63` on, with `buf_max`. -/
def cmd_idpc {β : Type} (f : β → Nat → Nat → List Nat → β × Option (List Nat))
    (w : World β) (cbuf p : Nat) : Step β :=
  let cend := w.c.buf.length
  let g1 := get_uleb128 w.c.buf p cend
  let flags := u32 g1.1
  let g2 := get_uleb128 w.c.buf g1.2 cend
  let num_words := u64 g2.1
  let num_bytes := u64 (num_words * 4)
  let pend := u64 (w.c.buf_addr + g2.2 + num_bytes)
  if w.c.buf_addr + cend < pend then
    let diff := pend - (w.c.buf_addr + cbuf)
    if 2 ^ 63 ≤ diff ∨ diff ≤ w.c.buf_max then .fill w else .abort w
  else
    let res : β × Option (List Nat) :=
      if w.c.pending_error.headD 0 = 0 then
        f w.client_data flags num_words ((w.c.buf.drop g2.2).take (4 * num_words))
      else (w.client_data, none)
    let calls := if w.c.pending_error.headD 0 = 0 then
        w.calls ++ [Call.idpc flags num_words (cend - g2.2)]
      else w.calls
    let c1 := match res.2 with
      | some text => xvcserver_set_error w.c text
      | none => w.c
    let w1 : World β := { w with c := c1, client_data := res.1, calls := calls,
                                 r := reply_status c1 w.r }
    if pend = w.c.buf_addr + g2.2 + num_bytes then .next (g2.2 + num_bytes) w1
    else .wild w1

/-- The chain of command tests of `read_packet` for the command that ends
just before `p`. -/
def dispatch_cmd {β : Type} (h : XvcServerHandlers β) (w : World β) (cbuf p : Nat) : Step β :=
  let len := u32 (p - cbuf)
  let name := (w.c.buf.drop cbuf).take len
  if len = 8 ∧ name = cstr "getinfo:" then cmd_getinfo w p
  else if len = 13 ∧ name = cstr "capabilities:" then cmd_capabilities h w p
  else if len = 10 ∧ name = cstr "configure:" then cmd_configure h w cbuf p
  else if len = 6 ∧ name = cstr "error:" then cmd_error w p
  else if len = 5 ∧ name = cstr "edpc:" ∧ h.edpc.isSome = true then
    match h.edpc with
    | some f => cmd_edpc f w cbuf p
    | none => .error w
  else if len = 5 ∧ name = cstr "idpc:" ∧ h.idpc.isSome = true then
    match h.idpc with
    | some f => cmd_idpc f w cbuf p
    | none => .error w
  else .error w

/-- One round of the `for (;;)` loop of `read_packet` with the cursor at
`cbuf`: the colon scan, then the command tests. -/
def dispatch {β : Type} (h : XvcServerHandlers β) (w : World β) (cbuf : Nat) : Step β :=
  let cend := w.c.buf.length
  let e := if cbuf + 30 < cend then cbuf + 30 else cend
  let p := scan ((w.c.buf.take e).drop cbuf) cbuf
  if p ≥ e then
    if p - cbuf ≥ 30 then .error w else .fill w
  else dispatch_cmd h w cbuf (p + 1)

/-- How the command loop of one read cycle ends. -/
inductive Loop (β : Type) where
  | brk (fill : Bool) (cbuf : Nat) (w : World β)
  | error (w : World β)
  | abort (w : World β)
  | wild (w : World β)
  | stuck

/-- The `for (;;)` loop of `read_packet`, started with `fill = 0`. -/
def cmd_loop {β : Type} (h : XvcServerHandlers β) : Nat → Nat → World β → Loop β
  | 0, _, _ => .stuck
  | fuel + 1, cbuf, w =>
    match dispatch h w cbuf with
    | .next p w1 => cmd_loop h fuel p w1
    | .fill w1 => .brk true cbuf w1
    | .error w1 => .error w1
    | .abort w1 => .abort w1
    | .wild w1 => .wild w1

/-- Function `consume_packet` past its assertion. -/
def consume_packet (c : XvcClient) (len : Nat) : XvcClient :=
  { c with buf := c.buf.drop len }

/-- How `read_packet` ends: by `return`, at the label `error`, in a failed
assertion, or with the cursor before the end of the varints of an `idpc:`
command after a pointer addition that wrapped around. -/
inductive Exit where
  | closed
  | error
  | abort
  | wild
deriving DecidableEq, Repr

/-- The `recv` at the end of a read cycle: `Sum.inl` continues at `read_more`
with the received bytes appended, `Sum.inr` leaves `read_packet`. -/
def recv_more {β : Type} (w : World β) : World β ⊕ (Exit × World β) :=
  match w.rx with
  | [] => .inr (Exit.closed, w)
  | none :: rest => .inr (Exit.error, { w with rx := rest })
  | some chunk :: rest =>
    let room := u32 (w.c.buf_max + 2 ^ 32 - w.c.buf.length)
    let got := chunk.take room
    let left := chunk.drop room
    let rx := if left = [] then rest else some left :: rest
    if got.length > 0 then .inl { w with c := { w.c with buf := w.c.buf ++ got }, rx := rx }
    else .inr (Exit.closed, { w with rx := rx })

/-- The world after the call of the backend flush, if there is one. -/
def flush_world {β : Type} (h : XvcServerHandlers β) (w : World β) : World β :=
  match h.flush with
  | some f => { w with client_data := (f w.client_data).1, calls := w.calls ++ [Call.flush] }
  | none => w

/-- Whether the backend flush is present and returns a negative value. -/
def flush_failed {β : Type} (h : XvcServerHandlers β) (w : World β) : Bool :=
  match h.flush with
  | some f => decide ((f w.client_data).2 < 0)
  | none => false

/-- The body of `read_packet` from the label `read_more` on. -/
def read_more {β : Type} (h : XvcServerHandlers β) : Nat → World β → Option (Exit × World β)
  | 0, _ => none
  | fuel + 1, w =>
    let w0 : World β := { w with r := { w.r with reply_len := 0 } }
    match cmd_loop h (w0.c.buf.length + 1) 0 w0 with
    | .stuck => none
    | .error w1 => some (Exit.error, w1)
    | .abort w1 => some (Exit.abort, w1)
    | .wild w1 => some (Exit.wild, w1)
    | .brk fill cbuf w1 =>
      if 0 < cbuf then
        let wf := flush_world h w1
        if flush_failed h w1 = true then some (Exit.error, wf)
        else if wf.send_ok wf.tx.length = false then some (Exit.error, wf)
        else
          let w2 : World β := { wf with tx := wf.tx ++ [wf.r.packet] }
          if cbuf ≤ w2.c.buf.length then
            let w3 : World β := { w2 with c := consume_packet w2.c cbuf }
            if w3.c.buf.length ≠ 0 ∧ fill = false then read_more h fuel w3
            else match recv_more w3 with
              | .inl w4 => read_more h fuel w4
              | .inr x => some x
          else some (Exit.abort, w2)
      else match recv_more w1 with
        | .inl w4 => read_more h fuel w4
        | .inr x => some x

/-- Number of bytes the peer still delivers. -/
def rx_bytes : List (Option (List Nat)) → Nat
  | [] => 0
  | none :: rest => rx_bytes rest
  | some chunk :: rest => chunk.length + rx_bytes rest

/-- Function `read_packet`: the reply buffer is sized, then the read cycles
run until the connection ends. -/
def read_packet {β : Type} (h : XvcServerHandlers β) (w : World β) : Option (Exit × World β) :=
  read_more h (rx_bytes w.rx + 1) { w with r := reply_buf_size w.r max_packet_len }

/-- Connection set up by `xvcserver_start` after `accept`, with the input
buffer allocated at the address `addr`. -/
def accept_at (addr : Nat) : XvcClient :=
  { buf := [], buf_addr := addr, buf_max := max_packet_len, enable_locking := 0,
    enable_status := 0, pending_error := [] }

/-- Connection set up by `xvcserver_start` after `accept`, with the input
buffer at a sample address. -/
def accept_client : XvcClient := accept_at (2 ^ 40)

/-! ## Definitions used in the statements and proofs -/

/-- Bytes produced by the rounds of `reply_uleb128_loop` for `value`. -/
def uleb_bytes : Nat → Nat → List Nat
  | 0, _ => []
  | fuel + 1, value =>
    (if value ≥ 0x80 then (value &&& 0x7f) ||| 0x80 else value &&& 0x7f) ::
      (if value >>> 7 ≠ 0 then uleb_bytes fuel (value >>> 7) else [])

/-- Buffer `r` after the bytes `bs` were stored from offset `off` on. -/
def ReplyBuf.write_at (r : ReplyBuf) (off : Nat) (bs : List Nat) : ReplyBuf :=
  { r with reply_buf := memcpy r.reply_buf off (mem_of bs) bs.length,
           hi := if bs.length = 0 then r.hi else max r.hi (off + bs.length) }

/-- Buffer `r` after the bytes `bs` were appended at `reply_len`. -/
def ReplyBuf.append (r : ReplyBuf) (bs : List Nat) : ReplyBuf :=
  { r with reply_buf := memcpy r.reply_buf r.reply_len (mem_of bs) bs.length,
           reply_len := r.reply_len + bs.length,
           hi := if bs.length = 0 then r.hi else max r.hi (r.reply_len + bs.length) }

/-- World carried by a step result. -/
def Step.world {β : Type} : Step β → World β
  | .next _ w => w
  | .fill w => w
  | .error w => w
  | .abort w => w
  | .wild w => w

/-- Cursor after a dispatched command, if the step dispatched one. -/
def Step.cursor {β : Type} : Step β → Option Nat
  | .next p _ => some p
  | _ => none

/-- A backend without lock, flush and transactions, on a trivial state. -/
def bare_handlers : XvcServerHandlers Unit :=
  { lock := false, unlock := false, flush := none, edpc := none, idpc := none }

/-- A backend with lock and unlock and with transactions that do nothing. -/
def full_handlers : XvcServerHandlers Unit :=
  { lock := true, unlock := true, flush := none,
    edpc := some (fun _ _ => { client_data := (), num_words := 0, epkt_buf := none,
                               error := none }),
    idpc := some (fun _ _ _ _ => ((), none)) }

/-- The reply buffer as `reply_buf_size(max_packet_len)` leaves it in a fresh
process, with zeroed memory. -/
def fresh_reply : ReplyBuf :=
  { reply_buf := fun _ => 0, reply_max := 16384, reply_len := 0, hi := 0 }

/-- A freshly accepted connection that has `buf` in its input buffer and `rx`
still to come from the peer. -/
def fresh_world (buf : List Nat) (rx : List (Option (List Nat))) : World Unit :=
  { c := { accept_client with buf := buf }, r := fresh_reply, client_data := (), calls := [],
    rx := rx, send_ok := fun _ => true, tx := [] }

/-- A connection with the pending error `text` and `buf` in its input buffer. -/
def error_world (text buf : List Nat) : World Unit :=
  { fresh_world buf [] with c := { accept_client with buf := buf, pending_error := text } }

/-- Fields of a `configure:` body joined by commas. -/
def join_fields : List (List Nat) → List Nat
  | [] => []
  | [f] => f
  | f :: g :: fs => f ++ Char.toNat ',' :: join_fields (g :: fs)

/-- The boolean field `locking+`, `locking-`, `status+` or `status-`. -/
def flag_field (f : Bool × Bool) : List Nat :=
  (if f.1 = true then cstr "locking" else cstr "status") ++
    [if f.2 = true then Char.toNat '+' else Char.toNat '-']

/-- The connection with the flag named by a boolean field set to its value. -/
def set_flag (c : XvcClient) (f : Bool × Bool) : XvcClient :=
  if f.1 = true then { c with enable_locking := if f.2 = true then 1 else 0 }
  else { c with enable_status := if f.2 = true then 1 else 0 }

/-! ### Commands as values: what the framer reads and what the dispatcher does -/

/-- A framed command with its decoded arguments. -/
inductive Cmd where
  | getinfo
  | capabilities
  | configure (body : List Nat)
  | error
  | edpc (flags : Nat)
  | idpc (flags num_words : Nat) (data : List Nat)
deriving DecidableEq, Repr

/-- What the framer finds at the head of the unconsumed bytes: an incomplete
command (`need` is the extent the assertion of its branch compares with
`buf_max`, 0 when there is none or when it holds for every `buf_max`), a
protocol error, a complete command and its length, or an `idpc:` command whose
byte count wraps the cursor around (`plen` is its length up to the end of the
varints). -/
inductive Parse where
  | more (need : Nat)
  | bad
  | ok (cmd : Cmd) (len : Nat)
  | wrap (cmd : Cmd) (plen : Nat)
deriving DecidableEq, Repr

/-- The extent that an assertion on the signed difference `d` of two pointers
compares with `buf_max`: a difference from `2^63` on is negative and passes
for every `buf_max`. -/
def signed_need (d : Nat) : Nat := if 2 ^ 63 ≤ d then 0 else d

/-- Every bit set in `x` is set in `y`. -/
def submask (x y : Nat) : Prop := ∀ i, x.testBit i = true → y.testBit i = true

/-- The command tests of the framer for the name `d[0 .. len)`, with the
unconsumed bytes `d` at the address `a`. -/
def parse_cmd (has_edpc has_idpc : Bool) (a : Nat) (d : List Nat) (len : Nat) : Parse :=
  let name := d.take len
  if len = 8 ∧ name = cstr "getinfo:" then .ok .getinfo len
  else if len = 13 ∧ name = cstr "capabilities:" then .ok .capabilities len
  else if len = 10 ∧ name = cstr "configure:" then
    let g := get_uleb128_loop (d.drop len) 0 0 0
    let bytes := u32 g.1
    if d.length < len + g.2 + bytes then .more (len + g.2 + bytes + 1)
    else .ok (.configure ((d.drop (len + g.2)).take bytes)) (len + g.2 + bytes)
  else if len = 6 ∧ name = cstr "error:" then .ok .error len
  else if len = 5 ∧ name = cstr "edpc:" ∧ has_edpc = true then
    let g := get_uleb128_loop (d.drop len) 0 0 0
    if d.length < len + g.2 then .more (len + g.2)
    else .ok (.edpc (u32 g.1)) (len + g.2)
  else if len = 5 ∧ name = cstr "idpc:" ∧ has_idpc = true then
    let g1 := get_uleb128_loop (d.drop len) 0 0 0
    let g2 := get_uleb128_loop (d.drop (len + g1.2)) 0 0 0
    let num_words := u64 g2.1
    let num_bytes := u64 (num_words * 4)
    let pend := u64 (a + (len + g1.2 + g2.2) + num_bytes)
    if a + d.length < pend then .more (signed_need (pend - a))
    else if pend = a + (len + g1.2 + g2.2) + num_bytes then
      .ok (.idpc (u32 g1.1) num_words ((d.drop (len + g1.2 + g2.2)).take (4 * num_words)))
        (len + g1.2 + g2.2 + num_bytes)
    else
      .wrap (.idpc (u32 g1.1) num_words ((d.drop (len + g1.2 + g2.2)).take (4 * num_words)))
        (len + g1.2 + g2.2)
  else .bad

/-- The framer as a function of the unconsumed bytes `d` and their address
`a`. -/
def parse (has_edpc has_idpc : Bool) (a : Nat) (d : List Nat) : Parse :=
  let e := if 30 < d.length then 30 else d.length
  let q := scan (d.take e) 0
  if q ≥ e then
    if q ≥ 30 then .bad else .more 0
  else parse_cmd has_edpc has_idpc a d (q + 1)

/-- What the dispatcher does with a complete command, apart from the stores
into the input buffer; `avail` is the number of buffered bytes after the
varints of `idpc:`, kept for the call record. -/
def exec {β : Type} (h : XvcServerHandlers β) (w : World β) (avail : Nat) : Cmd → World β
  | .getinfo => (cmd_getinfo w 0).world
  | .capabilities => (cmd_capabilities h w 0).world
  | .configure body =>
    { w with c := configure_fields h body.length body w.c,
             r := reply_status (configure_fields h body.length body w.c) w.r }
  | .error => (cmd_error w 0).world
  | .edpc flags =>
    match h.edpc with
    | none => w
    | some f =>
      let res : EdpcResult β :=
        if w.c.pending_error.headD 0 = 0 then f w.client_data flags
        else { client_data := w.client_data, num_words := 0, epkt_buf := none, error := none }
      let calls := if w.c.pending_error.headD 0 = 0 then w.calls ++ [Call.edpc flags] else w.calls
      let c1 := match res.error with
        | some text => xvcserver_set_error w.c text
        | none => w.c
      let num_words := u64 res.num_words
      let num_bytes := u64 (num_words * 4)
      let r1 := reply_uleb128 w.r num_words
      let r2 := match res.epkt_buf with
        | some src => r1.copy src num_bytes
        | none => r1
      let r3 := if c1.pending_error.headD 0 ≠ 0 then r2.fill 0 num_bytes else r2
      let r4 := r3.advance num_bytes
      { w with c := c1, client_data := res.client_data, calls := calls,
               r := reply_status c1 r4 }
  | .idpc flags num_words data =>
    match h.idpc with
    | none => w
    | some f =>
      let res : β × Option (List Nat) :=
        if w.c.pending_error.headD 0 = 0 then f w.client_data flags num_words data
        else (w.client_data, none)
      let calls := if w.c.pending_error.headD 0 = 0 then
          w.calls ++ [Call.idpc flags num_words avail]
        else w.calls
      let c1 := match res.2 with
        | some text => xvcserver_set_error w.c text
        | none => w.c
      { w with c := c1, client_data := res.1, calls := calls, r := reply_status c1 w.r }

/-- Number of buffered bytes after the varints of a complete `idpc:` of length
`len` that starts at `cbuf`. -/
def idpc_avail (buf_len cbuf len : Nat) : Cmd → Nat
  | .idpc _ num_words _ => buf_len - (cbuf + len - u64 (num_words * 4))
  | _ => 0

/-- The input buffer `buf` after a complete command of length `len` framed at
`cbuf`: the body of `configure:` holds the terminators that the field loop
stored. -/
def stores {β : Type} (h : XvcServerHandlers β) (c : XvcClient) (cbuf len : Nat) :
    Cmd → List Nat
  | .configure body =>
    c.buf.take (cbuf + len - body.length) ++ configure_stores h body.length body c ++
      c.buf.drop (cbuf + len)
  | _ => c.buf

/-- The world `w` with the input buffer `b`. -/
def World.set_buf {β : Type} (w : World β) (b : List Nat) : World β :=
  { w with c := { w.c with buf := b } }

/-- The world `w1` after the stores of a complete command of length `len`
framed at `cbuf` in the input buffer of `c`. -/
def put_stores {β : Type} (h : XvcServerHandlers β) (c : XvcClient) (cbuf len : Nat)
    (w1 : World β) : Cmd → World β
  | .configure body => w1.set_buf (stores h c cbuf len (.configure body))
  | _ => w1

/-- The round of the command loop in terms of `parse` and `exec`. -/
def interp {β : Type} (h : XvcServerHandlers β) (w : World β) (cbuf : Nat) : Parse → Step β
  | .more need => if need ≤ w.c.buf_max then .fill w else .abort w
  | .bad => .error w
  | .ok cmd len =>
    .next (cbuf + len)
      (put_stores h w.c cbuf len (exec h w (idpc_avail w.c.buf.length cbuf len cmd) cmd) cmd)
  | .wrap cmd plen => .wild (exec h w (w.c.buf.length - (cbuf + plen)) cmd)

/-- An `idpc:` command whose byte count `4 * num_words` does not wrap. -/
def Cmd.honest : Cmd → Prop
  | .idpc _ num_words _ => num_words * 4 < 2 ^ 64
  | _ => True

/-- A command without the data words of `idpc:`. -/
def Cmd.forget : Cmd → Cmd
  | .idpc flags num_words _ => .idpc flags num_words []
  | c => c

/-- The part of a backend output transaction that `edpc:` uses when no error
is pending, and the empty result it uses otherwise. -/
def edpc_result {β : Type} (f : β → Nat → EdpcResult β) (c : XvcClient) (cd : β) (flags : Nat) :
    EdpcResult β :=
  if c.pending_error.headD 0 = 0 then f cd flags
  else { client_data := cd, num_words := 0, epkt_buf := none, error := none }

/-- Connection and backend state after a complete command. -/
def exec_conn {β : Type} (h : XvcServerHandlers β) (c : XvcClient) (cd : β) : Cmd → XvcClient × β
  | .getinfo => (c, cd)
  | .capabilities => (c, cd)
  | .configure body => (configure_fields h body.length body c, cd)
  | .error => ({ c with pending_error := [] }, cd)
  | .edpc flags =>
    match h.edpc with
    | none => (c, cd)
    | some f =>
      (match (edpc_result f c cd flags).error with
        | some text => xvcserver_set_error c text
        | none => c,
       (edpc_result f c cd flags).client_data)
  | .idpc flags num_words data =>
    match h.idpc with
    | none => (c, cd)
    | some f =>
      if c.pending_error.headD 0 = 0 then
        (match (f cd flags num_words data).2 with
          | some text => xvcserver_set_error c text
          | none => c,
         (f cd flags num_words data).1)
      else (c, cd)

/-- The status byte for the connection `c`. -/
def status_byte (c : XvcClient) : Nat := if c.pending_error.headD 0 ≠ 0 then 1 else 0

/-- The reply bytes of a complete command, as they are written when the reply
buffer has room for them. -/
def cmd_reply {β : Type} (h : XvcServerHandlers β) (c : XvcClient) (cd : β) : Cmd → List Nat
  | .getinfo => getinfo_text c.buf_max
  | .capabilities =>
    uleb_bytes 5 (u32 (u32 (strlen (cstr "status," ++
        (if h.idpc.isSome = true ∧ h.edpc.isSome = true then cstr "dpc" else []))))) ++
      mem_slice (mem_of (cstr "status," ++
        (if h.idpc.isSome = true ∧ h.edpc.isSome = true then cstr "dpc" else []))) 0
        (u32 (strlen (cstr "status," ++
          (if h.idpc.isSome = true ∧ h.edpc.isSome = true then cstr "dpc" else []))))
  | .configure body => [status_byte (configure_fields h body.length body c)]
  | .error =>
    uleb_bytes 5 (u32 (if u32 (strlen c.pending_error) >
          u32 (c.buf_max + 2 ^ 32 - u32 (u32 (strlen c.pending_error) + 127) / 128)
        then u32 (c.buf_max + 2 ^ 32 - u32 (u32 (strlen c.pending_error) + 127) / 128)
        else u32 (strlen c.pending_error))) ++
      mem_slice (mem_of c.pending_error) 0
        (if u32 (strlen c.pending_error) >
          u32 (c.buf_max + 2 ^ 32 - u32 (u32 (strlen c.pending_error) + 127) / 128)
        then u32 (c.buf_max + 2 ^ 32 - u32 (u32 (strlen c.pending_error) + 127) / 128)
        else u32 (strlen c.pending_error))
  | .edpc flags =>
    match h.edpc with
    | none => []
    | some f =>
      uleb_bytes 5 (u32 (u64 (edpc_result f c cd flags).num_words)) ++
        (if (exec_conn h c cd (.edpc flags)).1.pending_error.headD 0 ≠ 0 then
            List.replicate (u64 (u64 (edpc_result f c cd flags).num_words * 4)) 0
          else match (edpc_result f c cd flags).epkt_buf with
            | some src => mem_slice src 0 (u64 (u64 (edpc_result f c cd flags).num_words * 4))
            | none => []) ++
        [status_byte (exec_conn h c cd (.edpc flags)).1]
  | .idpc flags num_words data =>
    match h.idpc with
    | none => []
    | some _ => [status_byte (exec_conn h c cd (.idpc flags num_words data)).1]

/-- Backends whose output transaction returns at most one packet of data, and
a data pointer whenever it returns data. -/
def edpc_sound {β : Type} (h : XvcServerHandlers β) : Prop :=
  ∀ f, h.edpc = some f → ∀ cd flags,
    (f cd flags).num_words * 4 ≤ max_packet_len ∧
    ((f cd flags).num_words ≠ 0 → (f cd flags).epkt_buf.isSome = true)

/-! ### Two deliveries of the same bytes -/

/-- A freshly accepted connection with the input buffer at the address `addr`,
over a backend in state `cd`, with `rx` still to come from the peer and a
transport that accepts every packet. -/
def accepted_at {β : Type} (addr : Nat) (cd : β) (rx : List (Option (List Nat))) : World β :=
  { c := accept_at addr, r := fresh_reply, client_data := cd, calls := [], rx := rx,
    send_ok := fun _ => true, tx := [] }

/-- A freshly accepted connection with the input buffer at the sample address. -/
def accepted {β : Type} (cd : β) (rx : List (Option (List Nat))) : World β :=
  accepted_at (2 ^ 40) cd rx

/-- All bytes delivered by one transport read. -/
def one_read (bs : List Nat) : List (Option (List Nat)) := [some bs]

/-- One byte delivered per transport read. -/
def byte_reads (bs : List Nat) : List (Option (List Nat)) := bs.map (fun b => some [b])

/-- The end of a read cycle: `recv`, and the next cycle if bytes arrived. -/
def cont {β : Type} (h : XvcServerHandlers β) (fuel : Nat) (v : World β) : Option (Exit × World β) :=
  match recv_more v with
  | .inl w4 => read_more h fuel w4
  | .inr x => some x

/-- A backend flush, if present, succeeds and leaves the backend state as it
is. -/
def flush_neutral {β : Type} (h : XvcServerHandlers β) : Prop :=
  ∀ f, h.flush = some f → ∀ cd, (f cd).1 = cd ∧ 0 ≤ (f cd).2

/-- The final state of a run of `read_packet`: how it ended, the locking flag,
the status flag, the pending error text, the unconsumed input bytes and the
concatenation of the packets handed to the transport. -/
def final_state {β : Type} (x : Exit × World β) : Exit × Int × Int × List Nat × List Nat × List Nat :=
  (x.1, x.2.c.enable_locking, x.2.c.enable_status, x.2.c.pending_error, x.2.c.buf, x.2.tx.flatten)

/-- An output transaction that returns the two words `1 2 3 4 5 6 7 8`, and
that fails with the error `fail` when bit 0 of the flags is set. -/
def sample_edpc : Unit → Nat → EdpcResult Unit := fun _ flags =>
  { client_data := (), num_words := 2, epkt_buf := some (mem_of [1, 2, 3, 4, 5, 6, 7, 8]),
    error := if flags % 2 = 1 then some (cstr "fail") else none }

/-- A backend whose only transaction is `sample_edpc`. -/
def edpc_handlers : XvcServerHandlers Unit :=
  { lock := true, unlock := true, flush := none, edpc := some sample_edpc, idpc := none }

/-- Little-endian value of the 7-bit groups of `bytes`. -/
def group_value : List Nat → Nat
  | [] => 0
  | b :: rest => (b &&& 0x7f) + 128 * group_value rest

/-- The error that one pass of the field loop of `configure:` sets for the
field `config`, if it sets one. -/
def field_error {β : Type} (h : XvcServerHandlers β) (config : List Nat) : Option (List Nat) :=
  let ce := config_enable config
  if ce.1 = cstr "locking" ∧ h.lock = true ∧ h.unlock = true then
    if ce.2 < 0 then some (cstr "configuration \"locking\" requires boolean + or -") else none
  else if ce.1 = cstr "status" then
    if ce.2 < 0 then some (cstr "configuration \"status\" requires boolean + or -") else none
  else some (cstr "unexpected configuration: " ++ ce.1)

/-- The body that starts with the boolean fields `fs`, each followed by a
comma, and goes on with `s`. -/
def fields_before (fs : List (Bool × Bool)) (s : List Nat) : List Nat :=
  fs.foldr (fun f acc => flag_field f ++ 44 :: acc) s

/-- The world in which the command loop ends, if it ends. -/
def Loop.world {β : Type} : Loop β → Option (World β)
  | .brk _ _ w => some w
  | .error w => some w
  | .abort w => some w
  | .wild w => some w
  | .stuck => none

/-- How the command loop stopped at an incomplete command: the `fill` flag, the
cursor and the reply length that is sent. -/
def Loop.sent {β : Type} : Loop β → Option (Bool × Nat × Nat)
  | .brk fill cbuf w => some (fill, cbuf, w.r.reply_len)
  | _ => none

/-- The command `getinfo:` sent `n` times. -/
def getinfo_batch (n : Nat) : List Nat := (List.replicate n (cstr "getinfo:")).flatten

/-- What a pending error of `e` bytes adds to the reply of the `error:` that
reports it, a varint of one or two bytes and the text, beyond the share of the
6 bytes of that command (in units of 1/8 byte, at 21 reply bytes per 8 input
bytes). -/
def err_cost (e : Nat) : Nat := 8 * (e + (if e < 128 then 1 else 2)) - 126

/-- A backend whose input transaction, if present, reports no error. -/
def idpc_quiet {β : Type} (h : XvcServerHandlers β) : Prop :=
  ∀ f, h.idpc = some f → ∀ cd flags n data, (f cd flags n data).2 = none

/-- A backend whose input transaction reports an error of 1023 bytes. -/
def loud_handlers : XvcServerHandlers Unit :=
  { lock := true, unlock := true, flush := none, edpc := none,
    idpc := some (fun _ _ _ _ => ((), some (List.replicate 1023 65))) }

/-- The least number of input bytes of a complete command. -/
def Cmd.min_len : Cmd → Nat
  | .getinfo => 8
  | .capabilities => 13
  | .configure body => 11 + body.length
  | .error => 6
  | .edpc _ => 6
  | .idpc _ _ _ => 7

/-! ## The varint codec -/

theorem u32_of_lt {x : Nat} (h : x < 2 ^ 32) : u32 x = x := Nat.mod_eq_of_lt h

theorem u64_of_lt {x : Nat} (h : x < 2 ^ 64) : u64 x = x := Nat.mod_eq_of_lt h

theorem low7_bits : ∀ m, m < 128 →
    (m ||| 128) &&& 127 = m ∧ (m ||| 128) &&& 128 ≠ 0 ∧ m &&& 127 = m ∧ m &&& 128 = 0 := by
  decide

theorem and_127 (x : Nat) : x &&& 127 = x % 128 := Nat.and_pow_two_sub_one_eq_mod x 7

theorem memcpy_zero (mem : Nat → Nat) (dst : Nat) (src : Nat → Nat) :
    memcpy mem dst src 0 = mem := by
  funext j
  simp [memcpy]

theorem memcpy_store_cons (mem : Nat → Nat) (off b : Nat) (rest : List Nat) :
    memcpy (store mem off b) (off + 1) (mem_of rest) rest.length =
      memcpy mem off (mem_of (b :: rest)) (rest.length + 1) := by
  funext j
  simp only [memcpy, store, mem_of]
  by_cases h1 : j = off
  · subst h1
    simp
  · by_cases h2 : off + 1 ≤ j ∧ j < off + 1 + rest.length
    · have h3 : off ≤ j ∧ j < off + (rest.length + 1) := by omega
      have h4 : j - off = (j - (off + 1)) + 1 := by omega
      rw [if_pos h2, if_pos h3, h4]
      simp
    · have h3 : ¬ (off ≤ j ∧ j < off + (rest.length + 1)) := by omega
      rw [if_neg h2, if_neg h3, if_neg h1]

theorem write_at_nil (r : ReplyBuf) (off : Nat) : r.write_at off [] = r := by
  simp [ReplyBuf.write_at, memcpy_zero]

theorem put_write_at (r : ReplyBuf) (off b : Nat) (rest : List Nat) :
    (r.put off b).write_at (off + 1) rest = r.write_at off (b :: rest) := by
  simp only [ReplyBuf.write_at, ReplyBuf.put, memcpy_store_cons, List.length_cons]
  congr 1
  by_cases h : rest.length = 0
  · simp [h]
  · simp [h]
    omega

theorem write_at_reply_len (r : ReplyBuf) (off : Nat) (bs : List Nat) :
    (r.write_at off bs).reply_len = r.reply_len := rfl

theorem uleb_bytes_length_le (fuel value : Nat) : (uleb_bytes fuel value).length ≤ fuel := by
  induction fuel generalizing value with
  | zero => simp [uleb_bytes]
  | succ n ih =>
    have := ih (value >>> 7)
    by_cases hv : value >>> 7 = 0
    · simp [uleb_bytes, hv]
    · simp [uleb_bytes, hv]
      omega

theorem uleb_bytes_length_pos (fuel value : Nat) : 1 ≤ (uleb_bytes (fuel + 1) value).length := by
  simp [uleb_bytes]

/-- With room for every round, the loop of `reply_uleb128` stores `uleb_bytes`. -/
theorem reply_uleb128_loop_eq (fuel : Nat) (r : ReplyBuf) (value pos : Nat)
    (hroom : r.reply_len + pos + (uleb_bytes fuel value).length ≤ max_packet_len) :
    reply_uleb128_loop fuel r value pos =
      (r.write_at (r.reply_len + pos) (uleb_bytes fuel value),
       pos + (uleb_bytes fuel value).length) := by
  induction fuel generalizing r value pos with
  | zero => simp [reply_uleb128_loop, uleb_bytes, write_at_nil]
  | succ n ih =>
    have hmax : max_packet_len = 10000 := rfl
    have hlen : (uleb_bytes (n + 1) value).length =
        1 + (if value >>> 7 ≠ 0 then uleb_bytes n (value >>> 7) else []).length := by
      simp [uleb_bytes, Nat.add_comm]
    rw [hlen] at hroom
    have h1 : u32 (r.reply_len + pos) = r.reply_len + pos := u32_of_lt (by omega)
    have h2 : u32 (pos + 1) = pos + 1 := u32_of_lt (by omega)
    have h3 : r.reply_len + pos < max_packet_len := by omega
    have hput : ∀ b, (r.put (r.reply_len + pos) b).reply_len = r.reply_len := fun _ => rfl
    by_cases hv : value >>> 7 = 0
    · by_cases hb : value ≥ 128
      · simp [reply_uleb128_loop, h1, h2, h3, hv, hb, uleb_bytes, ← put_write_at, write_at_nil]
      · simp [reply_uleb128_loop, h1, h2, h3, hv, hb, uleb_bytes, ← put_write_at, write_at_nil]
    · by_cases hb : value ≥ 128
      · have e := ih (r.put (r.reply_len + pos) (value &&& 127 ||| 128)) (value >>> 7) (pos + 1)
          (by rw [hput]; rw [if_pos hv] at hroom; omega)
        rw [hput, ← Nat.add_assoc, put_write_at] at e
        simp [reply_uleb128_loop, h1, h2, h3, hv, hb, uleb_bytes, e]
        omega
      · exfalso
        apply hv
        rw [Nat.shiftRight_eq_div_pow]
        have : value < 128 := by omega
        simp
        omega

/-- With room for its bytes, `reply_uleb128` appends `uleb_bytes`. -/
theorem reply_uleb128_eq (r : ReplyBuf) (value : Nat)
    (hroom : r.reply_len + (uleb_bytes 5 (u32 value)).length ≤ max_packet_len) :
    reply_uleb128 r value = r.append (uleb_bytes 5 (u32 value)) := by
  have hmax : max_packet_len = 10000 := rfl
  have e := reply_uleb128_loop_eq 5 r (u32 value) 0 (by simpa using hroom)
  unfold reply_uleb128
  rw [e]
  have h : u32 (r.reply_len + (uleb_bytes 5 (u32 value)).length) =
      r.reply_len + (uleb_bytes 5 (u32 value)).length := u32_of_lt (by omega)
  simp only [ReplyBuf.advance, ReplyBuf.write_at, ReplyBuf.append, Nat.add_zero, Nat.zero_add, h]

theorem mem_slice_length (mem : Nat → Nat) (off n : Nat) : (mem_slice mem off n).length = n := by
  simp [mem_slice]

theorem mem_slice_add (mem : Nat → Nat) (off m n : Nat) :
    mem_slice mem off (m + n) = mem_slice mem off m ++ mem_slice mem (off + m) n := by
  simp only [mem_slice, List.range_add, List.map_append, List.map_map]
  congr 1
  apply List.map_congr_left
  intro i _
  simp [Nat.add_assoc]

theorem mem_slice_congr (m1 m2 : Nat → Nat) (off n : Nat)
    (h : ∀ j, off ≤ j → j < off + n → m1 j = m2 j) :
    mem_slice m1 off n = mem_slice m2 off n := by
  simp only [mem_slice]
  apply List.map_congr_left
  intro i hi
  have := List.mem_range.mp hi
  exact h (off + i) (by omega) (by omega)

theorem mem_slice_mem_of (bs : List Nat) : mem_slice (mem_of bs) 0 bs.length = bs := by
  apply List.ext_getElem
  · simp [mem_slice]
  · intro i h1 h2
    simp [mem_slice, mem_of, List.getD_eq_getElem?_getD, List.getElem?_eq_getElem h2]

theorem mem_slice_memcpy (mem : Nat → Nat) (off : Nat) (bs : List Nat) :
    mem_slice (memcpy mem off (mem_of bs) bs.length) off bs.length = bs := by
  have h : mem_slice (memcpy mem off (mem_of bs) bs.length) off bs.length =
      mem_slice (mem_of bs) 0 bs.length := by
    simp only [mem_slice]
    apply List.map_congr_left
    intro i hi
    have := List.mem_range.mp hi
    simp [memcpy, this]
  rw [h, mem_slice_mem_of]

/-- The packet after an append is the old packet followed by the new bytes. -/
theorem packet_append (r : ReplyBuf) (bs : List Nat) :
    (r.append bs).packet = r.packet ++ bs := by
  simp only [ReplyBuf.packet, ReplyBuf.append, mem_slice_add, Nat.zero_add]
  congr 1
  · apply mem_slice_congr
    intro j _ h2
    simp only [memcpy]
    rw [if_neg (by omega)]
  · exact mem_slice_memcpy _ _ _

theorem pow_mul_128 (i : Nat) : 2 ^ (i + 7) = 2 ^ i * 128 := by
  rw [Nat.pow_add]

theorem or_shift_eq_add (acc m i : Nat) (hacc : acc < 2 ^ i) (hm : m * 2 ^ i < 2 ^ 64)
    (hi : i < 64) : acc ||| u64 (m <<< (i % 64)) = acc + m * 2 ^ i := by
  rw [Nat.mod_eq_of_lt hi, Nat.shiftLeft_eq, u64_of_lt hm, Nat.or_comm, Nat.mul_comm,
    ← Nat.mul_add_lt_is_or hacc, Nat.add_comm]

/-- Decoding the bytes of `uleb_bytes`: value and cursor. -/
theorem get_uleb128_loop_bytes (fuel : Nat) (value : Nat) (rest : List Nat) (acc i p : Nat)
    (hfuel : value < 128 ^ (fuel + 1)) (hacc : acc < 2 ^ i) (hfit : value * 2 ^ i < 2 ^ 64)
    (hi : i < 64) :
    get_uleb128_loop (uleb_bytes (fuel + 1) value ++ rest) acc i p =
      (acc + value * 2 ^ i, p + (uleb_bytes (fuel + 1) value).length) := by
  induction fuel generalizing value acc i p with
  | zero =>
    have hlt : value < 128 := by simpa using hfuel
    have hb := low7_bits value hlt
    have hstep := or_shift_eq_add acc value i hacc hfit hi
    have hq : value >>> 7 = 0 := by
      rw [Nat.shiftRight_eq_div_pow]
      simp
      omega
    have hub : uleb_bytes 1 value = [value] := by
      simp [uleb_bytes, hq, hb.2.2.1]
      omega
    rw [hub, List.cons_append, get_uleb128_loop]
    simp [hb.2.2.1, hb.2.2.2, hstep]
  | succ n ih =>
    have hlow : value % 128 < 128 := Nat.mod_lt _ (by decide)
    have hb := low7_bits (value % 128) hlow
    have hpos : 0 < 2 ^ i := Nat.pow_pos (by decide)
    have hdm : value = 128 * (value / 128) + value % 128 := (Nat.div_add_mod value 128).symm
    have hq : value >>> 7 = value / 128 := by rw [Nat.shiftRight_eq_div_pow]
    have h127 : value &&& 127 = value % 128 := and_127 value
    have hle : value % 128 * 2 ^ i ≤ value * 2 ^ i :=
      Nat.mul_le_mul_right _ (Nat.mod_le _ _)
    have hstep := or_shift_eq_add acc (value % 128) i hacc (by omega) hi
    by_cases hv : value ≥ 128
    · have hne : ¬ (value / 128 = 0) := by omega
      have hub : uleb_bytes (n + 1 + 1) value = (value % 128 ||| 128) :: uleb_bytes (n + 1) (value / 128) := by
        simp [uleb_bytes, hv, hq, hne, h127]
      have hsplit : value * 2 ^ i = value / 128 * (2 ^ i * 128) + value % 128 * 2 ^ i := by
        conv_lhs => rw [hdm]
        ring
      have hm : value % 128 * 2 ^ i ≤ 127 * 2 ^ i := Nat.mul_le_mul_right _ (by omega)
      have hacc2 : acc + value % 128 * 2 ^ i < 2 ^ (i + 7) := by
        rw [pow_mul_128]
        omega
      have hfit2 : value / 128 * 2 ^ (i + 7) < 2 ^ 64 := by
        rw [pow_mul_128]
        omega
      have hfuel2 : value / 128 < 128 ^ (n + 1) := by
        rw [Nat.pow_succ] at hfuel
        exact Nat.div_lt_of_lt_mul (by rw [Nat.mul_comm]; exact hfuel)
      have hi2 : i + 7 < 64 := by
        have h1 : 1 ≤ value / 128 := by omega
        have h2 : 2 ^ (i + 7) ≤ value / 128 * 2 ^ (i + 7) := Nat.le_mul_of_pos_left _ h1
        exact (Nat.pow_lt_pow_iff_right (by decide)).mp (lt_of_le_of_lt h2 hfit2)
      have e := ih (value / 128) (acc + value % 128 * 2 ^ i) (i + 7) (p + 1) hfuel2 hacc2 hfit2
        hi2
      rw [hub, List.cons_append, get_uleb128_loop]
      simp only [hb.1, hb.2.1, hstep, ne_eq, not_false_eq_true, if_true, e, List.length_cons]
      rw [pow_mul_128]
      refine Prod.ext ?_ ?_
      · simp only
        omega
      · simp only
        omega
    · have hlt : value < 128 := by omega
      have hmod : value % 128 = value := Nat.mod_eq_of_lt hlt
      have hz : value / 128 = 0 := by omega
      have hub : uleb_bytes (n + 1 + 1) value = [value] := by
        simp [uleb_bytes, hv, hq, hz, h127, hmod]
      rw [hmod] at hb hstep
      rw [hub, List.cons_append, get_uleb128_loop]
      simp [hb.2.2.1, hb.2.2.2, hstep]

/-- Decoding in place: a buffer that holds `uleb_bytes 5 v` at the cursor. -/
theorem get_uleb128_bytes (pre post : List Nat) (v bufend : Nat) (hv : v < 2 ^ 32)
    (hend : pre.length + (uleb_bytes 5 v).length ≤ bufend) :
    get_uleb128 (pre ++ uleb_bytes 5 v ++ post) pre.length bufend =
      (v, pre.length + (uleb_bytes 5 v).length) := by
  have hsplit : ((pre ++ uleb_bytes 5 v ++ post).take bufend).drop pre.length =
      uleb_bytes 5 v ++ post.take (bufend - pre.length - (uleb_bytes 5 v).length) := by
    rw [List.append_assoc, List.take_append_eq_append_take, List.drop_append_eq_append_drop]
    have h1 : (pre.take bufend).length = pre.length := by
      rw [List.length_take]; omega
    have h2 : (pre.take bufend).drop pre.length = [] := by
      rw [List.drop_eq_nil_iff]; omega
    rw [h1, h2, Nat.sub_self, List.drop_zero, List.nil_append, List.take_append_eq_append_take]
    congr 1
    rw [List.take_of_length_le]; omega
  unfold get_uleb128
  rw [hsplit, get_uleb128_loop_bytes 4 v _ 0 0 pre.length (by omega) (by simp) (by omega)
    (by decide)]
  simp

/-- C1. Varint round trip: for every unsigned 32-bit value `v` and a reply
buffer with room for the encoding, `reply_uleb128` adds at least one byte, and
`get_uleb128` run on the reply bytes from the old `reply_len` up to the new one
returns `v` and moves the cursor exactly to the new `reply_len`. -/
theorem uleb128_round_trip (r : ReplyBuf) (v : Nat) (hv : v < 2 ^ 32)
    (hroom : r.reply_len + 5 ≤ max_packet_len) :
    r.reply_len + 1 ≤ (reply_uleb128 r v).reply_len ∧
    get_uleb128 (reply_uleb128 r v).packet r.reply_len (reply_uleb128 r v).reply_len =
      (v, (reply_uleb128 r v).reply_len) := by
  have hu : u32 v = v := u32_of_lt hv
  have hlen := uleb_bytes_length_le 5 v
  have hpos : 1 ≤ (uleb_bytes 5 v).length := uleb_bytes_length_pos 4 v
  have e : reply_uleb128 r v = r.append (uleb_bytes 5 v) := by
    have := reply_uleb128_eq r v (by rw [hu]; omega)
    rwa [hu] at this
  have hp : r.packet.length = r.reply_len := by simp [ReplyBuf.packet, mem_slice_length]
  rw [e, packet_append]
  constructor
  · simp only [ReplyBuf.append]
    omega
  · have := get_uleb128_bytes r.packet [] v (r.append (uleb_bytes 5 v)).reply_len hv
      (by simp [ReplyBuf.append, hp])
    rw [List.append_nil, hp] at this
    rw [this]
    simp [ReplyBuf.append]

theorem uleb128_round_trip_witness :
    (0 : Nat) + 1 ≤ (reply_uleb128 ⟨fun _ => 0, 16384, 0, 0⟩ 300).reply_len ∧
    get_uleb128 (reply_uleb128 ⟨fun _ => 0, 16384, 0, 0⟩ 300).packet 0
        (reply_uleb128 ⟨fun _ => 0, 16384, 0, 0⟩ 300).reply_len =
      (300, (reply_uleb128 ⟨fun _ => 0, 16384, 0, 0⟩ 300).reply_len) :=
  uleb128_round_trip ⟨fun _ => 0, 16384, 0, 0⟩ 300 (by decide) (by decide)

/-! ## Framing -/

theorem scan_found (body rest : List Nat) (p : Nat) (hb : 58 ∉ body) :
    scan (body ++ 58 :: rest) p = p + body.length := by
  induction body generalizing p with
  | nil => simp [scan]
  | cons b t ih =>
    have h1 : b ≠ 58 := fun h => hb (by simp [h])
    have h2 : 58 ∉ t := fun h => hb (by simp [h])
    have := ih (p + 1) h2
    show (if b ≠ Char.toNat ':' then scan (t ++ 58 :: rest) (p + 1) else p) = _
    rw [if_pos (by simpa using h1), this, List.length_cons]
    omega

theorem drop_length_le {α : Type} (l : List α) (n : Nat) (x : List α) (hx : x ≠ [])
    (h : l.drop n = x) : n + x.length = l.length := by
  have h1 : (l.drop n).length = x.length := by rw [h]
  rw [List.length_drop] at h1
  have : 0 < x.length := List.length_pos.mpr hx
  omega

/-- A command name that ends within the scan window is handed to the command
tests with the cursor just past its colon. -/
theorem dispatch_framed {β : Type} (h : XvcServerHandlers β) (w : World β) (cbuf : Nat)
    (body rest : List Nat) (hd : w.c.buf.drop cbuf = body ++ 58 :: rest)
    (hb : 58 ∉ body) (hlen : body.length < 30) :
    dispatch h w cbuf = dispatch_cmd h w cbuf (cbuf + body.length + 1) := by
  have hl := drop_length_le w.c.buf cbuf _ (by simp) hd
  simp only [List.length_append, List.length_cons] at hl
  have key : ∀ e, cbuf + body.length + 1 ≤ e →
      scan ((w.c.buf.take e).drop cbuf) cbuf = cbuf + body.length := by
    intro e he
    have h1 : e - cbuf = body.length + (e - cbuf - body.length) := by omega
    have h2 : e - cbuf - body.length = (e - cbuf - body.length - 1) + 1 := by omega
    rw [List.drop_take, hd, h1, List.take_append, h2, List.take_succ_cons]
    exact scan_found _ _ _ hb
  unfold dispatch
  simp only []
  by_cases he : cbuf + 30 < w.c.buf.length
  · rw [if_pos he, key _ (by omega), if_neg (by omega)]
  · rw [if_neg he, key _ (by omega), if_neg (by omega)]

theorem take_drop_name (buf : List Nat) (cbuf : Nat) (name rest : List Nat)
    (hd : buf.drop cbuf = name ++ rest) : (buf.drop cbuf).take name.length = name := by
  rw [hd, List.take_left]

theorem dispatch_getinfo {β : Type} (h : XvcServerHandlers β) (w : World β) (cbuf : Nat)
    (rest : List Nat) (hd : w.c.buf.drop cbuf = cstr "getinfo:" ++ rest) :
    dispatch h w cbuf = cmd_getinfo w (cbuf + 8) := by
  have hn := take_drop_name _ _ _ _ hd
  rw [dispatch_framed h w cbuf (cstr "getinfo") rest (by rw [hd]; rfl) (by decide) (by decide)]
  have hl : u32 (cbuf + (cstr "getinfo").length + 1 - cbuf) = 8 := by
    rw [show cbuf + (cstr "getinfo").length + 1 - cbuf = 8 by simp [cstr]; omega]; rfl
  have hn8 : List.take 8 (List.drop cbuf w.c.buf) = cstr "getinfo:" := hn
  unfold dispatch_cmd
  simp only [hl, hn8, and_self, if_true]
  rfl

/-! ## Selection of the command branch -/

theorem dispatch_capabilities {β : Type} (h : XvcServerHandlers β) (w : World β) (cbuf : Nat)
    (rest : List Nat) (hd : w.c.buf.drop cbuf = cstr "capabilities:" ++ rest) :
    dispatch h w cbuf = cmd_capabilities h w (cbuf + 13) := by
  have hn : List.take 13 (List.drop cbuf w.c.buf) = cstr "capabilities:" :=
    take_drop_name _ _ _ _ hd
  rw [dispatch_framed h w cbuf (cstr "capabilities") rest (by rw [hd]; rfl) (by decide)
    (by decide)]
  have hl : u32 (cbuf + (cstr "capabilities").length + 1 - cbuf) = 13 := by
    rw [show cbuf + (cstr "capabilities").length + 1 - cbuf = 13 by simp [cstr]; omega]; rfl
  unfold dispatch_cmd
  simp only [hl, hn]
  rw [if_neg (by decide), if_pos (by decide)]
  rfl

theorem dispatch_configure {β : Type} (h : XvcServerHandlers β) (w : World β) (cbuf : Nat)
    (rest : List Nat) (hd : w.c.buf.drop cbuf = cstr "configure:" ++ rest) :
    dispatch h w cbuf = cmd_configure h w cbuf (cbuf + 10) := by
  have hn : List.take 10 (List.drop cbuf w.c.buf) = cstr "configure:" :=
    take_drop_name _ _ _ _ hd
  rw [dispatch_framed h w cbuf (cstr "configure") rest (by rw [hd]; rfl) (by decide)
    (by decide)]
  have hl : u32 (cbuf + (cstr "configure").length + 1 - cbuf) = 10 := by
    rw [show cbuf + (cstr "configure").length + 1 - cbuf = 10 by simp [cstr]; omega]; rfl
  unfold dispatch_cmd
  simp only [hl, hn]
  rw [if_neg (by decide), if_neg (by decide), if_pos (by decide)]
  rfl

theorem dispatch_error {β : Type} (h : XvcServerHandlers β) (w : World β) (cbuf : Nat)
    (rest : List Nat) (hd : w.c.buf.drop cbuf = cstr "error:" ++ rest) :
    dispatch h w cbuf = cmd_error w (cbuf + 6) := by
  have hn : List.take 6 (List.drop cbuf w.c.buf) = cstr "error:" :=
    take_drop_name _ _ _ _ hd
  rw [dispatch_framed h w cbuf (cstr "error") rest (by rw [hd]; rfl) (by decide) (by decide)]
  have hl : u32 (cbuf + (cstr "error").length + 1 - cbuf) = 6 := by
    rw [show cbuf + (cstr "error").length + 1 - cbuf = 6 by simp [cstr]; omega]; rfl
  unfold dispatch_cmd
  simp only [hl, hn]
  rw [if_neg (by decide), if_neg (by decide), if_neg (by decide), if_pos (by decide)]
  rfl

theorem dispatch_edpc {β : Type} (h : XvcServerHandlers β) (w : World β) (cbuf : Nat)
    (rest : List Nat) (f : β → Nat → EdpcResult β) (hf : h.edpc = some f)
    (hd : w.c.buf.drop cbuf = cstr "edpc:" ++ rest) :
    dispatch h w cbuf = cmd_edpc f w cbuf (cbuf + 5) := by
  have hn : List.take 5 (List.drop cbuf w.c.buf) = cstr "edpc:" :=
    take_drop_name _ _ _ _ hd
  rw [dispatch_framed h w cbuf (cstr "edpc") rest (by rw [hd]; rfl) (by decide) (by decide)]
  have hl : u32 (cbuf + (cstr "edpc").length + 1 - cbuf) = 5 := by
    rw [show cbuf + (cstr "edpc").length + 1 - cbuf = 5 by simp [cstr]; omega]; rfl
  unfold dispatch_cmd
  simp only [hl, hn, hf]
  rw [if_neg (by decide), if_neg (by decide), if_neg (by decide), if_neg (by decide),
    if_pos (by simp)]
  rfl

theorem dispatch_idpc {β : Type} (h : XvcServerHandlers β) (w : World β) (cbuf : Nat)
    (rest : List Nat) (f : β → Nat → Nat → List Nat → β × Option (List Nat))
    (hf : h.idpc = some f) (hd : w.c.buf.drop cbuf = cstr "idpc:" ++ rest) :
    dispatch h w cbuf = cmd_idpc f w cbuf (cbuf + 5) := by
  have hn : List.take 5 (List.drop cbuf w.c.buf) = cstr "idpc:" :=
    take_drop_name _ _ _ _ hd
  rw [dispatch_framed h w cbuf (cstr "idpc") rest (by rw [hd]; rfl) (by decide) (by decide)]
  have hl : u32 (cbuf + (cstr "idpc").length + 1 - cbuf) = 5 := by
    rw [show cbuf + (cstr "idpc").length + 1 - cbuf = 5 by simp [cstr]; omega]; rfl
  unfold dispatch_cmd
  simp only [hl, hn, hf]
  rw [if_neg (by decide), if_neg (by decide), if_neg (by decide), if_neg (by decide),
    if_neg (fun x => absurd x.2.1 (by decide)), if_pos (by simp)]
  rfl

/-- A framed name that passes none of the command tests takes the protocol
error exit, with the world as it was. -/
theorem dispatch_unknown {β : Type} (h : XvcServerHandlers β) (w : World β) (cbuf : Nat)
    (body rest : List Nat) (hd : w.c.buf.drop cbuf = body ++ 58 :: rest)
    (hb : 58 ∉ body) (hlen : body.length < 30)
    (h1 : body ++ [58] ≠ cstr "getinfo:") (h2 : body ++ [58] ≠ cstr "capabilities:")
    (h3 : body ++ [58] ≠ cstr "configure:") (h4 : body ++ [58] ≠ cstr "error:")
    (h5 : body ++ [58] = cstr "edpc:" → h.edpc = none)
    (h6 : body ++ [58] = cstr "idpc:" → h.idpc = none) :
    dispatch h w cbuf = .error w := by
  have hn : List.take (body.length + 1) (List.drop cbuf w.c.buf) = body ++ [58] := by
    have := take_drop_name w.c.buf cbuf (body ++ [58]) rest (by simp [hd])
    simpa using this
  rw [dispatch_framed h w cbuf body rest hd hb hlen]
  have hl : u32 (cbuf + body.length + 1 - cbuf) = body.length + 1 := by
    rw [show cbuf + body.length + 1 - cbuf = body.length + 1 by omega]
    exact u32_of_lt (by omega)
  unfold dispatch_cmd
  simp only [hl, hn]
  rw [if_neg (fun x => h1 x.2), if_neg (fun x => h2 x.2), if_neg (fun x => h3 x.2),
    if_neg (fun x => h4 x.2)]
  by_cases g5 : body ++ [58] = cstr "edpc:"
  · rw [if_neg (by simp [h5 g5])]
    rw [if_neg (by intro x; rw [g5] at x; exact absurd x.2.1 (by decide))]
  · rw [if_neg (fun x => g5 x.2.1)]
    by_cases g6 : body ++ [58] = cstr "idpc:"
    · rw [if_neg (by simp [h6 g6])]
    · rw [if_neg (fun x => g6 x.2.1)]

/-! ## Replies of the commands without body -/

theorem strlen_eq_length (s : List Nat) (h : ∀ b ∈ s, b ≠ 0) : strlen s = s.length := by
  unfold strlen
  rw [List.takeWhile_eq_self_iff.mpr]
  intro b hb
  simpa using h b hb

theorem mem_of_take (s : List Nat) (n i : Nat) (hi : i < n) :
    mem_of (s.take n) i = mem_of s i := by
  simp [mem_of, List.getD_eq_getElem?_getD, List.getElem?_take, hi]

/-- Copying the first `n` bytes of `s` and advancing by `n` appends them. -/
theorem copy_advance_eq_append (r : ReplyBuf) (s : List Nat) (n : Nat) (hn : n ≤ s.length)
    (h32 : r.reply_len + n < 2 ^ 32) :
    (r.copy (mem_of s) n).advance n = r.append (s.take n) := by
  have hl : (s.take n).length = n := by rw [List.length_take]; omega
  have hm : memcpy r.reply_buf r.reply_len (mem_of s) n =
      memcpy r.reply_buf r.reply_len (mem_of (s.take n)) n := by
    funext j
    simp only [memcpy]
    by_cases hj : r.reply_len ≤ j ∧ j < r.reply_len + n
    · rw [if_pos hj, if_pos hj, mem_of_take _ _ _ (by omega)]
    · rw [if_neg hj, if_neg hj]
  simp only [ReplyBuf.copy, ReplyBuf.advance, ReplyBuf.append, hl, u32_of_lt h32, hm]

/-- Copying `n` bytes of `s` and advancing by `m ≤ n` sends the first `m`. -/
theorem packet_copy_advance (r : ReplyBuf) (s : List Nat) (n m : Nat) (hm : m ≤ n)
    (hn : n ≤ s.length) (h32 : r.reply_len + m < 2 ^ 32) :
    ((r.copy (mem_of s) n).advance m).packet = r.packet ++ s.take m := by
  have hl : (s.take m).length = m := by rw [List.length_take]; omega
  simp only [ReplyBuf.packet, ReplyBuf.copy, ReplyBuf.advance, u32_of_lt h32, mem_slice_add,
    Nat.zero_add]
  congr 1
  · apply mem_slice_congr
    intro j _ h2
    simp only [memcpy]
    rw [if_neg (by omega)]
  · rw [← mem_slice_mem_of (s.take m), hl]
    simp only [mem_slice]
    apply List.map_congr_left
    intro i hi
    have := List.mem_range.mp hi
    simp only [memcpy, Nat.zero_add]
    rw [if_pos (by omega), Nat.add_sub_cancel_left, mem_of_take _ _ _ this]

theorem digitChar_ne_zero : ∀ d, d < 10 → (Nat.digitChar d).toNat ≠ 0 := by decide

theorem toDigitsCore_ne_zero (f n : Nat) (ds : List Char) (hds : ∀ ch ∈ ds, ch.toNat ≠ 0) :
    ∀ ch ∈ Nat.toDigitsCore 10 f n ds, ch.toNat ≠ 0 := by
  induction f generalizing n ds with
  | zero => simpa [Nat.toDigitsCore] using hds
  | succ k ih =>
    have hd : (Nat.digitChar (n % 10)).toNat ≠ 0 :=
      digitChar_ne_zero _ (Nat.mod_lt _ (by decide))
    have hds2 : ∀ ch ∈ Nat.digitChar (n % 10) :: ds, ch.toNat ≠ 0 := by
      intro ch hch
      rcases List.mem_cons.mp hch with h1 | h1
      · rw [h1]; exact hd
      · exact hds ch h1
    unfold Nat.toDigitsCore
    simp only []
    split
    · exact hds2
    · exact ih _ _ hds2

theorem utoa_ne_zero (v : Nat) : ∀ b ∈ utoa v, b ≠ 0 := by
  intro b hb
  simp only [utoa, List.mem_map] at hb
  obtain ⟨ch, hch, rfl⟩ := hb
  exact toDigitsCore_ne_zero _ _ [] (by simp) ch hch

theorem utoa_length (v : Nat) : (utoa v).length ≤ 10 := by
  have hv : u32 v < 10 ^ 10 := by
    have : u32 v < 2 ^ 32 := Nat.mod_lt _ (by decide)
    omega
  simp only [utoa, List.length_map, Nat.toDigits]
  exact Nat.toDigitsCore_length 10 (by decide) _ _ 10 hv (by decide)

theorem getinfo_text_eq (buf_max : Nat) :
    getinfo_text buf_max = cstr "xvcServer_v1.1:" ++ utoa buf_max ++ [10] := by
  have hl := utoa_length buf_max
  have e : cstr "xvcServer_v" ++ utoa (XVC_VERSION / 10) ++ cstr "." ++ utoa (XVC_VERSION % 10)
      ++ cstr ":" ++ utoa buf_max ++ cstr "\n" = cstr "xvcServer_v1.1:" ++ utoa buf_max ++ [10] := by
    have h1 : cstr "xvcServer_v" ++ utoa (XVC_VERSION / 10) ++ cstr "." ++
        utoa (XVC_VERSION % 10) ++ cstr ":" = cstr "xvcServer_v1.1:" := by decide
    rw [h1]
    rfl
  unfold getinfo_text
  rw [e, List.take_of_length_le]
  simp only [List.length_append, List.length_cons, List.length_nil]
  have : (cstr "xvcServer_v1.1:").length = 15 := by decide
  omega

theorem getinfo_text_ne_zero (buf_max : Nat) : ∀ b ∈ getinfo_text buf_max, b ≠ 0 := by
  rw [getinfo_text_eq]
  intro b hb
  simp only [List.mem_append, List.mem_singleton] at hb
  rcases hb with (h1 | h1) | h1
  · have : ∀ x ∈ cstr "xvcServer_v1.1:", x ≠ 0 := by decide
    exact this b h1
  · exact utoa_ne_zero _ b h1
  · omega

theorem memcpy_memcpy (mem : Nat → Nat) (off : Nat) (a b : List Nat) :
    memcpy (memcpy mem off (mem_of a) a.length) (off + a.length) (mem_of b) b.length =
      memcpy mem off (mem_of (a ++ b)) (a ++ b).length := by
  funext j
  simp only [memcpy, mem_of, List.length_append]
  by_cases h1 : off + a.length ≤ j ∧ j < off + a.length + b.length
  · rw [if_pos h1, if_pos (by omega)]
    have : j - off = a.length + (j - (off + a.length)) := by omega
    rw [this, List.getD_eq_getElem?_getD, List.getD_eq_getElem?_getD,
      List.getElem?_append_right (by omega)]
    simp
  · rw [if_neg h1]
    by_cases h2 : off ≤ j ∧ j < off + a.length
    · rw [if_pos h2, if_pos (by omega), List.getD_eq_getElem?_getD, List.getD_eq_getElem?_getD,
        List.getElem?_append_left (by omega)]
    · rw [if_neg h2, if_neg (by omega)]

theorem append_append (r : ReplyBuf) (a b : List Nat) :
    (r.append a).append b = r.append (a ++ b) := by
  simp only [ReplyBuf.append, memcpy_memcpy, List.length_append, Nat.add_assoc]
  congr 1
  by_cases ha : a.length = 0 <;> by_cases hb : b.length = 0 <;> simp [ha, hb]
  omega

theorem append_nil (r : ReplyBuf) : r.append [] = r := by
  simp [ReplyBuf.append, memcpy_zero]

/-- C8. For every connection, `getinfo:` appends to the reply exactly the
text `xvcServer_v1.1:`, the decimal value of `buf_max` and a newline (for the
capacity 10000 set at accept: `xvcServer_v1.1:10000\n`), appends no status
byte, and leaves the connection (flags, pending error) as it was. -/
theorem getinfo_reply {β : Type} (h : XvcServerHandlers β) (w : World β) (cbuf : Nat)
    (rest : List Nat) (hd : w.c.buf.drop cbuf = cstr "getinfo:" ++ rest)
    (hmax : w.c.buf_max < 2 ^ 32) (h32 : w.r.reply_len + 100 ≤ 2 ^ 32) :
    ∃ r1 : ReplyBuf, dispatch h w cbuf = .next (cbuf + 8) { w with r := r1 } ∧
      r1.packet = w.r.packet ++
        (cstr "xvcServer_v1.1:" ++ (Nat.toDigits 10 w.c.buf_max).map Char.toNat ++ cstr "\n") ∧
      r1.reply_len = w.r.reply_len +
        (cstr "xvcServer_v1.1:" ++ (Nat.toDigits 10 w.c.buf_max).map Char.toNat ++ cstr "\n").length ∧
      (w.c.buf_max = 10000 → r1.packet = w.r.packet ++ cstr "xvcServer_v1.1:10000\n") := by
  have hlen := utoa_length w.c.buf_max
  have hu : utoa w.c.buf_max = (Nat.toDigits 10 w.c.buf_max).map Char.toNat := by
    simp only [utoa, u32_of_lt hmax]
  have ht := getinfo_text_eq w.c.buf_max
  have htl : (getinfo_text w.c.buf_max).length = 15 + (utoa w.c.buf_max).length + 1 := by
    rw [ht]
    simp only [List.length_append, List.length_cons, List.length_nil]
    have : (cstr "xvcServer_v1.1:").length = 15 := by decide
    omega
  have hs := strlen_eq_length _ (getinfo_text_ne_zero w.c.buf_max)
  have hp := packet_copy_advance w.r (getinfo_text w.c.buf_max ++ [0])
    ((getinfo_text w.c.buf_max).length + 1) (getinfo_text w.c.buf_max).length (by omega)
    (by simp) (by omega)
  rw [List.take_left] at hp
  refine ⟨(w.r.copy (mem_of (getinfo_text w.c.buf_max ++ [0]))
    ((getinfo_text w.c.buf_max).length + 1)).advance (strlen (getinfo_text w.c.buf_max)),
    ?_, ?_, ?_, ?_⟩
  · rw [dispatch_getinfo h w cbuf rest hd]
    rfl
  · rw [hs, hp, ht, hu]
    rfl
  · simp only [ReplyBuf.advance, ReplyBuf.copy, hs]
    rw [u32_of_lt (by omega), ht, hu]
    rfl
  · intro h10
    rw [hs, hp, h10]
    rfl

theorem getinfo_reply_witness :
    ∃ r1 : ReplyBuf, dispatch bare_handlers (fresh_world (cstr "getinfo:") []) 0 =
        .next (0 + 8) { fresh_world (cstr "getinfo:") [] with r := r1 } ∧
      r1.packet = (fresh_world (cstr "getinfo:") []).r.packet ++
        (cstr "xvcServer_v1.1:" ++
          (Nat.toDigits 10 (fresh_world (cstr "getinfo:") []).c.buf_max).map Char.toNat ++
          cstr "\n") ∧
      r1.reply_len = (fresh_world (cstr "getinfo:") []).r.reply_len +
        (cstr "xvcServer_v1.1:" ++
          (Nat.toDigits 10 (fresh_world (cstr "getinfo:") []).c.buf_max).map Char.toNat ++
          cstr "\n").length ∧
      ((fresh_world (cstr "getinfo:") []).c.buf_max = 10000 →
        r1.packet = (fresh_world (cstr "getinfo:") []).r.packet ++
          cstr "xvcServer_v1.1:10000\n") :=
  getinfo_reply bare_handlers (fresh_world (cstr "getinfo:") []) 0 [] (by decide) (by decide)
    (by decide)

/-- C7 (counterexample). With a backend that lacks the transaction
operations, the reply to `capabilities:` on a fresh connection is the length 7
followed by `status,`, not the length 6 followed by `status`. -/
theorem capabilities_keeps_separator :
    (dispatch bare_handlers (fresh_world (cstr "capabilities:") []) 0).world.r.packet =
        7 :: cstr "status," ∧
    (dispatch bare_handlers (fresh_world (cstr "capabilities:") []) 0).world.r.packet ≠
        6 :: cstr "status" := by
  decide

/-- C7 (amended). For every connection, with room for the length byte, the
reply that `capabilities:` appends is the varint length followed by exactly
`status,dpc` when the backend provides both transaction operations, and by
exactly `status,` (the separator is kept) when either is absent; no status
byte is appended and the connection state is unchanged. -/
theorem capabilities_reply {β : Type} (h : XvcServerHandlers β) (w : World β) (cbuf : Nat)
    (rest : List Nat) (hd : w.c.buf.drop cbuf = cstr "capabilities:" ++ rest)
    (hroom : w.r.reply_len + 1 ≤ max_packet_len) :
    dispatch h w cbuf = .next (cbuf + 13)
      { w with r := (w.r.append
          (if h.idpc.isSome = true ∧ h.edpc.isSome = true then 10 :: cstr "status,dpc"
           else 7 :: cstr "status,")) } := by
  have hmax : max_packet_len = 10000 := rfl
  rw [dispatch_capabilities h w cbuf rest hd]
  unfold cmd_capabilities
  by_cases hb : h.idpc.isSome = true ∧ h.edpc.isSome = true
  · simp only [if_pos hb]
    have h1 : u32 (strlen (cstr "status," ++ cstr "dpc")) = 10 := by decide
    have h2 : uleb_bytes 5 (u32 10) = [10] := by decide
    rw [h1, reply_uleb128_eq _ _ (by rw [h2]; simpa using hroom), h2]
    have h3 := copy_advance_eq_append (w.r.append [10]) (cstr "status," ++ cstr "dpc") 10
      (by decide) (by simp only [ReplyBuf.append, List.length_singleton]; omega)
    rw [h3, append_append]
    rfl
  · simp only [if_neg hb]
    have h1 : u32 (strlen (cstr "status," ++ [])) = 7 := by decide
    have h2 : uleb_bytes 5 (u32 7) = [7] := by decide
    rw [h1, reply_uleb128_eq _ _ (by rw [h2]; simpa using hroom), h2]
    have h3 := copy_advance_eq_append (w.r.append [7]) (cstr "status," ++ []) 7
      (by decide) (by simp only [ReplyBuf.append, List.length_singleton]; omega)
    rw [h3, append_append]
    rfl

theorem capabilities_reply_witness :
    dispatch full_handlers (fresh_world (cstr "capabilities:") []) 0 = .next (0 + 13)
      { fresh_world (cstr "capabilities:") [] with
        r := ((fresh_world (cstr "capabilities:") []).r.append
          (if full_handlers.idpc.isSome = true ∧ full_handlers.edpc.isSome = true then
            10 :: cstr "status,dpc"
           else 7 :: cstr "status,")) } :=
  capabilities_reply full_handlers (fresh_world (cstr "capabilities:") []) 0 [] (by decide)
    (by decide)

theorem uleb_bytes_short (n : Nat) (hn : n < 128 ^ 2) : (uleb_bytes 5 n).length ≤ 2 := by
  have e : uleb_bytes 5 n = uleb_bytes 2 n := by
    unfold uleb_bytes
    by_cases hz : n >>> 7 = 0
    · simp [hz]
    · have hz2 : n >>> 7 >>> 7 = 0 := by
        rw [Nat.shiftRight_eq_div_pow, Nat.shiftRight_eq_div_pow]
        simp
        omega
      simp [hz, uleb_bytes, hz2]
  rw [e]
  exact uleb_bytes_length_le 2 n

/-- The reply of `error:` for a pending error text without terminator inside. -/
theorem cmd_error_eq {β : Type} (w : World β) (p : Nat)
    (ht0 : ∀ b ∈ w.c.pending_error, b ≠ 0) (htl : w.c.pending_error.length ≤ 1023)
    (hlo : (w.c.pending_error.length + 127) / 128 ≤ w.c.buf_max) (hhi : w.c.buf_max < 2 ^ 32)
    (hroom : w.r.reply_len + (uleb_bytes 5 (min w.c.pending_error.length
      (w.c.buf_max - (w.c.pending_error.length + 127) / 128))).length ≤ max_packet_len) :
    cmd_error w p = .next p
      { w with c := { w.c with pending_error := [] },
               r := (w.r.append
                 (uleb_bytes 5 (min w.c.pending_error.length
                     (w.c.buf_max - (w.c.pending_error.length + 127) / 128)) ++
                   w.c.pending_error.take (min w.c.pending_error.length
                     (w.c.buf_max - (w.c.pending_error.length + 127) / 128)))) } := by
  have hmax : max_packet_len = 10000 := rfl
  have hs := strlen_eq_length _ ht0
  have h1 : u32 w.c.pending_error.length = w.c.pending_error.length := u32_of_lt (by omega)
  have h2 : u32 (w.c.pending_error.length + 127) = w.c.pending_error.length + 127 :=
    u32_of_lt (by omega)
  have h3 : u32 (w.c.buf_max + 2 ^ 32 - (w.c.pending_error.length + 127) / 128) =
      w.c.buf_max - (w.c.pending_error.length + 127) / 128 := by
    unfold u32
    omega
  have hn : (if w.c.pending_error.length > w.c.buf_max - (w.c.pending_error.length + 127) / 128
      then w.c.buf_max - (w.c.pending_error.length + 127) / 128
      else w.c.pending_error.length) =
      min w.c.pending_error.length (w.c.buf_max - (w.c.pending_error.length + 127) / 128) := by
    split <;> omega
  unfold cmd_error
  simp only [hs, h1, h2, h3, hn]
  have hn1 : min w.c.pending_error.length
      (w.c.buf_max - (w.c.pending_error.length + 127) / 128) ≤ w.c.pending_error.length :=
    Nat.min_le_left _ _
  revert hroom hn1
  generalize min w.c.pending_error.length
    (w.c.buf_max - (w.c.pending_error.length + 127) / 128) = n
  intro hroom hn1
  have hu : u32 n = n := u32_of_lt (by omega)
  rw [reply_uleb128_eq _ _ (by rw [hu]; omega), hu]
  have h4 := copy_advance_eq_append (w.r.append (uleb_bytes 5 n)) w.c.pending_error n hn1
    (by simp only [ReplyBuf.append]; omega)
  rw [h4, append_append]

/-- C10. For every connection with pending error text `t` (0 to 1023 bytes)
and room in the reply buffer, `error:` appends exactly the varint of `n` and
the first `n` bytes of `t`, where `n = min(|t|, buf_max - (|t|+127)/128)`, which
is `|t|` for the capacity 10000; it appends no status byte and leaves the
pending error empty, and a second `error:` right after appends the single
byte 0. -/
theorem error_reply {β : Type} (h : XvcServerHandlers β) (w : World β) (cbuf : Nat)
    (rest : List Nat) (hd : w.c.buf.drop cbuf = cstr "error:" ++ rest)
    (ht0 : ∀ b ∈ w.c.pending_error, b ≠ 0) (htl : w.c.pending_error.length ≤ 1023)
    (hlo : (w.c.pending_error.length + 127) / 128 ≤ w.c.buf_max) (hhi : w.c.buf_max < 2 ^ 32)
    (hroom : w.r.reply_len + 2 ≤ max_packet_len) :
    dispatch h w cbuf = .next (cbuf + 6)
      { w with c := { w.c with pending_error := [] },
               r := (w.r.append
                 (uleb_bytes 5 (min w.c.pending_error.length
                     (w.c.buf_max - (w.c.pending_error.length + 127) / 128)) ++
                   w.c.pending_error.take (min w.c.pending_error.length
                     (w.c.buf_max - (w.c.pending_error.length + 127) / 128)))) } ∧
    (w.c.buf_max = 10000 →
      min w.c.pending_error.length (w.c.buf_max - (w.c.pending_error.length + 127) / 128) =
        w.c.pending_error.length) ∧
    ∀ (w1 : World β) (p : Nat) (rest1 : List Nat), dispatch h w cbuf = .next p w1 →
      w1.c.buf.drop p = cstr "error:" ++ rest1 → w1.r.reply_len + 1 ≤ max_packet_len →
      dispatch h w1 p = .next (p + 6) { w1 with r := w1.r.append [0] } := by
  have hmax : max_packet_len = 10000 := rfl
  have hlen := uleb_bytes_short (min w.c.pending_error.length
    (w.c.buf_max - (w.c.pending_error.length + 127) / 128)) (by omega)
  have e := cmd_error_eq w (cbuf + 6) ht0 htl hlo hhi (by omega)
  rw [dispatch_error h w cbuf rest hd]
  refine ⟨e, ?_, ?_⟩
  · intro h10
    omega
  · intro w1 p rest1 hw1 hd1 hroom1
    rw [e] at hw1
    injection hw1 with hp hw
    subst hw
    have e1 := cmd_error_eq
      ({ w with c := { w.c with pending_error := [] },
                r := (w.r.append
                 (uleb_bytes 5 (min w.c.pending_error.length
                     (w.c.buf_max - (w.c.pending_error.length + 127) / 128)) ++
                   w.c.pending_error.take (min w.c.pending_error.length
                     (w.c.buf_max - (w.c.pending_error.length + 127) / 128)))) } : World β)
      (p + 6) (by simp) (by simp) (by simp) hhi (by simpa using hroom1)
    rw [dispatch_error h _ p rest1 hd1, e1]
    simp
    rfl

theorem error_reply_witness :
    (error_world (cstr "boom") (cstr "error:error:")).c.buf.drop 0 =
      cstr "error:" ++ cstr "error:" ∧
    (dispatch bare_handlers (error_world (cstr "boom") (cstr "error:error:")) 0).world.r.packet =
      4 :: cstr "boom" ∧
    dispatch bare_handlers (error_world (cstr "boom") (cstr "error:error:")) 0 = .next (0 + 6)
      { error_world (cstr "boom") (cstr "error:error:") with
        c := { (error_world (cstr "boom") (cstr "error:error:")).c with pending_error := [] },
        r := ((error_world (cstr "boom") (cstr "error:error:")).r.append
          (uleb_bytes 5
            (min (error_world (cstr "boom") (cstr "error:error:")).c.pending_error.length
              ((error_world (cstr "boom") (cstr "error:error:")).c.buf_max -
                ((error_world (cstr "boom") (cstr "error:error:")).c.pending_error.length
                  + 127) / 128)) ++
            (error_world (cstr "boom") (cstr "error:error:")).c.pending_error.take
              (min (error_world (cstr "boom") (cstr "error:error:")).c.pending_error.length
                ((error_world (cstr "boom") (cstr "error:error:")).c.buf_max -
                  ((error_world (cstr "boom") (cstr "error:error:")).c.pending_error.length
                    + 127) / 128)))) } :=
  ⟨by decide, by decide,
   (error_reply bare_handlers (error_world (cstr "boom") (cstr "error:error:")) 0
      (cstr "error:") (by decide) (by decide) (by decide) (by decide) (by decide)
      (by decide)).1⟩

/-- Claim C2, failing input: two commands are dispatched although the bytes
they declare are not buffered.
(1) `configure:` with the varint 0x87 0x80 0x80 0x80 0x10 and the 7 bytes
`status+`: the decoded length is `2^32 + 7`, the assignment to
`unsigned bytes` cuts it to 7, and the body is parsed with 7 bytes after the
varint: the round consumes all 22 bytes, status reporting is switched on and
the status byte is sent.
(2) `idpc:` with flags 0 and the word count `2^62 - 1` (0xff eight times,
0x3f) and no byte after the varints: the byte count is
`num_words * 4 = 2^64 - 4` without a wrap of the product, the pointer
addition `p + num_bytes` wraps to `p - 4`, the test `cend < p + num_bytes`
fails and the backend input transaction is invoked with `2^62 - 1` words and
no byte available; the status byte is stored in the reply. -/
theorem declared_body_dispatched_unbuffered :
    ((get_uleb128 (cstr "configure:" ++ [0x87, 0x80, 0x80, 0x80, 0x10] ++ cstr "status+") 10 22 =
        (2 ^ 32 + 7, 15) ∧
      (cstr "configure:" ++ [0x87, 0x80, 0x80, 0x80, 0x10] ++ cstr "status+").length = 22 ∧
      (fresh_world (cstr "configure:" ++ [0x87, 0x80, 0x80, 0x80, 0x10] ++ cstr "status+")
        []).c.enable_status = 0) ∧
      (dispatch full_handlers
        (fresh_world (cstr "configure:" ++ [0x87, 0x80, 0x80, 0x80, 0x10] ++ cstr "status+") [])
        0).cursor = some 22 ∧
      (read_packet full_handlers
        (fresh_world []
          [some (cstr "configure:" ++ [0x87, 0x80, 0x80, 0x80, 0x10] ++ cstr "status+")])).map
        (fun x => (x.1, x.2.c.enable_status, x.2.tx, x.2.c.buf)) =
        some (Exit.closed, 1, [[0]], [])) ∧
    ((get_uleb128 (cstr "idpc:" ++ [0, 0xff, 0xff, 0xff, 0xff, 0xff, 0xff, 0xff, 0xff, 0x3f]) 6
        15 = (2 ^ 62 - 1, 15) ∧
      u64 ((2 ^ 62 - 1) * 4) = 2 ^ 64 - 4 ∧
      (cstr "idpc:" ++ [0, 0xff, 0xff, 0xff, 0xff, 0xff, 0xff, 0xff, 0xff, 0x3f]).length = 15) ∧
      (∃ w1, dispatch full_handlers
        (fresh_world (cstr "idpc:" ++ [0, 0xff, 0xff, 0xff, 0xff, 0xff, 0xff, 0xff, 0xff, 0x3f]) [])
        0 = .wild w1) ∧
      (dispatch full_handlers
        (fresh_world (cstr "idpc:" ++ [0, 0xff, 0xff, 0xff, 0xff, 0xff, 0xff, 0xff, 0xff, 0x3f]) [])
        0).world.calls = [Call.idpc 0 (2 ^ 62 - 1) 0] ∧
      (dispatch full_handlers
        (fresh_world (cstr "idpc:" ++ [0, 0xff, 0xff, 0xff, 0xff, 0xff, 0xff, 0xff, 0xff, 0x3f]) [])
        0).world.r.packet = [0] ∧
      (read_packet full_handlers
        (fresh_world []
          [some (cstr "idpc:" ++ [0, 0xff, 0xff, 0xff, 0xff, 0xff, 0xff, 0xff, 0xff, 0x3f])])).map
        (fun x => (x.1, x.2.calls)) = some (Exit.wild, [Call.idpc 0 (2 ^ 62 - 1) 0])) := by
  refine ⟨⟨⟨by decide, by decide, by decide⟩, by decide, by decide⟩,
    ⟨by decide, by decide, by decide⟩, ⟨_, rfl⟩, by decide, by decide, by decide⟩

/-- The word count `2^62` of `idpc:`, with flags 0 and no data byte after the
nine-byte varint: the byte count `num_words * 4` wraps to 0, so the backend
input transaction is invoked with `2^62` words and no byte available, and the
command is consumed (cursor 15) with a status byte as reply. -/
theorem idpc_wrapped_count_dispatched :
    (dispatch full_handlers
      (fresh_world (cstr "idpc:" ++ [0, 0x80, 0x80, 0x80, 0x80, 0x80, 0x80, 0x80, 0x80, 0x40]) [])
      0).cursor = some 15 ∧
    (dispatch full_handlers
      (fresh_world (cstr "idpc:" ++ [0, 0x80, 0x80, 0x80, 0x80, 0x80, 0x80, 0x80, 0x80, 0x40]) [])
      0).world.calls = [Call.idpc 0 (2 ^ 62) 0] ∧
    (read_packet full_handlers
      (fresh_world []
        [some (cstr "idpc:" ++ [0, 0x80, 0x80, 0x80, 0x80, 0x80, 0x80, 0x80, 0x80, 0x40])])).map
      (fun x => (x.1, x.2.calls, x.2.tx, x.2.c.buf)) =
      some (Exit.closed, [Call.idpc 0 (2 ^ 62) 0], [[0]], []) := by
  decide

/-- C4 (failing input). On a fresh connection, where status reporting is
disabled, `configure:` with the body `status-` leaves `enable_status` at 0 and
still appends a status byte: the reply is the single byte 0. -/
theorem status_byte_sent_when_disabled :
    (fresh_world (cstr "configure:" ++ [7] ++ cstr "status-") []).c.enable_status = 0 ∧
    (dispatch full_handlers (fresh_world (cstr "configure:" ++ [7] ++ cstr "status-") [])
      0).world.c.enable_status = 0 ∧
    (dispatch full_handlers (fresh_world (cstr "configure:" ++ [7] ++ cstr "status-") [])
      0).world.r.packet = [0] ∧
    (read_packet full_handlers
      (fresh_world [] [some (cstr "configure:" ++ [16] ++ cstr "locking+,status-")])).map
      (fun x => (x.1, x.2.c.enable_locking, x.2.c.enable_status, x.2.tx)) =
      some (Exit.closed, 1, 0, [[0]]) := by
  decide

/-- C9. When the next framed command name (the bytes up to and including the
first colon, found within the 30-byte window) is none of `getinfo:`,
`capabilities:`, `configure:`, `error:`, `edpc:` with an output-transaction,
`idpc:` with an input-transaction, the round of the command loop takes the
protocol error exit with the world unchanged (flags, pending error, backend
calls, packets sent), the loop ends there, and `read_packet` returns with that
world: no flush, no send, no consume after the command was framed. -/
theorem unknown_command_terminates {β : Type} (h : XvcServerHandlers β) (w : World β)
    (cbuf : Nat) (body rest : List Nat) (hd : w.c.buf.drop cbuf = body ++ 58 :: rest)
    (hb : 58 ∉ body) (hlen : body.length < 30)
    (h1 : body ++ [58] ≠ cstr "getinfo:") (h2 : body ++ [58] ≠ cstr "capabilities:")
    (h3 : body ++ [58] ≠ cstr "configure:") (h4 : body ++ [58] ≠ cstr "error:")
    (h5 : body ++ [58] = cstr "edpc:" → h.edpc = none)
    (h6 : body ++ [58] = cstr "idpc:" → h.idpc = none) :
    dispatch h w cbuf = .error w ∧
    (∀ fuel, cmd_loop h (fuel + 1) cbuf w = .error w) ∧
    (∀ fuel (w0 : World β),
      cmd_loop h (w0.c.buf.length + 1) 0 { w0 with r := { w0.r with reply_len := 0 } } =
        cmd_loop h (fuel + 1) cbuf w →
      read_more h (fuel + 1) w0 = some (Exit.error, w)) ∧
    (cbuf = 0 → ∀ fuel,
      read_more h (fuel + 1) w = some (Exit.error, { w with r := { w.r with reply_len := 0 } })) := by
  have e := dispatch_unknown h w cbuf body rest hd hb hlen h1 h2 h3 h4 h5 h6
  have e2 : ∀ fuel, cmd_loop h (fuel + 1) cbuf w = .error w := by
    intro fuel
    simp only [cmd_loop, e]
  refine ⟨e, e2, ?_, ?_⟩
  · intro fuel w0 hw
    rw [e2] at hw
    simp only [read_more, hw]
  · intro hc fuel
    subst hc
    have e3 := dispatch_unknown h { w with r := { w.r with reply_len := 0 } } 0 body rest hd hb
      hlen h1 h2 h3 h4 h5 h6
    simp only [read_more, cmd_loop, e3]

theorem unknown_command_terminates_witness :
    (fresh_world (cstr "bogus:getinfo:") []).c.buf.drop 0 = cstr "bogus" ++ 58 :: cstr "getinfo:" ∧
    dispatch full_handlers (fresh_world (cstr "bogus:getinfo:") []) 0 =
      .error (fresh_world (cstr "bogus:getinfo:") []) :=
  ⟨by decide,
   (unknown_command_terminates full_handlers (fresh_world (cstr "bogus:getinfo:") []) 0
      (cstr "bogus") (cstr "getinfo:") (by decide) (by decide) (by decide) (by decide)
      (by decide) (by decide) (by decide) (fun x => absurd x (by decide))
      (fun x => absurd x (by decide))).1⟩

/-! ## The `configure:` command -/

/-- Decoding at cursor `p` of a buffer that holds `uleb_bytes 5 v` there. -/
theorem get_uleb128_at (buf : List Nat) (p v : Nat) (post : List Nat) (hv : v < 2 ^ 32)
    (hd : buf.drop p = uleb_bytes 5 v ++ post) :
    get_uleb128 buf p buf.length = (v, p + (uleb_bytes 5 v).length) := by
  have hpos : 1 ≤ (uleb_bytes 5 v).length := uleb_bytes_length_pos 4 v
  have hl := drop_length_le buf p _ (by
    intro hnil
    have := congrArg List.length hnil
    simp only [List.length_append, List.length_nil] at this
    omega) hd
  simp only [List.length_append] at hl
  have hpre : (buf.take p).length = p := by rw [List.length_take]; omega
  have hb : buf = buf.take p ++ uleb_bytes 5 v ++ post := by
    rw [List.append_assoc, ← hd, List.take_append_drop]
  have := get_uleb128_bytes (buf.take p) post v buf.length hv (by omega)
  rw [← hb, hpre] at this
  exact this

theorem drop_add_of_drop {α : Type} (buf : List α) (cbuf : Nat) (a b : List α)
    (hd : buf.drop cbuf = a ++ b) : buf.drop (cbuf + a.length) = b := by
  rw [← List.drop_drop, hd, List.drop_left]

theorem take_set_same (l : List Nat) (k a x : Nat) (ha : a ≤ k) :
    (l.set k x).take a = l.take a := by
  rw [List.set_eq_take_append_cons_drop]
  split
  · rw [List.take_append_of_le_length (by rw [List.length_take]; omega), List.take_take,
      Nat.min_eq_left ha]
  · rfl

theorem restore_byte (l pre : List Nat) (k : Nat) (hpre : pre.length = k) :
    (pre ++ (l.set k 0).drop k).set k (l.getD k 0) = pre ++ l.drop k := by
  rw [List.set_append_right _ _ (by omega), hpre, Nat.sub_self]
  congr 1
  by_cases hk : k < l.length
  · rw [List.drop_set, if_neg (by omega), Nat.sub_self, List.drop_eq_getElem_cons hk,
      List.set_cons_zero, List.set_cons_zero, List.getD_eq_getElem _ _ hk]
  · have h1 : l.set k 0 = l := List.set_eq_of_length_le (by omega)
    have h2 : l.drop k = [] := List.drop_eq_nil_iff.mpr (by omega)
    rw [h1, h2]
    rfl

theorem get_field_split (s : List Nat) (c : Nat) :
    (get_field s c).1.length + (get_field_stop s c).length + (get_field s c).2.length =
      s.length := by
  induction s with
  | nil => rfl
  | cons b t ih =>
    simp only [get_field, get_field_stop]
    split_ifs
    · simp
    · simp
      omega
    · simp only [List.length_cons]
      omega

theorem strchr_split (a : List Nat) (ch : Nat) (q : List Nat × List Nat)
    (h : strchr a ch = some q) : a = q.1 ++ ch :: q.2 := by
  induction a generalizing q with
  | nil => simp [strchr] at h
  | cons b t ih =>
    simp only [strchr] at h
    split_ifs at h with hb
    · injection h with h
      rw [← h, hb]
      rfl
    · cases hq : strchr t ch with
      | none => rw [hq] at h; simp at h
      | some q1 =>
        rw [hq] at h
        simp only [Option.map_some', Option.some.injEq] at h
        rw [← h]
        simp only [List.cons_append, List.cons.injEq, true_and]
        exact ih q1 hq

theorem config_stores_length (config : List Nat) :
    (config_stores config).length = config.length := by
  unfold config_stores
  cases hq : strchr config (Char.toNat '=') with
  | some q =>
    have := congrArg List.length (strchr_split config _ q hq)
    simp only [List.length_append, List.length_cons] at this ⊢
    omega
  | none =>
    simp only []
    split
    · rw [List.length_set]
    · rfl

theorem configure_stores_length {β : Type} (h : XvcServerHandlers β) (fuel : Nat) (s : List Nat)
    (c : XvcClient) : (configure_stores h fuel s c).length = s.length := by
  induction fuel generalizing s c with
  | zero => rfl
  | succ n ih =>
    have hg := get_field_split s (Char.toNat ',')
    have hc := config_stores_length (get_field s (Char.toNat ',')).1
    unfold configure_stores
    simp only []
    split_ifs <;> simp only [List.length_append, hc, ih] <;> omega

/-- The `configure:` branch on a fully buffered body: the connection after the
field loop, and the input buffer with the stores of the loop in the body and
the byte at `pktend` put back. -/
theorem cmd_configure_next {β : Type} (h : XvcServerHandlers β) (w : World β) (cbuf p : Nat)
    (hin : (get_uleb128 w.c.buf p w.c.buf.length).2 +
      u32 (get_uleb128 w.c.buf p w.c.buf.length).1 ≤ w.c.buf.length) :
    cmd_configure h w cbuf p =
      .next ((get_uleb128 w.c.buf p w.c.buf.length).2 +
          u32 (get_uleb128 w.c.buf p w.c.buf.length).1)
        { w with
          c := { configure_fields h
                  ((w.c.buf.drop (get_uleb128 w.c.buf p w.c.buf.length).2).take
                    (u32 (get_uleb128 w.c.buf p w.c.buf.length).1)).length
                  ((w.c.buf.drop (get_uleb128 w.c.buf p w.c.buf.length).2).take
                    (u32 (get_uleb128 w.c.buf p w.c.buf.length).1)) w.c with
                 buf := w.c.buf.take (get_uleb128 w.c.buf p w.c.buf.length).2 ++
                   configure_stores h
                     ((w.c.buf.drop (get_uleb128 w.c.buf p w.c.buf.length).2).take
                       (u32 (get_uleb128 w.c.buf p w.c.buf.length).1)).length
                     ((w.c.buf.drop (get_uleb128 w.c.buf p w.c.buf.length).2).take
                       (u32 (get_uleb128 w.c.buf p w.c.buf.length).1)) w.c ++
                   w.c.buf.drop ((get_uleb128 w.c.buf p w.c.buf.length).2 +
                     u32 (get_uleb128 w.c.buf p w.c.buf.length).1) },
          r := reply_status (configure_fields h
                  ((w.c.buf.drop (get_uleb128 w.c.buf p w.c.buf.length).2).take
                    (u32 (get_uleb128 w.c.buf p w.c.buf.length).1)).length
                  ((w.c.buf.drop (get_uleb128 w.c.buf p w.c.buf.length).2).take
                    (u32 (get_uleb128 w.c.buf p w.c.buf.length).1)) w.c) w.r } := by
  generalize hg : get_uleb128 w.c.buf p w.c.buf.length = g at hin ⊢
  generalize hb : u32 g.1 = bytes at hin ⊢
  have hs : ((w.c.buf.set (g.2 + bytes) 0).take (g.2 + bytes)).drop g.2 =
      (w.c.buf.drop g.2).take bytes := by
    rw [take_set_same _ _ _ _ (le_refl _), List.drop_take, Nat.add_sub_cancel_left]
  have hl : ((w.c.buf.drop g.2).take bytes).length = bytes := by
    rw [List.length_take, List.length_drop]
    omega
  unfold cmd_configure
  simp only [hg, hb]
  rw [if_neg (by omega), hs, take_set_same _ _ _ _ (Nat.le_add_right _ _),
    restore_byte _ _ _ (by
      rw [List.length_append, configure_stores_length, hl, List.length_take]
      omega)]

/-- A buffer that differs from `buf` in the `M.length` bytes from offset `a`
on only. -/
theorem stored_buf (buf M rest : List Nat) (a P : Nat) (hP : P = a + M.length)
    (hle : P ≤ buf.length) (hd : buf.drop P = rest) :
    (buf.take a ++ M ++ rest).length = buf.length ∧
    (buf.take a ++ M ++ rest).take a = buf.take a ∧
    (buf.take a ++ M ++ rest).drop P = rest := by
  have hta : (buf.take a).length = a := by
    rw [List.length_take]
    omega
  have hr : rest.length = buf.length - P := by
    rw [← hd, List.length_drop]
  refine ⟨?_, ?_, ?_⟩
  · simp only [List.length_append, hta, hr]
    omega
  · rw [List.append_assoc, List.take_append_of_le_length (by omega), List.take_of_length_le
      (by omega)]
  · rw [List.drop_append_of_le_length (by simp only [List.length_append, hta]; omega),
      List.drop_of_length_le (by simp only [List.length_append, hta]; omega), List.nil_append]

/-- The `configure:` branch on a fully buffered body of declared length. -/
theorem cmd_configure_eq {β : Type} (h : XvcServerHandlers β) (w : World β) (cbuf : Nat)
    (body rest : List Nat) (hL : body.length < 2 ^ 32)
    (hd : w.c.buf.drop cbuf = cstr "configure:" ++ (uleb_bytes 5 body.length ++ (body ++ rest))) :
    cmd_configure h w cbuf (cbuf + 10) =
      .next (cbuf + 10 + (uleb_bytes 5 body.length).length + body.length)
        { w with c := { configure_fields h body.length body w.c with
                        buf := w.c.buf.take (cbuf + 10 + (uleb_bytes 5 body.length).length) ++
                          configure_stores h body.length body w.c ++ rest },
                 r := reply_status (configure_fields h body.length body w.c) w.r } := by
  have hd1 : w.c.buf.drop (cbuf + 10) = uleb_bytes 5 body.length ++ (body ++ rest) :=
    drop_add_of_drop _ _ (cstr "configure:") _ hd
  have hd2 : w.c.buf.drop (cbuf + 10 + (uleb_bytes 5 body.length).length) = body ++ rest :=
    drop_add_of_drop _ _ _ _ hd1
  have hd3 : w.c.buf.drop (cbuf + 10 + (uleb_bytes 5 body.length).length + body.length) = rest :=
    drop_add_of_drop _ _ _ _ hd2
  have hg := get_uleb128_at w.c.buf (cbuf + 10) body.length _ hL hd1
  have hlen : cbuf + 10 + (uleb_bytes 5 body.length).length + body.length ≤ w.c.buf.length := by
    have h1 : (w.c.buf.drop (cbuf + 10 + (uleb_bytes 5 body.length).length)).length =
        (body ++ rest).length := by rw [hd2]
    rw [List.length_drop, List.length_append] at h1
    by_cases hz : body.length = 0
    · have hpos : 1 ≤ (uleb_bytes 5 body.length).length := uleb_bytes_length_pos 4 _
      have h2 := congrArg List.length hd1
      rw [List.length_drop, List.length_append] at h2
      omega
    · omega
  have hs : (w.c.buf.drop (cbuf + 10 + (uleb_bytes 5 body.length).length)).take body.length =
      body := by
    rw [hd2, List.take_left]
  have e := cmd_configure_next h w cbuf (cbuf + 10) (by
    rw [hg]
    simp only [u32_of_lt hL]
    exact hlen)
  rw [hg] at e
  simp only [u32_of_lt hL, hs, hd3] at e
  exact e

theorem get_field_append (a s : List Nat) (c : Nat) (ha : ∀ b ∈ a, b ≠ 0 ∧ b ≠ c) :
    get_field (a ++ s) c = (a ++ (get_field s c).1, (get_field s c).2) := by
  induction a with
  | nil => simp
  | cons b t ih =>
    have hb := ha b (by simp)
    have ht := ih (fun x hx => ha x (by simp [hx]))
    simp only [List.cons_append, get_field, if_neg hb.1, if_neg hb.2, List.append_eq, ht]

theorem strchr_none (a : List Nat) (ch : Nat) (h : ch ∉ a) : strchr a ch = none := by
  induction a with
  | nil => rfl
  | cons b t ih =>
    have hb : b ≠ ch := fun e => h (by simp [e])
    simp only [strchr, if_neg hb, List.append_eq, ih (fun x => h (by simp [x])),
      Option.map_none']

theorem strchr_found (a b : List Nat) (ch : Nat) (h : ch ∉ a) :
    strchr (a ++ ch :: b) ch = some (a, b) := by
  induction a with
  | nil => simp [strchr]
  | cons x t ih =>
    have hx : x ≠ ch := fun e => h (by simp [e])
    simp only [List.cons_append, strchr, if_neg hx, List.append_eq,
      ih (fun y => h (by simp [y])), Option.map_some']

theorem config_enable_flag (f : Bool × Bool) :
    config_enable (flag_field f) =
      (if f.1 = true then cstr "locking" else cstr "status", if f.2 = true then 1 else 0) := by
  rcases f with ⟨a, b⟩
  cases a <;> cases b <;> decide

theorem get_field_flag (f : Bool × Bool) (s : List Nat) :
    get_field (flag_field f ++ 44 :: s) 44 = (flag_field f, s) := by
  have h : ∀ b ∈ flag_field f, b ≠ 0 ∧ b ≠ 44 := by
    rcases f with ⟨a, b⟩
    cases a <;> cases b <;> decide
  rw [get_field_append _ _ _ h]
  simp [get_field]

theorem get_field_flag_last (f : Bool × Bool) :
    get_field (flag_field f) 44 = (flag_field f, []) := by
  have h : ∀ b ∈ flag_field f, b ≠ 0 ∧ b ≠ 44 := by
    rcases f with ⟨a, b⟩
    cases a <;> cases b <;> decide
  have := get_field_append (flag_field f) [] 44 h
  simpa [get_field] using this

theorem flag_field_head (f : Bool × Bool) (s : List Nat) :
    (flag_field f ++ s).headD 0 ≠ 0 := by
  rcases f with ⟨a, b⟩
  cases a <;> cases b <;> simp [flag_field, cstr]

theorem set_flag_pending (c : XvcClient) (f : Bool × Bool) :
    (set_flag c f).pending_error = c.pending_error := by
  unfold set_flag
  split <;> rfl

/-- One boolean field at the head of the body sets its flag, and the loop goes
on with the rest of the body. -/
theorem configure_fields_flag {β : Type} (h : XvcServerHandlers β) (fuel : Nat) (f : Bool × Bool)
    (s tail : List Nat) (c : XvcClient) (hlock : h.lock = true) (hunlock : h.unlock = true)
    (hpe : c.pending_error.headD 0 = 0)
    (hg : get_field s 44 = (flag_field f, tail)) (hs : s.headD 0 ≠ 0) :
    configure_fields h (fuel + 1) s c = configure_fields h fuel tail (set_flag c f) := by
  have hce := config_enable_flag f
  have hne : cstr "status" ≠ cstr "locking" := by decide
  conv_lhs => unfold configure_fields
  simp only [Char.reduceToNat, hg, hce, hlock, hunlock]
  rw [if_pos ⟨hs, hpe⟩]
  rcases f with ⟨a, b⟩
  cases a <;> cases b <;> simp [set_flag, hne]

theorem configure_fields_nil {β : Type} (h : XvcServerHandlers β) (fuel : Nat) (c : XvcClient) :
    configure_fields h fuel [] c = c := by
  cases fuel <;> simp [configure_fields]

/-- A body made of boolean fields applies them to the flags from left to
right. -/
theorem configure_fields_flags {β : Type} (h : XvcServerHandlers β)
    (fields : List (Bool × Bool)) (fuel : Nat) (c : XvcClient)
    (hlock : h.lock = true) (hunlock : h.unlock = true)
    (hpe : c.pending_error.headD 0 = 0) (hfuel : fields.length ≤ fuel) :
    configure_fields h fuel (join_fields (fields.map flag_field)) c = fields.foldl set_flag c := by
  induction fields generalizing fuel c with
  | nil => simp [join_fields, configure_fields_nil]
  | cons f fs ih =>
    cases fuel with
    | zero => simp at hfuel
    | succ k =>
      have hk : fs.length ≤ k := by simpa using hfuel
      have hpe2 : (set_flag c f).pending_error.headD 0 = 0 := by rw [set_flag_pending]; exact hpe
      cases fs with
      | nil =>
        rw [List.map_cons, List.map_nil, join_fields,
          configure_fields_flag h k f _ [] c hlock hunlock hpe (get_field_flag_last f)
            (by simpa using flag_field_head f [])]
        simp [configure_fields_nil]
      | cons g gs =>
        have e := ih k (set_flag c f) hpe2 hk
        rw [List.map_cons, List.map_cons, join_fields,
          configure_fields_flag h k f _ (join_fields (flag_field g :: gs.map flag_field)) c hlock
            hunlock hpe (by simpa using get_field_flag f _) (flag_field_head f _)]
        rw [List.map_cons] at e
        rw [e]
        rfl

theorem flag_field_length (f : Bool × Bool) : 7 ≤ (flag_field f).length := by
  rcases f with ⟨a, b⟩
  cases a <;> cases b <;> decide

theorem join_fields_length (fields : List (Bool × Bool)) :
    fields.length ≤ (join_fields (fields.map flag_field)).length := by
  induction fields with
  | nil => simp
  | cons f fs ih =>
    have := flag_field_length f
    cases fs with
    | nil => simp [join_fields]; omega
    | cons g gs =>
      simp only [List.map_cons, join_fields, List.length_append, List.length_cons] at ih ⊢
      omega

/-- C5. For every connection with no pending error whose backend provides
both lock and unlock, and for every previous value of the two flags,
`configure:` with a length-prefixed body of fields `locking+`, `locking-`,
`status+`, `status-` sets, field by field, the named flag to 1 for `+` and to 0
for `-` and changes nothing else in the connection (the pending error stays
empty), apart from the terminators that the parser stores into the bytes of
the body in the input buffer; in particular the body `locking+,status-` sets
locking to 1 and status reporting to 0. -/
theorem configure_sets_flags {β : Type} (h : XvcServerHandlers β) (w : World β) (cbuf : Nat)
    (fields : List (Bool × Bool)) (rest : List Nat)
    (hlock : h.lock = true) (hunlock : h.unlock = true)
    (hpe : w.c.pending_error.headD 0 = 0)
    (hL : (join_fields (fields.map flag_field)).length < 2 ^ 32)
    (hd : w.c.buf.drop cbuf = cstr "configure:" ++
      (uleb_bytes 5 (join_fields (fields.map flag_field)).length ++
        (join_fields (fields.map flag_field) ++ rest))) :
    (∃ (r1 : ReplyBuf) (buf1 : List Nat), dispatch h w cbuf =
      .next (cbuf + 10 + (uleb_bytes 5 (join_fields (fields.map flag_field)).length).length +
          (join_fields (fields.map flag_field)).length)
        { w with c := { fields.foldl set_flag w.c with buf := buf1 }, r := r1 } ∧
      buf1.length = w.c.buf.length ∧
      buf1.take (cbuf + 10 + (uleb_bytes 5 (join_fields (fields.map flag_field)).length).length) =
        w.c.buf.take
          (cbuf + 10 + (uleb_bytes 5 (join_fields (fields.map flag_field)).length).length) ∧
      buf1.drop (cbuf + 10 + (uleb_bytes 5 (join_fields (fields.map flag_field)).length).length +
          (join_fields (fields.map flag_field)).length) = rest) ∧
    (fields.foldl set_flag w.c).pending_error = w.c.pending_error ∧
    (fields = [(true, true), (false, false)] →
      join_fields (fields.map flag_field) = cstr "locking+,status-" ∧
      fields.foldl set_flag w.c = { w.c with enable_locking := 1, enable_status := 0 }) := by
  have e := cmd_configure_eq h w cbuf _ rest hL hd
  have e2 := configure_fields_flags h fields _ w.c hlock hunlock hpe (join_fields_length fields)
  rw [e2] at e
  have hp : ∀ (fs : List (Bool × Bool)) (c : XvcClient),
      (fs.foldl set_flag c).pending_error = c.pending_error := by
    intro fs
    induction fs with
    | nil => intro c; rfl
    | cons f gs ih => intro c; rw [List.foldl_cons, ih, set_flag_pending]
  have hd3 : w.c.buf.drop (cbuf + 10 +
      (uleb_bytes 5 (join_fields (fields.map flag_field)).length).length +
      (join_fields (fields.map flag_field)).length) = rest :=
    drop_add_of_drop _ _ _ _ (drop_add_of_drop _ _ _ _ (drop_add_of_drop _ _ _ _ hd))
  have hle : cbuf + 10 + (uleb_bytes 5 (join_fields (fields.map flag_field)).length).length +
      (join_fields (fields.map flag_field)).length ≤ w.c.buf.length := by
    have h1 := congrArg List.length hd
    simp only [List.length_drop, List.length_append] at h1
    have h10 : (cstr "configure:").length = 10 := by decide
    omega
  obtain ⟨b1, b2, b3⟩ := stored_buf w.c.buf
    (configure_stores h (join_fields (fields.map flag_field)).length
      (join_fields (fields.map flag_field)) w.c) rest
    (cbuf + 10 + (uleb_bytes 5 (join_fields (fields.map flag_field)).length).length) _
    (by rw [configure_stores_length]) hle hd3
  refine ⟨⟨reply_status (fields.foldl set_flag w.c) w.r, _, ?_, b1, b2, b3⟩, hp fields w.c, ?_⟩
  · rw [dispatch_configure h w cbuf _ hd, e]
  · intro hf
    subst hf
    exact ⟨by decide, rfl⟩

theorem configure_sets_flags_witness :
    (fresh_world (cstr "configure:" ++ [16] ++ cstr "locking+,status-") []).c.buf.drop 0 =
      cstr "configure:" ++
        (uleb_bytes 5 (join_fields ([(true, true), (false, false)].map flag_field)).length ++
          (join_fields ([(true, true), (false, false)].map flag_field) ++ [])) ∧
    (dispatch full_handlers
      (fresh_world (cstr "configure:" ++ [16] ++ cstr "locking+,status-") []) 0).world.c =
      { accept_client with
        buf := cstr "configure:" ++ [16] ++ cstr "locking" ++ [0, 0] ++ cstr "status" ++ [0],
        enable_locking := 1, enable_status := 0 } ∧
    ([(true, true), (false, false)] = [(true, true), (false, false)] →
      join_fields ([(true, true), (false, false)].map flag_field) = cstr "locking+,status-" ∧
      [(true, true), (false, false)].foldl set_flag
          (fresh_world (cstr "configure:" ++ [16] ++ cstr "locking+,status-") []).c =
        { (fresh_world (cstr "configure:" ++ [16] ++ cstr "locking+,status-") []).c with
          enable_locking := 1, enable_status := 0 }) :=
  ⟨by decide, by decide,
   (configure_sets_flags full_handlers
      (fresh_world (cstr "configure:" ++ [16] ++ cstr "locking+,status-") []) 0
      [(true, true), (false, false)] [] (by decide) (by decide) (by decide) (by decide)
      (by decide)).2.2⟩

/-- The field `N=value` at the head of a body, for a name that is not
accepted: the loop stops with the pending error `unexpected configuration: N`. -/
theorem configure_fields_unexpected {β : Type} (h : XvcServerHandlers β) (fuel : Nat)
    (name value : List Nat) (c : XvcClient)
    (hpe : c.pending_error.headD 0 = 0)
    (hne : name ≠ []) (hn : ∀ b ∈ name, b ≠ 0 ∧ b ≠ 44 ∧ b ≠ 61)
    (hs : name ≠ cstr "status")
    (hl : name = cstr "locking" → ¬ (h.lock = true ∧ h.unlock = true)) :
    configure_fields h (fuel + 1) (name ++ 61 :: value) c =
      { c with pending_error := (cstr "unexpected configuration: " ++ name).take 1023 } := by
  have hg := get_field_append name (61 :: value) 44 (fun b hb => ⟨(hn b hb).1, (hn b hb).2.1⟩)
  have hg2 : (get_field (61 :: value) 44).1 = 61 :: (get_field value 44).1 := by
    simp [get_field]
  have h61 : 61 ∉ name := fun hm => (hn 61 hm).2.2 rfl
  have hce : config_enable (name ++ 61 :: (get_field value 44).1) = (name, -1) := by
    simp only [config_enable, Char.reduceToNat, strchr_found _ _ _ h61]
  have hhead : (name ++ 61 :: value).headD 0 ≠ 0 := by
    cases name with
    | nil => exact absurd rfl hne
    | cons b t => simpa using (hn b (by simp)).1
  have hz : ∀ b ∈ (cstr "unexpected configuration: " ++ name).take 1023, b ≠ 0 := by
    intro b hb
    have hb2 := List.mem_of_mem_take hb
    rcases List.mem_append.mp hb2 with h1 | h1
    · have : ∀ x ∈ cstr "unexpected configuration: ", x ≠ 0 := by decide
      exact this b h1
    · exact (hn b h1).1
  conv_lhs => unfold configure_fields
  simp only [Char.reduceToNat, hg, hg2, hce]
  rw [if_pos ⟨hhead, hpe⟩, if_neg (fun x => hl x.1 ⟨x.2.1, x.2.2⟩), if_neg hs]
  unfold xvcserver_set_error
  rw [List.takeWhile_eq_self_iff.mpr (by
    intro b hb
    simpa using hz b hb)]

theorem reply_status_len (c : XvcClient) (r : ReplyBuf) (h : r.reply_len + 1 < 2 ^ 32) :
    (reply_status c r).reply_len = r.reply_len + 1 := by
  unfold reply_status
  split <;> simp [ReplyBuf.advance, ReplyBuf.put, u32_of_lt h]

/-- C6. For every connection with no pending error and every field name `N`
(non-empty, without `,`, `=` or NUL) that is not accepted (not `status`, and
not `locking` with a backend that has lock and unlock), `configure:` with the
field `N=value` followed by `error:` sets the pending error to the text
`unexpected configuration: N` cut to 1023 bytes and leaves both flags as they
were (of the connection only the pending error and, in the input buffer, the
bytes of the body change); the reply that `error:` then appends is the varint
length followed by exactly that text, and the pending error is empty again. -/
theorem unexpected_configuration_reported {β : Type} (h : XvcServerHandlers β) (w : World β)
    (cbuf : Nat) (name value rest : List Nat)
    (hpe : w.c.pending_error.headD 0 = 0)
    (hne : name ≠ []) (hn : ∀ b ∈ name, b ≠ 0 ∧ b ≠ 44 ∧ b ≠ 61)
    (hs : name ≠ cstr "status")
    (hl : name = cstr "locking" → ¬ (h.lock = true ∧ h.unlock = true))
    (hL : (name ++ 61 :: value).length < 2 ^ 32)
    (hlo : 1031 ≤ w.c.buf_max) (hhi : w.c.buf_max < 2 ^ 32)
    (hroom : w.r.reply_len + 3 ≤ max_packet_len)
    (hd : w.c.buf.drop cbuf = cstr "configure:" ++
      (uleb_bytes 5 (name ++ 61 :: value).length ++
        ((name ++ 61 :: value) ++ (cstr "error:" ++ rest)))) :
    ∃ (p1 : Nat) (w1 : World β), dispatch h w cbuf = .next p1 w1 ∧
      { w1.c with buf := w.c.buf } =
        { w.c with pending_error := (cstr "unexpected configuration: " ++ name).take 1023 } ∧
      w1.c.buf.length = w.c.buf.length ∧
      dispatch h w1 p1 = .next (p1 + 6)
        { w1 with c := { w1.c with pending_error := [] },
                  r := (w1.r.append
                    (uleb_bytes 5 ((cstr "unexpected configuration: " ++ name).take 1023).length ++
                      (cstr "unexpected configuration: " ++ name).take 1023)) } := by
  have hmax : max_packet_len = 10000 := rfl
  have e1 := cmd_configure_eq h w cbuf _ _ hL hd
  have hbl : (name ++ 61 :: value).length = (name.length + value.length) + 1 := by
    simp only [List.length_append, List.length_cons]
    omega
  have e2 := configure_fields_unexpected h (name.length + value.length) name value w.c hpe hne
    hn hs hl
  rw [← hbl] at e2
  rw [e2] at e1
  have hd1 : w.c.buf.drop (cbuf + 10 + (uleb_bytes 5 (name ++ 61 :: value).length).length +
      (name ++ 61 :: value).length) = cstr "error:" ++ rest :=
    drop_add_of_drop _ _ _ _ (drop_add_of_drop _ _ _ _ (drop_add_of_drop _ _ _ _ hd))
  have hle : cbuf + 10 + (uleb_bytes 5 (name ++ 61 :: value).length).length +
      (name ++ 61 :: value).length ≤ w.c.buf.length := by
    have h1 := drop_length_le _ _ _ (by simp [cstr]) hd1
    omega
  obtain ⟨b1, _, b3⟩ := stored_buf w.c.buf
    (configure_stores h (name ++ 61 :: value).length (name ++ 61 :: value) w.c)
    (cstr "error:" ++ rest)
    (cbuf + 10 + (uleb_bytes 5 (name ++ 61 :: value).length).length) _
    (by rw [configure_stores_length]) hle hd1
  generalize hT : (cstr "unexpected configuration: " ++ name).take 1023 = T at e1 ⊢
  have hTl : T.length ≤ 1023 := by
    rw [← hT, List.length_take]
    omega
  have hT0 : ∀ b ∈ T, b ≠ 0 := by
    intro b hb
    rw [← hT] at hb
    rcases List.mem_append.mp (List.mem_of_mem_take hb) with h1 | h1
    · have : ∀ x ∈ cstr "unexpected configuration: ", x ≠ 0 := by decide
      exact this b h1
    · exact (hn b h1).1
  have hmin : min T.length (w.c.buf_max - (T.length + 127) / 128) = T.length := by omega
  have hlen := uleb_bytes_short T.length (by omega)
  generalize hB : w.c.buf.take (cbuf + 10 + (uleb_bytes 5 (name ++ 61 :: value).length).length) ++
    configure_stores h (name ++ 61 :: value).length (name ++ 61 :: value) w.c ++
    (cstr "error:" ++ rest) = B at e1 b1 b3
  refine ⟨cbuf + 10 + (uleb_bytes 5 (name ++ 61 :: value).length).length +
      (name ++ 61 :: value).length,
    { w with c := { ({ w.c with pending_error := T } : XvcClient) with buf := B },
             r := reply_status { w.c with pending_error := T } w.r }, ?_, rfl, b1, ?_⟩
  · rw [dispatch_configure h w cbuf _ hd, e1]
  · have hrl := reply_status_len { w.c with pending_error := T } w.r (by omega)
    have e3 := cmd_error_eq
      ({ w with c := { ({ w.c with pending_error := T } : XvcClient) with buf := B },
                r := reply_status { w.c with pending_error := T } w.r } : World β)
      (cbuf + 10 + (uleb_bytes 5 (name ++ 61 :: value).length).length +
        (name ++ 61 :: value).length + 6)
      hT0 hTl (by simp only []; omega) hhi (by simp only [hmin, hrl]; omega)
    simp only [hmin, List.take_length] at e3
    rw [dispatch_error h
      ({ w with c := { ({ w.c with pending_error := T } : XvcClient) with buf := B },
                r := reply_status { w.c with pending_error := T } w.r } : World β) _ rest b3, e3]

theorem unexpected_configuration_reported_witness :
    (fresh_world (cstr "configure:" ++ [7] ++ cstr "bogus=1" ++ cstr "error:") []).c.buf.drop 0 =
      cstr "configure:" ++ (uleb_bytes 5 (cstr "bogus" ++ 61 :: cstr "1").length ++
        ((cstr "bogus" ++ 61 :: cstr "1") ++ (cstr "error:" ++ []))) ∧
    (read_packet full_handlers
      (fresh_world [] [some (cstr "configure:" ++ [7] ++ cstr "bogus=1" ++ cstr "error:")])).map
      (fun x => (x.1, x.2.tx, x.2.c.enable_locking, x.2.c.enable_status, x.2.c.pending_error)) =
      some (Exit.closed, [1 :: 31 :: cstr "unexpected configuration: bogus"], 0, 0, []) ∧
    (dispatch full_handlers
      (fresh_world (cstr "configure:" ++ [7] ++ cstr "bogus=1" ++ cstr "error:") [])
      0).world.c.buf = cstr "configure:" ++ [7] ++ cstr "bogus" ++ [0] ++ cstr "1" ++ cstr "error:" ∧
    ∃ (p1 : Nat) (w1 : World Unit),
      dispatch full_handlers
        (fresh_world (cstr "configure:" ++ [7] ++ cstr "bogus=1" ++ cstr "error:") []) 0 =
        .next p1 w1 ∧
      { w1.c with
        buf := (fresh_world (cstr "configure:" ++ [7] ++ cstr "bogus=1" ++ cstr "error:") []).c.buf } =
        { (fresh_world (cstr "configure:" ++ [7] ++ cstr "bogus=1" ++ cstr "error:") []).c with
          pending_error := (cstr "unexpected configuration: " ++ cstr "bogus").take 1023 } ∧
      w1.c.buf.length =
        (fresh_world (cstr "configure:" ++ [7] ++ cstr "bogus=1" ++ cstr "error:") []).c.buf.length ∧
      dispatch full_handlers w1 p1 = .next (p1 + 6)
        { w1 with
          c := { w1.c with pending_error := [] },
          r := (w1.r.append
            (uleb_bytes 5 ((cstr "unexpected configuration: " ++ cstr "bogus").take 1023).length ++
              (cstr "unexpected configuration: " ++ cstr "bogus").take 1023)) } :=
  ⟨by decide, by decide, by decide,
   unexpected_configuration_reported full_handlers
     (fresh_world (cstr "configure:" ++ [7] ++ cstr "bogus=1" ++ cstr "error:") []) 0
     (cstr "bogus") (cstr "1") [] (by decide) (by decide) (by decide) (by decide)
     (fun x => absurd x (by decide)) (by decide) (by decide) (by decide) (by decide)
     (by decide)⟩

/-! ## The command loop in terms of `parse` and `exec` -/

theorem scan_shift (l : List Nat) (p : Nat) : scan l p = p + scan l 0 := by
  induction l generalizing p with
  | nil => simp [scan]
  | cons b t ih =>
    simp only [scan]
    split
    · rw [ih (p + 1), ih (0 + 1)]
      omega
    · rfl

theorem scan_le (l : List Nat) : scan l 0 ≤ l.length := by
  induction l with
  | nil => simp [scan]
  | cons b t ih =>
    simp only [scan]
    split
    · rw [scan_shift]
      simp only [List.length_cons]
      omega
    · simp

theorem get_uleb128_loop_shift (l : List Nat) (acc i p : Nat) :
    get_uleb128_loop l acc i p =
      ((get_uleb128_loop l acc i 0).1, p + (get_uleb128_loop l acc i 0).2) := by
  induction l generalizing acc i p with
  | nil => simp [get_uleb128_loop]
  | cons b t ih =>
    simp only [get_uleb128_loop]
    split
    · rw [ih _ _ (p + 1), ih _ _ (0 + 1)]
      simp only [Prod.mk.injEq, true_and]
      omega
    · simp

theorem get_uleb128_rel (buf : List Nat) (p : Nat) :
    get_uleb128 buf p buf.length =
      ((get_uleb128_loop (buf.drop p) 0 0 0).1, p + (get_uleb128_loop (buf.drop p) 0 0 0).2) := by
  unfold get_uleb128
  rw [List.take_length, get_uleb128_loop_shift]

theorem get_uleb128_loop_pos (l : List Nat) (acc i : Nat) :
    1 ≤ (get_uleb128_loop l acc i 0).2 := by
  cases l with
  | nil => simp [get_uleb128_loop]
  | cons b t =>
    simp only [get_uleb128_loop]
    split
    · rw [get_uleb128_loop_shift]
      simp only
      omega
    · simp

theorem dispatch_cmd_eq_interp {β : Type} (h : XvcServerHandlers β) (w : World β)
    (cbuf len : Nat) (hc : cbuf + len ≤ w.c.buf.length) (hlen : len < 2 ^ 32) :
    dispatch_cmd h w cbuf (cbuf + len) =
      interp h w cbuf (parse_cmd h.edpc.isSome h.idpc.isSome (w.c.buf_addr + cbuf)
        (w.c.buf.drop cbuf) len) := by
  have hdl : (w.c.buf.drop cbuf).length = w.c.buf.length - cbuf := List.length_drop _ _
  have hl : u32 (cbuf + len - cbuf) = len := by
    rw [Nat.add_sub_cancel_left]; exact u32_of_lt hlen
  have hdd : ∀ k, (w.c.buf.drop cbuf).drop k = w.c.buf.drop (cbuf + k) := by
    intro k
    rw [List.drop_drop, Nat.add_comm]
  unfold dispatch_cmd parse_cmd
  simp only [hl, hdl, hdd]
  split_ifs
  · rfl
  · rfl
  · unfold cmd_configure
    simp only [get_uleb128_rel, interp]
    rw [if_pos (by omega)]
    congr 1
    simp only [eq_iff_iff]
    omega
  · rename_i hcmd hinc
    have hin : (get_uleb128 w.c.buf (cbuf + len) w.c.buf.length).2 +
        u32 (get_uleb128 w.c.buf (cbuf + len) w.c.buf.length).1 ≤ w.c.buf.length := by
      simp only [get_uleb128_rel]
      omega
    rw [cmd_configure_next h w cbuf (cbuf + len) hin]
    simp only [get_uleb128_rel, interp, exec, stores, put_stores, World.set_buf]
    generalize get_uleb128_loop (List.drop (cbuf + len) w.c.buf) 0 0 0 = g at hinc
    have hbl : ((w.c.buf.drop (cbuf + len + g.2)).take (u32 g.1)).length = u32 g.1 := by
      rw [List.length_take, List.length_drop]
      omega
    simp only [Nat.add_assoc] at hbl ⊢
    rw [hbl]
    have e1 : cbuf + (len + (g.2 + u32 g.1)) - u32 g.1 = cbuf + (len + g.2) := by omega
    rw [e1]
  · rfl
  · rename_i hcmd hinc
    obtain ⟨f, hf⟩ := Option.isSome_iff_exists.mp hcmd.2.2
    simp only [hf]
    unfold cmd_edpc
    simp only [get_uleb128_rel, interp]
    rw [if_pos (by omega)]
    congr 1
    simp only [eq_iff_iff]
    omega
  · rename_i hcmd hinc
    obtain ⟨f, hf⟩ := Option.isSome_iff_exists.mp hcmd.2.2
    simp only [hf]
    unfold cmd_edpc
    simp only [get_uleb128_rel, interp, exec, hf, put_stores]
    rw [if_neg (by omega)]
    simp only [Nat.add_assoc]
  · rename_i hcmd hinc
    obtain ⟨f, hf⟩ := Option.isSome_iff_exists.mp hcmd.2.2
    simp only [hf]
    unfold cmd_idpc
    simp only [get_uleb128_rel, interp]
    generalize get_uleb128_loop (List.drop (cbuf + len) w.c.buf) 0 0 0 = g1 at hinc ⊢
    generalize hG2 : get_uleb128_loop (List.drop (cbuf + (len + g1.2)) w.c.buf) 0 0 0 = g2
      at hinc ⊢
    have hG2a : get_uleb128_loop (List.drop (cbuf + len + g1.2) w.c.buf) 0 0 0 = g2 := by
      rw [Nat.add_assoc]
      exact hG2
    simp only [hG2a]
    have ea : w.c.buf_addr + (cbuf + len + g1.2 + g2.2) + u64 (u64 g2.1 * 4) =
        w.c.buf_addr + cbuf + (len + g1.2 + g2.2) + u64 (u64 g2.1 * 4) := by omega
    rw [ea]
    generalize u64 (w.c.buf_addr + cbuf + (len + g1.2 + g2.2) + u64 (u64 g2.1 * 4)) = pend
      at hinc ⊢
    rw [if_pos (by omega)]
    unfold signed_need
    by_cases h63 : 2 ^ 63 ≤ pend - (w.c.buf_addr + cbuf)
    · rw [if_pos (Or.inl h63), if_pos h63, if_pos (Nat.zero_le _)]
    · rw [if_neg h63]
      by_cases hm : pend - (w.c.buf_addr + cbuf) ≤ w.c.buf_max
      · rw [if_pos (Or.inr hm), if_pos hm]
      · rw [if_neg (by
          intro hx
          rcases hx with hx | hx
          · exact h63 hx
          · exact hm hx), if_neg hm]
  · rename_i hcmd hinc hok
    obtain ⟨f, hf⟩ := Option.isSome_iff_exists.mp hcmd.2.2
    simp only [hf]
    unfold cmd_idpc
    simp only [get_uleb128_rel, interp, exec, hf, idpc_avail, put_stores]
    generalize get_uleb128_loop (List.drop (cbuf + len) w.c.buf) 0 0 0 = g1 at hinc hok ⊢
    generalize hG2 : get_uleb128_loop (List.drop (cbuf + (len + g1.2)) w.c.buf) 0 0 0 = g2
      at hinc hok ⊢
    have hG2a : get_uleb128_loop (List.drop (cbuf + len + g1.2) w.c.buf) 0 0 0 = g2 := by
      rw [Nat.add_assoc]
      exact hG2
    simp only [hG2a]
    have ea : w.c.buf_addr + (cbuf + len + g1.2 + g2.2) + u64 (u64 g2.1 * 4) =
        w.c.buf_addr + cbuf + (len + g1.2 + g2.2) + u64 (u64 g2.1 * 4) := by omega
    rw [ea, if_neg (by omega), if_pos hok]
    generalize u64 (u64 g2.1 * 4) = nb
    have e : w.c.buf.length - (cbuf + (len + g1.2 + g2.2 + nb) - nb) =
        w.c.buf.length - (cbuf + len + g1.2 + g2.2) := by
      congr 1
      omega
    rw [e]
    simp only [Nat.add_assoc]
  · rename_i hcmd hinc hok
    obtain ⟨f, hf⟩ := Option.isSome_iff_exists.mp hcmd.2.2
    simp only [hf]
    unfold cmd_idpc
    simp only [get_uleb128_rel, interp, exec, hf]
    generalize get_uleb128_loop (List.drop (cbuf + len) w.c.buf) 0 0 0 = g1 at hinc hok ⊢
    generalize hG2 : get_uleb128_loop (List.drop (cbuf + (len + g1.2)) w.c.buf) 0 0 0 = g2
      at hinc hok ⊢
    have hG2a : get_uleb128_loop (List.drop (cbuf + len + g1.2) w.c.buf) 0 0 0 = g2 := by
      rw [Nat.add_assoc]
      exact hG2
    simp only [hG2a]
    have ea : w.c.buf_addr + (cbuf + len + g1.2 + g2.2) + u64 (u64 g2.1 * 4) =
        w.c.buf_addr + cbuf + (len + g1.2 + g2.2) + u64 (u64 g2.1 * 4) := by omega
    rw [ea, if_neg (by omega), if_neg hok]
    simp only [Nat.add_assoc]
  · rfl

/-- The round of the command loop is `parse` on the unconsumed bytes followed
by `exec`. -/
theorem dispatch_eq_interp {β : Type} (h : XvcServerHandlers β) (w : World β) (cbuf : Nat)
    (hc : cbuf ≤ w.c.buf.length) :
    dispatch h w cbuf =
      interp h w cbuf
        (parse h.edpc.isSome h.idpc.isSome (w.c.buf_addr + cbuf) (w.c.buf.drop cbuf)) := by
  have hdl : (w.c.buf.drop cbuf).length = w.c.buf.length - cbuf := List.length_drop _ _
  unfold dispatch parse
  simp only [hdl]
  by_cases he : cbuf + 30 < w.c.buf.length
  · have he2 : 30 < w.c.buf.length - cbuf := by omega
    have hq := scan_le ((w.c.buf.drop cbuf).take 30)
    rw [List.length_take, hdl] at hq
    rw [if_pos he, if_pos he2, List.drop_take, Nat.add_sub_cancel_left, scan_shift]
    by_cases hs : scan ((w.c.buf.drop cbuf).take 30) 0 ≥ 30
    · rw [if_pos (by omega), if_pos (by omega), if_pos hs, if_pos hs]
      rfl
    · rw [if_neg (by omega), if_neg hs, Nat.add_assoc]
      exact dispatch_cmd_eq_interp h w cbuf _ (by omega) (by omega)
  · have he2 : ¬ 30 < w.c.buf.length - cbuf := by omega
    have hq := scan_le (w.c.buf.drop cbuf)
    rw [hdl] at hq
    rw [if_neg he, if_neg he2, List.take_length, ← hdl, List.take_length, scan_shift, hdl]
    by_cases hs : scan (w.c.buf.drop cbuf) 0 ≥ w.c.buf.length - cbuf
    · rw [if_pos (by omega), if_pos hs]
      by_cases h30 : scan (w.c.buf.drop cbuf) 0 ≥ 30
      · rw [if_pos (by omega), if_pos h30]
        rfl
      · rw [if_neg (by omega), if_neg h30]
        simp [interp]
    · rw [if_neg (by omega), if_neg hs, Nat.add_assoc]
      exact dispatch_cmd_eq_interp h w cbuf _ (by omega) (by omega)

/-! ## The framer reads a command from its own bytes only -/

theorem scan_take (d : List Nat) (e : Nat) : scan (d.take e) 0 = min e (scan d 0) := by
  induction d generalizing e with
  | nil => simp [scan]
  | cons b t ih =>
    cases e with
    | zero => simp [scan]
    | succ k =>
      simp only [List.take_succ_cons, scan]
      split
      · rw [scan_shift, scan_shift t, ih k]
        omega
      · simp

theorem scan_lt_colon (d : List Nat) (hs : scan d 0 < d.length) :
    d.getD (scan d 0) 0 = 58 ∧ 58 ∉ d.take (scan d 0) := by
  induction d with
  | nil => simp at hs
  | cons b t ih =>
    simp only [scan] at hs ⊢
    by_cases hb : b ≠ Char.toNat ':'
    · rw [if_pos hb] at hs ⊢
      rw [scan_shift] at hs ⊢
      have h1 : scan t 0 < t.length := by
        simp only [List.length_cons] at hs
        omega
      have := ih h1
      rw [show 0 + 1 + scan t 0 = scan t 0 + 1 by omega]
      simp only [List.getD_cons_succ, List.take_succ_cons, List.mem_cons, not_or]
      exact ⟨this.1, fun e => hb (by simpa using e.symm), this.2⟩
    · rw [if_neg hb]
      simp only [ne_eq, Char.reduceToNat, Decidable.not_not] at hb
      simp [hb]

theorem scan_split (d : List Nat) (hs : scan d 0 < d.length) :
    d = d.take (scan d 0) ++ 58 :: d.drop (scan d 0 + 1) := by
  have h := scan_lt_colon d hs
  conv_lhs => rw [← List.take_append_drop (scan d 0) d]
  congr 1
  rw [List.drop_eq_getElem_cons hs]
  congr 1
  rw [List.getD_eq_getElem _ _ hs] at h
  exact h.1

/-- The framer by the position of the first colon. -/
theorem parse_eq (a b : Bool) (ad : Nat) (d : List Nat) :
    parse a b ad d =
      if scan d 0 ≥ 30 then .bad
      else if scan d 0 ≥ d.length then .more 0
      else parse_cmd a b ad d (scan d 0 + 1) := by
  have hle := scan_le d
  unfold parse
  simp only [scan_take]
  by_cases h30 : 30 < d.length
  · simp only [if_pos h30]
    have hq : min 30 (scan d 0) = scan d 0 ∨ (min 30 (scan d 0) = 30 ∧ scan d 0 ≥ 30) := by omega
    rcases hq with hq | hq
    · rw [hq]
      split_ifs <;> first | rfl | omega
    · rw [hq.1]
      split_ifs <;> first | rfl | omega
  · simp only [if_neg h30]
    have hq : min d.length (scan d 0) = scan d 0 := by omega
    rw [hq]
    split_ifs <;> first | rfl | omega

/-! ## Locality of the framer -/

theorem scan_append_lt (d x : List Nat) (hs : scan d 0 < d.length) :
    scan (d ++ x) 0 = scan d 0 := by
  have h := scan_split d hs
  have h2 := (scan_lt_colon d hs).2
  have hl : (d.take (scan d 0)).length = scan d 0 := by
    rw [List.length_take]; omega
  conv_lhs => rw [h, List.append_assoc, List.cons_append]
  rw [scan_found _ _ 0 h2, hl, Nat.zero_add]

theorem scan_no_colon (d : List Nat) (h : 58 ∉ d) : scan d 0 = d.length := by
  induction d with
  | nil => rfl
  | cons b t ih =>
    have hb : b ≠ Char.toNat ':' := fun e => h (by simp [e])
    simp only [scan, if_pos hb]
    rw [scan_shift, ih (fun x => h (by simp [x]))]
    simp only [List.length_cons]
    omega

theorem scan_ge_no_colon (d : List Nat) (h : scan d 0 ≥ d.length) : 58 ∉ d := by
  induction d with
  | nil => simp
  | cons b t ih =>
    simp only [scan] at h
    by_cases hb : b ≠ Char.toNat ':'
    · rw [if_pos hb, scan_shift] at h
      simp only [List.length_cons] at h
      have := ih (by omega)
      simp only [List.mem_cons, not_or]
      exact ⟨fun e => hb (by simpa using e.symm), this⟩
    · rw [if_neg hb] at h
      simp at h

theorem scan_append_ge (d x : List Nat) : scan d 0 ≤ scan (d ++ x) 0 := by
  by_cases hs : scan d 0 < d.length
  · rw [scan_append_lt d x hs]
  · have hn := scan_ge_no_colon d (by omega)
    have hle := scan_le d
    have : scan (d ++ x) 0 = d.length + scan x 0 := by
      clear hs hle
      induction d with
      | nil => simp
      | cons b t ih =>
        have hb : b ≠ Char.toNat ':' := fun e => hn (by simp [e])
        simp only [List.cons_append, scan, if_pos hb, List.append_eq]
        rw [scan_shift, ih (fun y => hn (by simp [y]))]
        simp only [List.length_cons]
        omega
    omega

theorem scan_of_take_eq (d d2 : List Nat) (hs : scan d 0 < d.length)
    (h : d2.take (scan d 0 + 1) = d.take (scan d 0 + 1)) :
    scan d2 0 = scan d 0 ∧ scan d2 0 < d2.length := by
  have hsp := scan_split d hs
  have h2 := (scan_lt_colon d hs).2
  have hl : (d.take (scan d 0)).length = scan d 0 := by
    rw [List.length_take]; omega
  have ht : d.take (scan d 0 + 1) = d.take (scan d 0) ++ [58] := by
    have h58 := (scan_lt_colon d hs).1
    rw [List.getD_eq_getElem _ _ hs] at h58
    rw [List.take_succ, List.getElem?_eq_getElem hs, h58]
    rfl
  have hd2 : d2 = d.take (scan d 0) ++ 58 :: d2.drop (scan d 0 + 1) := by
    conv_lhs => rw [← List.take_append_drop (scan d 0 + 1) d2, h, ht]
    simp
  have e : scan d2 0 = scan d 0 := by
    rw [hd2, scan_found _ _ 0 h2, hl, Nat.zero_add]
  refine ⟨e, ?_⟩
  rw [e]
  have := congrArg List.length hd2
  simp only [List.length_append, List.length_cons, hl] at this
  omega

/-- A decoding that ends inside the list reads only the bytes up to its
cursor. -/
theorem get_uleb128_loop_local (l l2 : List Nat) (acc i : Nat)
    (hfin : (get_uleb128_loop l acc i 0).2 ≤ l.length)
    (h : l2.take (get_uleb128_loop l acc i 0).2 = l.take (get_uleb128_loop l acc i 0).2) :
    get_uleb128_loop l2 acc i 0 = get_uleb128_loop l acc i 0 := by
  induction l generalizing l2 acc i with
  | nil =>
    have := get_uleb128_loop_pos [] acc i
    simp only [List.length_nil] at hfin
    omega
  | cons b t ih =>
    have hpos := get_uleb128_loop_pos (b :: t) acc i
    cases l2 with
    | nil =>
      obtain ⟨k, hk⟩ : ∃ k, (get_uleb128_loop (b :: t) acc i 0).2 = k + 1 :=
        ⟨(get_uleb128_loop (b :: t) acc i 0).2 - 1, by omega⟩
      rw [hk] at h
      simp at h
    | cons b2 t2 =>
      obtain ⟨k, hk⟩ : ∃ k, (get_uleb128_loop (b :: t) acc i 0).2 = k + 1 :=
        ⟨(get_uleb128_loop (b :: t) acc i 0).2 - 1, by omega⟩
      rw [hk, List.take_succ_cons, List.take_succ_cons] at h
      injection h with hb ht
      subst hb
      by_cases hc : b2 &&& 128 ≠ 0
      · simp only [get_uleb128_loop, if_pos hc] at hk hfin ⊢
        rw [get_uleb128_loop_shift] at hk hfin
        simp only [List.length_cons] at hk hfin
        have hk2 : (get_uleb128_loop t (acc ||| u64 ((b2 &&& 127) <<< (i % 64))) (i + 7) 0).2 =
            k := by
          omega
        have := ih t2 (acc ||| u64 ((b2 &&& 127) <<< (i % 64))) (i + 7) (by omega)
          (by rw [hk2]; exact ht)
        rw [get_uleb128_loop_shift t2, get_uleb128_loop_shift t, this]
      · simp only [get_uleb128_loop, if_neg hc]

theorem take_eq_of_take_eq {α : Type} (d d2 : List α) (L n : Nat) (h : d2.take L = d.take L)
    (hn : n ≤ L) : d2.take n = d.take n := by
  have := congrArg (List.take n) h
  rwa [List.take_take, List.take_take, Nat.min_eq_left hn] at this

theorem drop_take_eq_of_take_eq {α : Type} (d d2 : List α) (L k n : Nat)
    (h : d2.take L = d.take L) (hn : k + n ≤ L) :
    (d2.drop k).take n = (d.drop k).take n := by
  have h1 := congrArg (List.drop k) (take_eq_of_take_eq d d2 L (k + n) h hn)
  rwa [List.drop_take, List.drop_take, Nat.add_sub_cancel_left] at h1

theorem length_ge_of_take_eq {α : Type} (d d2 : List α) (L : Nat) (h : d2.take L = d.take L)
    (hL : L ≤ d.length) : L ≤ d2.length := by
  have := congrArg List.length h
  rw [List.length_take, List.length_take] at this
  omega

/-- The varint at offset `k` of `d2` is the one of `d` when the two lists agree
on the bytes up to the end of its decoding. -/
theorem get_uleb128_loop_agree (d d2 : List Nat) (L k : Nat) (h : d2.take L = d.take L)
    (hfin : k + (get_uleb128_loop (d.drop k) 0 0 0).2 ≤ L) (hL : L ≤ d.length) :
    get_uleb128_loop (d2.drop k) 0 0 0 = get_uleb128_loop (d.drop k) 0 0 0 := by
  apply get_uleb128_loop_local
  · rw [List.length_drop]
    omega
  · exact drop_take_eq_of_take_eq d d2 L k _ h hfin

theorem submask_zero (y : Nat) : submask 0 y := by
  intro i h
  simp at h

/-- A complete command is framed from its own bytes: its length is within the
buffer, and every buffer with the same first `L` bytes, at the same or a lower
address, frames a command of the same length, the same command unless an
`idpc:` count wraps. -/
theorem parse_cmd_local (a b : Bool) (ad : Nat) (d : List Nat) (len : Nat) (cmd : Cmd) (L : Nat)
    (hlen : len ≤ d.length) (h : parse_cmd a b ad d len = .ok cmd L) :
    L ≤ d.length ∧ len ≤ L ∧
      ∀ ad2 d2, ad2 ≤ ad → d2.take L = d.take L →
        ∃ cmd2, parse_cmd a b ad2 d2 len = .ok cmd2 L ∧ cmd2.forget = cmd.forget ∧
          (cmd.honest → cmd2 = cmd) := by
  unfold parse_cmd at h
  simp only [] at h
  split_ifs at h with c1 c2 c3 c4 c5 c6 c7 c8 c9 c10
  · injection h with h1 h2
    subst h1 h2
    refine ⟨hlen, le_refl _, fun ad2 d2 _ hd2 => ⟨.getinfo, ?_, rfl, fun _ => rfl⟩⟩
    unfold parse_cmd
    simp only [hd2]
    rw [if_pos c1]
  · injection h with h1 h2
    subst h1 h2
    refine ⟨hlen, le_refl _, fun ad2 d2 _ hd2 => ⟨.capabilities, ?_, rfl, fun _ => rfl⟩⟩
    unfold parse_cmd
    simp only [hd2]
    rw [if_neg c1, if_pos c2]
  · injection h with h1 h2
    have hpos := get_uleb128_loop_pos (d.drop len) 0 0
    refine ⟨by omega, by omega, fun ad2 d2 _ hd2 => ⟨cmd, ?_, rfl, fun _ => rfl⟩⟩
    have hL : L ≤ d.length := by omega
    have hn := take_eq_of_take_eq d d2 L len hd2 (by omega)
    have hg := get_uleb128_loop_agree d d2 L len hd2 (by omega) hL
    have hl2 := length_ge_of_take_eq d d2 L hd2 hL
    have hb := drop_take_eq_of_take_eq d d2 L (len + (get_uleb128_loop (d.drop len) 0 0 0).2)
      (u32 (get_uleb128_loop (d.drop len) 0 0 0).1) hd2 (by omega)
    unfold parse_cmd
    simp only [hn, hg]
    rw [if_neg c1, if_neg c2, if_pos c3, if_neg (by omega), hb, h1, h2]
  · injection h with h1 h2
    subst h1 h2
    refine ⟨hlen, le_refl _, fun ad2 d2 _ hd2 => ⟨.error, ?_, rfl, fun _ => rfl⟩⟩
    unfold parse_cmd
    simp only [hd2]
    rw [if_neg c1, if_neg c2, if_neg c3, if_pos c5]
  · injection h with h1 h2
    have hpos := get_uleb128_loop_pos (d.drop len) 0 0
    refine ⟨by omega, by omega, fun ad2 d2 _ hd2 => ⟨cmd, ?_, rfl, fun _ => rfl⟩⟩
    have hL : L ≤ d.length := by omega
    have hn := take_eq_of_take_eq d d2 L len hd2 (by omega)
    have hg := get_uleb128_loop_agree d d2 L len hd2 (by omega) hL
    have hl2 := length_ge_of_take_eq d d2 L hd2 hL
    unfold parse_cmd
    simp only [hn, hg]
    rw [if_neg c1, if_neg c2, if_neg c3, if_neg c5, if_pos c6, if_neg (by omega), h1, h2]
  · injection h with h1 h2
    have hpos := get_uleb128_loop_pos (d.drop len) 0 0
    generalize hG1 : get_uleb128_loop (List.drop len d) 0 0 0 = g1 at *
    generalize hG2 : get_uleb128_loop (List.drop (len + g1.2) d) 0 0 0 = g2 at *
    have hbound : u64 (ad + (len + g1.2 + g2.2) + u64 (u64 g2.1 * 4)) < 2 ^ 64 :=
      Nat.mod_lt _ (by norm_num)
    have hL : L ≤ d.length := by omega
    refine ⟨hL, by omega, fun ad2 d2 had hd2 => ?_⟩
    have hn := take_eq_of_take_eq d d2 L len hd2 (by omega)
    have hg1 := get_uleb128_loop_agree d d2 L len hd2 (by rw [hG1]; omega) hL
    rw [hG1] at hg1
    have hg2 := get_uleb128_loop_agree d d2 L (len + g1.2) hd2 (by rw [hG2]; omega) hL
    rw [hG2] at hg2
    have hl2 := length_ge_of_take_eq d d2 L hd2 hL
    have hpe : u64 (ad2 + (len + g1.2 + g2.2) + u64 (u64 g2.1 * 4)) =
        ad2 + (len + g1.2 + g2.2) + u64 (u64 g2.1 * 4) := Nat.mod_eq_of_lt (by omega)
    refine ⟨Cmd.idpc (u32 g1.1) (u64 g2.1)
      ((d2.drop (len + g1.2 + g2.2)).take (4 * u64 g2.1)), ?_, ?_, ?_⟩
    · unfold parse_cmd
      simp only [hn, hg1, hg2]
      rw [if_neg c1, if_neg c2, if_neg c3, if_neg c5, if_neg c6, if_pos c8, hpe,
        if_neg (by omega), if_pos rfl, h2]
    · rw [← h1]
      rfl
    · intro hh
      rw [← h1] at hh ⊢
      simp only [Cmd.honest] at hh
      have hnb : u64 (u64 g2.1 * 4) = 4 * u64 g2.1 := by
        rw [u64_of_lt hh, Nat.mul_comm]
      have hb := drop_take_eq_of_take_eq d d2 L (len + g1.2 + g2.2) (4 * u64 g2.1) hd2
        (by rw [← h2, hnb])
      rw [hb]

theorem parse_cmd_bad_ext (a b : Bool) (ad ad2 : Nat) (d x : List Nat) (len : Nat)
    (hlen : len ≤ d.length) (h : parse_cmd a b ad d len = .bad) :
    parse_cmd a b ad2 (d ++ x) len = .bad := by
  have hn : (d ++ x).take len = d.take len := by
    rw [List.take_append_of_le_length hlen]
  unfold parse_cmd at h
  simp only [] at h
  split_ifs at h with c1 c2 c3 c4 c5 c6 c7 c8 c9 c10
  unfold parse_cmd
  simp only [hn]
  rw [if_neg c1, if_neg c2, if_neg c3, if_neg c5, if_neg c6, if_neg c8]

/-- A complete command is framed from its own bytes (see `parse_cmd_local`). -/
theorem parse_local (a b : Bool) (ad : Nat) (d : List Nat) (cmd : Cmd) (L : Nat)
    (h : parse a b ad d = .ok cmd L) :
    L ≤ d.length ∧ 1 ≤ L ∧
      ∀ ad2 d2, ad2 ≤ ad → d2.take L = d.take L →
        ∃ cmd2, parse a b ad2 d2 = .ok cmd2 L ∧ cmd2.forget = cmd.forget ∧
          (cmd.honest → cmd2 = cmd) := by
  rw [parse_eq] at h
  split_ifs at h
  rename_i h30 hs
  have hs2 : scan d 0 < d.length := by omega
  obtain ⟨h1, h2, h3⟩ := parse_cmd_local a b ad d _ cmd L (by omega) h
  refine ⟨h1, by omega, fun ad2 d2 had hd2 => ?_⟩
  have hsc := scan_of_take_eq d d2 hs2 (take_eq_of_take_eq d d2 L _ hd2 h2)
  obtain ⟨cmd2, e1, e2⟩ := h3 ad2 d2 had hd2
  refine ⟨cmd2, ?_, e2⟩
  rw [parse_eq, if_neg (by omega), if_neg (by omega), hsc.1]
  exact e1

theorem parse_bad_ext (a b : Bool) (ad ad2 : Nat) (d x : List Nat) (h : parse a b ad d = .bad) :
    parse a b ad2 (d ++ x) = .bad := by
  have hge := scan_append_ge d x
  rw [parse_eq] at h ⊢
  by_cases h30 : scan d 0 ≥ 30
  · rw [if_pos (by omega)]
  · rw [if_neg h30] at h
    by_cases hs : scan d 0 ≥ d.length
    · rw [if_pos hs] at h
      exact absurd h (by simp)
    · rw [if_neg hs] at h
      have e := scan_append_lt d x (by omega)
      rw [e, if_neg h30, if_neg (by simp only [List.length_append]; omega)]
      exact parse_cmd_bad_ext a b ad ad2 d x _ (by omega) h

/-- A complete command is complete as soon as its last byte has arrived. -/
theorem parse_take_self (a b : Bool) (ad ad2 : Nat) (d : List Nat) (cmd : Cmd) (L : Nat)
    (h : parse a b ad d = .ok cmd L) (hh : cmd.honest) (had : ad2 ≤ ad) :
    parse a b ad2 (d.take L) = .ok cmd L := by
  obtain ⟨_, _, h3⟩ := parse_local a b ad d cmd L h
  obtain ⟨cmd2, e1, _, e2⟩ := h3 ad2 (d.take L) had (by rw [List.take_take, Nat.min_self])
  rw [e1, e2 hh]

/-! ## What a complete command does to the connection -/

theorem exec_c {β : Type} (h : XvcServerHandlers β) (w : World β) (a : Nat) (cmd : Cmd) :
    (exec h w a cmd).c = (exec_conn h w.c w.client_data cmd).1 ∧
    (exec h w a cmd).client_data = (exec_conn h w.c w.client_data cmd).2 ∧
    (exec h w a cmd).rx = w.rx ∧ (exec h w a cmd).tx = w.tx ∧
    (exec h w a cmd).send_ok = w.send_ok := by
  cases cmd with
  | getinfo => exact ⟨rfl, rfl, rfl, rfl, rfl⟩
  | capabilities => exact ⟨rfl, rfl, rfl, rfl, rfl⟩
  | configure body => exact ⟨rfl, rfl, rfl, rfl, rfl⟩
  | error => exact ⟨rfl, rfl, rfl, rfl, rfl⟩
  | edpc flags =>
    cases hh : h.edpc with
    | none =>
      simp only [exec, exec_conn, hh]
      refine ⟨?_, ?_, ?_, ?_, ?_⟩ <;> trivial
    | some f =>
      simp only [exec, exec_conn, edpc_result, hh]
      refine ⟨?_, ?_, ?_, ?_, ?_⟩ <;> trivial
  | idpc flags n data =>
    cases hh : h.idpc with
    | none =>
      simp only [exec, exec_conn, hh]
      refine ⟨?_, ?_, ?_, ?_, ?_⟩ <;> trivial
    | some f =>
      by_cases hp : w.c.pending_error.headD 0 = 0
      · simp only [exec, exec_conn, hh, if_pos hp]
        refine ⟨?_, ?_, ?_, ?_, ?_⟩ <;> trivial
      · simp only [exec, exec_conn, hh, if_neg hp]
        refine ⟨?_, ?_, ?_, ?_, ?_⟩ <;> trivial

/-! ## Reply bytes of a command -/

/-- The packet of a buffer that agrees with `r` below `r.reply_len` and holds
`data` from there on. -/
theorem packet_of_region (r r1 : ReplyBuf) (data : List Nat)
    (hlen : r1.reply_len = r.reply_len + data.length)
    (hlow : ∀ j, j < r.reply_len → r1.reply_buf j = r.reply_buf j)
    (hdat : ∀ i, i < data.length → r1.reply_buf (r.reply_len + i) = data.getD i 0) :
    r1.packet = r.packet ++ data := by
  simp only [ReplyBuf.packet, hlen, mem_slice_add, Nat.zero_add]
  congr 1
  · apply mem_slice_congr
    intro j _ h2
    exact hlow j (by omega)
  · have e : mem_slice r1.reply_buf r.reply_len data.length =
        mem_slice (mem_of data) 0 data.length := by
      simp only [mem_slice]
      apply List.map_congr_left
      intro i hi
      have := List.mem_range.mp hi
      rw [hdat i this, Nat.zero_add]
      rfl
    rw [e, mem_slice_mem_of]

theorem getD_mem_slice (src : Nat → Nat) (n i : Nat) (hi : i < n) :
    (mem_slice src 0 n).getD i 0 = src i := by
  simp [mem_slice, List.getD_eq_getElem?_getD, List.getElem?_map, List.getElem?_range hi]

theorem packet_status (c : XvcClient) (r : ReplyBuf) (hroom : r.reply_len + 1 ≤ max_packet_len) :
    (reply_status c r).packet = r.packet ++ [status_byte c] ∧
    (reply_status c r).reply_len = r.reply_len + 1 := by
  have hmax : max_packet_len = 10000 := rfl
  have hl := reply_status_len c r (by omega)
  refine ⟨packet_of_region r _ _ (by simpa using hl) ?_ ?_, hl⟩
  · intro j hj
    unfold reply_status
    rw [if_pos (by omega)]
    simp only [ReplyBuf.advance, ReplyBuf.put, store]
    rw [if_neg (by omega)]
  · intro i hi
    simp only [List.length_singleton] at hi
    have : i = 0 := by omega
    subst this
    unfold reply_status
    rw [if_pos (by omega)]
    simp [ReplyBuf.advance, ReplyBuf.put, store, status_byte]

theorem packet_uleb (r : ReplyBuf) (v : Nat)
    (hroom : r.reply_len + (uleb_bytes 5 (u32 v)).length ≤ max_packet_len) :
    (reply_uleb128 r v).packet = r.packet ++ uleb_bytes 5 (u32 v) ∧
    (reply_uleb128 r v).reply_len = r.reply_len + (uleb_bytes 5 (u32 v)).length := by
  rw [reply_uleb128_eq r v hroom, packet_append]
  exact ⟨rfl, rfl⟩

theorem packet_copy (r : ReplyBuf) (src : Nat → Nat) (n : Nat) (h32 : r.reply_len + n < 2 ^ 32) :
    ((r.copy src n).advance n).packet = r.packet ++ mem_slice src 0 n ∧
    ((r.copy src n).advance n).reply_len = r.reply_len + n := by
  have hl : ((r.copy src n).advance n).reply_len = r.reply_len + n := by
    simp only [ReplyBuf.advance, ReplyBuf.copy, u32_of_lt h32]
  refine ⟨packet_of_region r _ _ (by rw [hl, mem_slice_length]) ?_ ?_, hl⟩
  · intro j hj
    simp only [ReplyBuf.advance, ReplyBuf.copy, memcpy]
    rw [if_neg (by omega)]
  · intro i hi
    rw [mem_slice_length] at hi
    rw [getD_mem_slice _ _ _ hi]
    simp only [ReplyBuf.advance, ReplyBuf.copy, memcpy]
    rw [if_pos (by omega), Nat.add_sub_cancel_left]

theorem packet_fill (r r0 : ReplyBuf) (n : Nat) (h32 : r.reply_len + n < 2 ^ 32)
    (hl0 : r0.reply_len = r.reply_len)
    (hlow : ∀ j, j < r.reply_len → r0.reply_buf j = r.reply_buf j) :
    ((r0.fill 0 n).advance n).packet = r.packet ++ List.replicate n 0 ∧
    ((r0.fill 0 n).advance n).reply_len = r.reply_len + n := by
  have hl : ((r0.fill 0 n).advance n).reply_len = r.reply_len + n := by
    simp only [ReplyBuf.advance, ReplyBuf.fill, hl0, u32_of_lt h32]
  refine ⟨packet_of_region r _ _ (by rw [hl, List.length_replicate]) ?_ ?_, hl⟩
  · intro j hj
    simp only [ReplyBuf.advance, ReplyBuf.fill, memset, hl0]
    rw [if_neg (by omega)]
    exact hlow j hj
  · intro i hi
    rw [List.length_replicate] at hi
    simp only [ReplyBuf.advance, ReplyBuf.fill, memset, hl0]
    rw [if_pos (by omega)]
    simp [List.getD_eq_getElem?_getD, List.getElem?_replicate, hi]

theorem reply_uleb128_loop_len (fuel : Nat) (r : ReplyBuf) (value pos : Nat)
    (h32 : pos + fuel < 2 ^ 32) :
    (reply_uleb128_loop fuel r value pos).1.reply_len = r.reply_len ∧
    (reply_uleb128_loop fuel r value pos).1.reply_max = r.reply_max ∧
    (reply_uleb128_loop fuel r value pos).2 = pos + (uleb_bytes fuel value).length := by
  induction fuel generalizing r value pos with
  | zero => simp [reply_uleb128_loop, uleb_bytes]
  | succ n ih =>
    have h2 : u32 (pos + 1) = pos + 1 := u32_of_lt (by omega)
    simp only [reply_uleb128_loop, uleb_bytes, h2]
    by_cases hv : value >>> 7 ≠ 0
    · rw [if_pos hv, if_pos hv]
      have hr : ∀ r1 : ReplyBuf, r1.reply_len = r.reply_len → r1.reply_max = r.reply_max →
          (reply_uleb128_loop n r1 (value >>> 7) (pos + 1)).1.reply_len = r.reply_len ∧
          (reply_uleb128_loop n r1 (value >>> 7) (pos + 1)).1.reply_max = r.reply_max ∧
          (reply_uleb128_loop n r1 (value >>> 7) (pos + 1)).2 =
            pos + ((uleb_bytes n (value >>> 7)).length + 1) := by
        intro r1 e1 e2
        have := ih r1 (value >>> 7) (pos + 1) (by omega)
        rw [e1, e2] at this
        refine ⟨this.1, this.2.1, ?_⟩
        rw [this.2.2]
        omega
      simp only [List.length_cons]
      split
      · split
        · exact hr _ rfl rfl
        · exact hr _ rfl rfl
      · exact hr _ rfl rfl
    · rw [if_neg hv, if_neg hv]
      simp only [List.length_cons, List.length_nil]
      split
      · split <;> (refine ⟨?_, ?_, ?_⟩ <;> trivial)
      · refine ⟨?_, ?_, ?_⟩ <;> trivial

theorem reply_uleb128_len (r : ReplyBuf) (v : Nat) (h32 : r.reply_len + 5 < 2 ^ 32) :
    (reply_uleb128 r v).reply_len = r.reply_len + (uleb_bytes 5 (u32 v)).length := by
  have h := reply_uleb128_loop_len 5 r (u32 v) 0 (by decide)
  have hl := uleb_bytes_length_le 5 (u32 v)
  unfold reply_uleb128
  simp only [ReplyBuf.advance]
  rw [h.1, h.2.2, Nat.zero_add, u32_of_lt (by omega)]

/-- A varint followed by `n` bytes copied from `src`. -/
theorem reply_varint_text (r : ReplyBuf) (v n : Nat) (src : Nat → Nat)
    (h32 : r.reply_len + 5 + n < 2 ^ 32) :
    (((reply_uleb128 r v).copy src n).advance n).reply_len =
      r.reply_len + ((uleb_bytes 5 (u32 v)).length + n) ∧
    (r.reply_len + (uleb_bytes 5 (u32 v)).length ≤ max_packet_len →
      (((reply_uleb128 r v).copy src n).advance n).packet =
        r.packet ++ (uleb_bytes 5 (u32 v) ++ mem_slice src 0 n)) := by
  have hl := uleb_bytes_length_le 5 (u32 v)
  have h1 := reply_uleb128_len r v (by omega)
  have h2 := packet_copy (reply_uleb128 r v) src n (by rw [h1]; omega)
  refine ⟨by rw [h2.2, h1]; omega, fun hroom => ?_⟩
  rw [h2.1, (packet_uleb r v hroom).1, List.append_assoc]

theorem u32_le (x : Nat) : u32 x ≤ x := Nat.mod_le _ _

theorem u64_le (x : Nat) : u64 x ≤ x := Nat.mod_le _ _

theorem strlen_le (s : List Nat) : strlen s ≤ s.length := by
  unfold strlen
  induction s with
  | nil => simp
  | cons b t ih =>
    simp only [List.takeWhile_cons, List.length_cons]
    split
    · simp only [List.length_cons]
      omega
    · simp

theorem getinfo_text_length (buf_max : Nat) : (getinfo_text buf_max).length ≤ 26 := by
  have := utoa_length buf_max
  have h15 : (cstr "xvcServer_v1.1:").length = 15 := by decide
  rw [getinfo_text_eq]
  simp only [List.length_append, List.length_cons, List.length_nil, h15]
  omega

/-- Length and content of the reply of `edpc:` for a transaction whose data
fit a packet and come with a data pointer. -/
theorem exec_reply_edpc {β : Type} (h : XvcServerHandlers β) (w : World β) (a flags : Nat)
    (f : β → Nat → EdpcResult β) (hh : h.edpc = some f)
    (hres : (edpc_result f w.c w.client_data flags).num_words * 4 ≤ 10000 ∧
      ((exec_conn h w.c w.client_data (Cmd.edpc flags)).1.pending_error.headD 0 = 0 →
        (edpc_result f w.c w.client_data flags).num_words ≠ 0 →
        (edpc_result f w.c w.client_data flags).epkt_buf.isSome = true))
    (h32 : w.r.reply_len + 10006 < 2 ^ 32) :
    (cmd_reply h w.c w.client_data (Cmd.edpc flags)).length ≤ 10006 ∧
    (exec h w a (Cmd.edpc flags)).r.reply_len =
      w.r.reply_len + (cmd_reply h w.c w.client_data (Cmd.edpc flags)).length ∧
    (w.r.reply_len + (cmd_reply h w.c w.client_data (Cmd.edpc flags)).length ≤ max_packet_len →
      (exec h w a (Cmd.edpc flags)).r.packet =
        w.r.packet ++ cmd_reply h w.c w.client_data (Cmd.edpc flags)) := by
  have hmax : max_packet_len = 10000 := rfl
  have hc1 : (exec_conn h w.c w.client_data (Cmd.edpc flags)).1 =
      (match (edpc_result f w.c w.client_data flags).error with
        | some text => xvcserver_set_error w.c text
        | none => w.c) := by
    simp only [exec_conn, hh]
  have hr : (exec h w a (Cmd.edpc flags)).r =
      reply_status (exec_conn h w.c w.client_data (Cmd.edpc flags)).1
        ((if (exec_conn h w.c w.client_data (Cmd.edpc flags)).1.pending_error.headD 0 ≠ 0 then
            (match (edpc_result f w.c w.client_data flags).epkt_buf with
              | some src => (reply_uleb128 w.r
                  (u64 (edpc_result f w.c w.client_data flags).num_words)).copy src
                  (u64 (u64 (edpc_result f w.c w.client_data flags).num_words * 4))
              | none => reply_uleb128 w.r
                  (u64 (edpc_result f w.c w.client_data flags).num_words)).fill 0
              (u64 (u64 (edpc_result f w.c w.client_data flags).num_words * 4))
          else
            (match (edpc_result f w.c w.client_data flags).epkt_buf with
              | some src => (reply_uleb128 w.r
                  (u64 (edpc_result f w.c w.client_data flags).num_words)).copy src
                  (u64 (u64 (edpc_result f w.c w.client_data flags).num_words * 4))
              | none => reply_uleb128 w.r
                  (u64 (edpc_result f w.c w.client_data flags).num_words))).advance
          (u64 (u64 (edpc_result f w.c w.client_data flags).num_words * 4))) := by
    rw [hc1]
    simp only [exec, hh, edpc_result]
  have hc : cmd_reply h w.c w.client_data (Cmd.edpc flags) =
      uleb_bytes 5 (u32 (u64 (edpc_result f w.c w.client_data flags).num_words)) ++
        (if (exec_conn h w.c w.client_data (Cmd.edpc flags)).1.pending_error.headD 0 ≠ 0 then
            List.replicate (u64 (u64 (edpc_result f w.c w.client_data flags).num_words * 4)) 0
          else match (edpc_result f w.c w.client_data flags).epkt_buf with
            | some src =>
              mem_slice src 0 (u64 (u64 (edpc_result f w.c w.client_data flags).num_words * 4))
            | none => []) ++
        [status_byte (exec_conn h w.c w.client_data (Cmd.edpc flags)).1] := by
    simp only [cmd_reply, hh]
  rw [hr, hc]
  generalize (exec_conn h w.c w.client_data (Cmd.edpc flags)).1 = c1 at hres ⊢
  generalize edpc_result f w.c w.client_data flags = res at hres ⊢
  have hnw : u64 res.num_words = res.num_words := u64_of_lt (by omega)
  have hnb : u64 (res.num_words * 4) = res.num_words * 4 := u64_of_lt (by omega)
  rw [hnw, hnb]
  generalize hnbe : res.num_words * 4 = nb at hres ⊢
  have hu := uleb_bytes_length_le 5 (u32 res.num_words)
  have h1 := reply_uleb128_len w.r res.num_words (by omega)
  have hp1 : w.r.reply_len + (uleb_bytes 5 (u32 res.num_words)).length ≤ max_packet_len →
      (reply_uleb128 w.r res.num_words).packet =
        w.r.packet ++ uleb_bytes 5 (u32 res.num_words) :=
    fun hroom => (packet_uleb w.r res.num_words hroom).1
  generalize hr1 : reply_uleb128 w.r res.num_words = r1 at h1 hp1 ⊢
  have h4 : ∀ (r4 : ReplyBuf) (mid : List Nat),
      r4.reply_len = r1.reply_len + nb → r4.packet = r1.packet ++ mid → mid.length = nb →
      (uleb_bytes 5 (u32 res.num_words) ++ mid ++ [status_byte c1]).length ≤ 10006 ∧
      (reply_status c1 r4).reply_len = w.r.reply_len +
        (uleb_bytes 5 (u32 res.num_words) ++ mid ++ [status_byte c1]).length ∧
      (w.r.reply_len + (uleb_bytes 5 (u32 res.num_words) ++ mid ++
          [status_byte c1]).length ≤ max_packet_len →
        (reply_status c1 r4).packet =
          w.r.packet ++ (uleb_bytes 5 (u32 res.num_words) ++ mid ++ [status_byte c1])) := by
    intro r4 mid e1 e2 e3
    simp only [List.length_append, List.length_singleton, e3]
    refine ⟨by omega, ?_, fun hroom => ?_⟩
    · rw [reply_status_len _ _ (by omega), e1, h1]
      omega
    · rw [(packet_status c1 r4 (by omega)).1, e2, hp1 (by omega)]
      simp only [List.append_assoc]
  by_cases hE : c1.pending_error.headD 0 ≠ 0
  · simp only [if_pos hE]
    have hf : ∀ r0 : ReplyBuf, r0.reply_len = r1.reply_len →
        (∀ j, j < r1.reply_len → r0.reply_buf j = r1.reply_buf j) →
        ((r0.fill 0 nb).advance nb).reply_len = r1.reply_len + nb ∧
        ((r0.fill 0 nb).advance nb).packet = r1.packet ++ List.replicate nb 0 := by
      intro r0 e1 e2
      have := packet_fill r1 r0 nb (by omega) e1 e2
      exact ⟨this.2, this.1⟩
    cases hep : res.epkt_buf with
    | none =>
      have := hf r1 rfl (fun _ _ => rfl)
      exact h4 _ _ this.1 this.2 (by simp)
    | some src =>
      have := hf (r1.copy src nb) rfl (by
        intro j hj
        simp only [ReplyBuf.copy, memcpy]
        rw [if_neg (by omega)])
      exact h4 _ _ this.1 this.2 (by simp)
  · simp only [if_neg hE]
    cases hep : res.epkt_buf with
    | none =>
      have hz : nb = 0 := by
        by_contra hne
        have := hres.2 (by simpa using hE) (by omega)
        rw [hep] at this
        simp at this
      subst hz
      have e : r1.advance 0 = r1 := by
        simp only [ReplyBuf.advance, Nat.add_zero]
        rw [u32_of_lt (by omega)]
      simp only [e]
      exact h4 r1 [] rfl (by simp) rfl
    | some src =>
      have := packet_copy r1 src nb (by omega)
      exact h4 _ _ this.2 this.1 (by simp [mem_slice_length])

/-- Length and content of the reply that a complete command adds. -/
theorem exec_reply {β : Type} (h : XvcServerHandlers β) (w : World β) (a : Nat) (cmd : Cmd)
    (hs : edpc_sound h) (hinv : w.c.pending_error.length ≤ 1023)
    (h32 : w.r.reply_len + 10006 < 2 ^ 32) :
    (cmd_reply h w.c w.client_data cmd).length ≤ 10006 ∧
    (exec h w a cmd).r.reply_len = w.r.reply_len + (cmd_reply h w.c w.client_data cmd).length ∧
    (w.r.reply_len + (cmd_reply h w.c w.client_data cmd).length ≤ max_packet_len →
      (exec h w a cmd).r.packet = w.r.packet ++ cmd_reply h w.c w.client_data cmd) := by
  have hmax : max_packet_len = 10000 := rfl
  cases cmd with
  | getinfo =>
    have hl := getinfo_text_length w.c.buf_max
    have hstr := strlen_eq_length _ (getinfo_text_ne_zero w.c.buf_max)
    have hp := packet_copy_advance w.r (getinfo_text w.c.buf_max ++ [0])
      ((getinfo_text w.c.buf_max).length + 1) (getinfo_text w.c.buf_max).length (by omega)
      (by simp) (by omega)
    rw [List.take_left] at hp
    have hr : (exec h w a Cmd.getinfo).r = (w.r.copy (mem_of (getinfo_text w.c.buf_max ++ [0]))
        ((getinfo_text w.c.buf_max).length + 1)).advance (getinfo_text w.c.buf_max).length := by
      have hr0 : (exec h w a Cmd.getinfo).r =
          (w.r.copy (mem_of (getinfo_text w.c.buf_max ++ [0]))
            ((getinfo_text w.c.buf_max).length + 1)).advance
            (strlen (getinfo_text w.c.buf_max)) := rfl
      rw [hr0, hstr]
    refine ⟨by simp only [cmd_reply]; omega, ?_, fun _ => ?_⟩
    · rw [hr]
      simp only [cmd_reply, ReplyBuf.advance, ReplyBuf.copy]
      exact u32_of_lt (by omega)
    · rw [hr, hp]
      rfl
  | capabilities =>
    generalize hcaps : cstr "status," ++
      (if h.idpc.isSome = true ∧ h.edpc.isSome = true then cstr "dpc" else []) = caps
    have hcl : caps.length ≤ 10 := by
      rw [← hcaps]
      split <;> decide
    have hb : u32 (strlen caps) ≤ 10 := le_trans (u32_le _) (le_trans (strlen_le _) hcl)
    have hu := uleb_bytes_length_le 5 (u32 (u32 (strlen caps)))
    have hr : (exec h w a Cmd.capabilities).r = ((reply_uleb128 w.r (u32 (strlen caps))).copy
        (mem_of caps) (u32 (strlen caps))).advance (u32 (strlen caps)) := by
      rw [← hcaps]
      rfl
    have hc : cmd_reply h w.c w.client_data Cmd.capabilities =
        uleb_bytes 5 (u32 (u32 (strlen caps))) ++ mem_slice (mem_of caps) 0 (u32 (strlen caps)) := by
      rw [← hcaps]
      rfl
    have ht := reply_varint_text w.r (u32 (strlen caps)) (u32 (strlen caps)) (mem_of caps)
      (by omega)
    rw [hr, hc]
    simp only [List.length_append, mem_slice_length]
    exact ⟨by omega, ht.1, fun hroom => ht.2 (by omega)⟩
  | configure body =>
    have hr : (exec h w a (Cmd.configure body)).r =
        reply_status (configure_fields h body.length body w.c) w.r := rfl
    have hc : cmd_reply h w.c w.client_data (Cmd.configure body) =
        [status_byte (configure_fields h body.length body w.c)] := rfl
    rw [hr, hc]
    simp only [List.length_singleton]
    exact ⟨by omega, reply_status_len _ _ (by omega), fun hroom => (packet_status _ _ hroom).1⟩
  | error =>
    generalize hn : (if u32 (strlen w.c.pending_error) >
          u32 (w.c.buf_max + 2 ^ 32 - u32 (u32 (strlen w.c.pending_error) + 127) / 128)
        then u32 (w.c.buf_max + 2 ^ 32 - u32 (u32 (strlen w.c.pending_error) + 127) / 128)
        else u32 (strlen w.c.pending_error)) = n
    have hn2 : n ≤ 1023 := by
      have h1 := u32_le (strlen w.c.pending_error)
      have h2 := strlen_le w.c.pending_error
      rw [← hn]
      split <;> omega
    have hu := uleb_bytes_length_le 5 (u32 n)
    have hr : (exec h w a Cmd.error).r = ((reply_uleb128 w.r n).copy
        (mem_of w.c.pending_error) n).advance n := by
      rw [← hn]
      rfl
    have hc : cmd_reply h w.c w.client_data Cmd.error =
        uleb_bytes 5 (u32 n) ++ mem_slice (mem_of w.c.pending_error) 0 n := by
      rw [← hn]
      rfl
    have ht := reply_varint_text w.r n n (mem_of w.c.pending_error) (by omega)
    rw [hr, hc]
    simp only [List.length_append, mem_slice_length]
    exact ⟨by omega, ht.1, fun hroom => ht.2 (by omega)⟩
  | edpc flags =>
    cases hh : h.edpc with
    | none =>
      have hr : (exec h w a (Cmd.edpc flags)).r = w.r := by
        simp only [exec, hh]
      have hc : cmd_reply h w.c w.client_data (Cmd.edpc flags) = [] := by
        simp only [cmd_reply, hh]
      rw [hr, hc]
      simp
    | some f =>
      exact exec_reply_edpc h w a flags f hh
        ⟨by
          unfold edpc_result
          split
          · exact (hs f hh _ _).1
          · simp,
         fun _ => by
          unfold edpc_result
          split
          · exact (hs f hh _ _).2
          · simp⟩ h32
  | idpc flags n data =>
    cases hh : h.idpc with
    | none =>
      have hr : (exec h w a (Cmd.idpc flags n data)).r = w.r := by
        simp only [exec, hh]
      have hc : cmd_reply h w.c w.client_data (Cmd.idpc flags n data) = [] := by
        simp only [cmd_reply, hh]
      rw [hr, hc]
      simp
    | some f =>
      have hr : (exec h w a (Cmd.idpc flags n data)).r =
          reply_status (exec_conn h w.c w.client_data (Cmd.idpc flags n data)).1 w.r := by
        rw [← (exec_c h w a (Cmd.idpc flags n data)).1]
        simp only [exec, hh]
      have hc : cmd_reply h w.c w.client_data (Cmd.idpc flags n data) =
          [status_byte (exec_conn h w.c w.client_data (Cmd.idpc flags n data)).1] := by
        simp only [cmd_reply, hh]
      rw [hr, hc]
      simp only [List.length_singleton]
      exact ⟨by omega, reply_status_len _ _ (by omega), fun hroom => (packet_status _ _ hroom).1⟩

theorem configure_fields_buf {β : Type} (h : XvcServerHandlers β) (fuel : Nat) (s d : List Nat)
    (c : XvcClient) :
    configure_fields h fuel s { c with buf := d } =
      { configure_fields h fuel s c with buf := d } := by
  induction fuel generalizing s c with
  | zero => rfl
  | succ n ih =>
    unfold configure_fields
    simp only []
    split_ifs
    · rfl
    · exact ih _ { c with enable_locking := (config_enable (get_field s (Char.toNat ',')).1).2 }
    · rfl
    · exact ih _ { c with enable_status := (config_enable (get_field s (Char.toNat ',')).1).2 }
    · rfl
    · rfl

theorem configure_fields_inv {β : Type} (h : XvcServerHandlers β) (fuel : Nat) (s : List Nat)
    (c : XvcClient) (hc : c.pending_error.length ≤ 1023) :
    (configure_fields h fuel s c).pending_error.length ≤ 1023 ∧
    (configure_fields h fuel s c).buf_max = c.buf_max := by
  have hse : ∀ t, (xvcserver_set_error c t).pending_error.length ≤ 1023 ∧
      (xvcserver_set_error c t).buf_max = c.buf_max := by
    intro t
    refine ⟨?_, rfl⟩
    simp only [xvcserver_set_error]
    have h1 : ((List.take 1023 t).takeWhile (fun b => decide (b ≠ 0))).length ≤
        (List.take 1023 t).length :=
      (List.takeWhile_sublist _).length_le
    rw [List.length_take] at h1
    omega
  induction fuel generalizing s c with
  | zero => exact ⟨hc, rfl⟩
  | succ n ih =>
    unfold configure_fields
    simp only []
    split_ifs
    · exact hse _
    · exact ih _ { c with enable_locking := (config_enable (get_field s (Char.toNat ',')).1).2 }
        hc (fun t => hse t)
    · exact hse _
    · exact ih _ { c with enable_status := (config_enable (get_field s (Char.toNat ',')).1).2 }
        hc (fun t => hse t)
    · exact hse _
    · exact ⟨hc, rfl⟩

theorem set_error_buf (c : XvcClient) (t d : List Nat) :
    xvcserver_set_error { c with buf := d } t = { xvcserver_set_error c t with buf := d } := rfl

theorem set_error_inv (c : XvcClient) (t : List Nat) :
    (xvcserver_set_error c t).pending_error.length ≤ 1023 ∧
    (xvcserver_set_error c t).buf_max = c.buf_max := by
  refine ⟨?_, rfl⟩
  simp only [xvcserver_set_error]
  have h1 : ((List.take 1023 t).takeWhile (fun b => decide (b ≠ 0))).length ≤
      (List.take 1023 t).length :=
    (List.takeWhile_sublist _).length_le
  rw [List.length_take] at h1
  omega

/-- The effect of a command on the connection does not depend on the input
buffer, which it leaves as it is. -/
theorem exec_conn_buf {β : Type} (h : XvcServerHandlers β) (c : XvcClient) (cd : β) (d : List Nat)
    (cmd : Cmd) :
    exec_conn h { c with buf := d } cd cmd =
      ({ (exec_conn h c cd cmd).1 with buf := d }, (exec_conn h c cd cmd).2) := by
  cases cmd with
  | getinfo => rfl
  | capabilities => rfl
  | configure body =>
    simp only [exec_conn, configure_fields_buf]
  | error => rfl
  | edpc flags =>
    cases hh : h.edpc with
    | none => simp only [exec_conn, hh]
    | some f =>
      simp only [exec_conn, hh, edpc_result]
      split_ifs
      · cases (f cd flags).error <;> rfl
      · rfl
  | idpc flags n data =>
    cases hh : h.idpc with
    | none => simp only [exec_conn, hh]
    | some f =>
      simp only [exec_conn, hh]
      split_ifs
      · cases (f cd flags n data).2 <;> rfl
      · rfl

theorem exec_conn_inv {β : Type} (h : XvcServerHandlers β) (c : XvcClient) (cd : β) (cmd : Cmd)
    (hc : c.pending_error.length ≤ 1023) :
    (exec_conn h c cd cmd).1.pending_error.length ≤ 1023 ∧
    (exec_conn h c cd cmd).1.buf_max = c.buf_max := by
  cases cmd with
  | getinfo => exact ⟨hc, rfl⟩
  | capabilities => exact ⟨hc, rfl⟩
  | configure body => exact configure_fields_inv h _ _ c hc
  | error => exact ⟨by simp [exec_conn], rfl⟩
  | edpc flags =>
    cases hh : h.edpc with
    | none =>
      simp only [exec_conn, hh]
      exact ⟨hc, trivial⟩
    | some f =>
      simp only [exec_conn, hh]
      cases (edpc_result f c cd flags).error with
      | none => exact ⟨hc, rfl⟩
      | some t => exact set_error_inv c t
  | idpc flags n data =>
    cases hh : h.idpc with
    | none =>
      simp only [exec_conn, hh]
      exact ⟨hc, trivial⟩
    | some f =>
      simp only [exec_conn, hh]
      split_ifs
      · cases (f cd flags n data).2 with
        | none => exact ⟨hc, rfl⟩
        | some t => exact set_error_inv c t
      · exact ⟨hc, rfl⟩

theorem parse_nil (a b : Bool) (ad : Nat) : parse a b ad [] = .more 0 := by
  rw [parse_eq]
  rfl

theorem packet_empty (r : ReplyBuf) : ({ r with reply_len := 0 } : ReplyBuf).packet = [] := rfl

theorem exec_conn_keeps_buf {β : Type} (h : XvcServerHandlers β) (c : XvcClient) (cd : β)
    (cmd : Cmd) : (exec_conn h c cd cmd).1.buf = c.buf := by
  have e := exec_conn_buf h c cd c.buf cmd
  have e1 : ({ c with buf := c.buf } : XvcClient) = c := rfl
  rw [e1] at e
  rw [e]

/-- The length of a framed command is at least the least length of its kind. -/
theorem parse_min_len (a b : Bool) (ad : Nat) (d : List Nat) (cmd : Cmd) (L : Nat)
    (hp : parse a b ad d = .ok cmd L) : cmd.min_len ≤ L := by
  rw [parse_eq] at hp
  split_ifs at hp with h30 hlen
  generalize scan d 0 = k at *
  unfold parse_cmd at hp
  simp only [] at hp
  split_ifs at hp with c1 c2 c3 c4 c5 c6 c7 c8 c9 c10
  · injection hp with e1 e2
    subst e1
    simp only [Cmd.min_len]
    omega
  · injection hp with e1 e2
    subst e1
    simp only [Cmd.min_len]
    omega
  · injection hp with e1 e2
    subst e1
    have hpos := get_uleb128_loop_pos (d.drop (k + 1)) 0 0
    simp only [Cmd.min_len, List.length_take, List.length_drop]
    omega
  · injection hp with e1 e2
    subst e1
    simp only [Cmd.min_len]
    omega
  · injection hp with e1 e2
    subst e1
    have hpos := get_uleb128_loop_pos (d.drop (k + 1)) 0 0
    simp only [Cmd.min_len]
    omega
  · injection hp with e1 e2
    subst e1
    have hpos := get_uleb128_loop_pos (d.drop (k + 1)) 0 0
    have hpos2 := get_uleb128_loop_pos
      (d.drop (k + 1 + (get_uleb128_loop (d.drop (k + 1)) 0 0 0).2)) 0 0
    simp only [Cmd.min_len]
    omega

theorem drop_eq_of_drop_eq {α : Type} (l1 l2 : List α) (a b : Nat) (h : l1.drop a = l2.drop a)
    (hab : a ≤ b) : l1.drop b = l2.drop b := by
  have e : b = a + (b - a) := by omega
  rw [e, ← List.drop_drop, ← List.drop_drop, h]

/-- The stores of a complete command stay inside its bytes. -/
theorem stores_facts {β : Type} (h : XvcServerHandlers β) (c : XvcClient) (cbuf L : Nat)
    (cmd : Cmd) (hm : cmd.min_len ≤ L) (hL : cbuf + L ≤ c.buf.length) :
    (stores h c cbuf L cmd).length = c.buf.length ∧
    (stores h c cbuf L cmd).drop (cbuf + L) = c.buf.drop (cbuf + L) ∧
    (stores h c cbuf L cmd).take cbuf = c.buf.take cbuf := by
  cases cmd with
  | configure body =>
    simp only [Cmd.min_len] at hm
    have hl1 : (c.buf.take (cbuf + L - body.length)).length = cbuf + L - body.length := by
      rw [List.length_take]
      omega
    have hl2 := configure_stores_length h body.length body c
    simp only [stores]
    refine ⟨?_, ?_, ?_⟩
    · simp only [List.length_append, hl1, hl2, List.length_drop]
      omega
    · rw [List.drop_left']
      simp only [List.length_append, hl1, hl2]
      omega
    · rw [List.append_assoc, List.take_append_of_le_length (by rw [hl1]; omega), List.take_take,
        Nat.min_eq_left (by omega)]
  | getinfo => exact ⟨rfl, rfl, rfl⟩
  | capabilities => exact ⟨rfl, rfl, rfl⟩
  | error => exact ⟨rfl, rfl, rfl⟩
  | edpc flags => exact ⟨rfl, rfl, rfl⟩
  | idpc flags n data => exact ⟨rfl, rfl, rfl⟩

/-- The world after a complete command of length `L` framed at `cbuf`: the
effect of `exec`, with an input buffer that differs from the one before only
inside the command. -/
theorem put_stores_world {β : Type} (h : XvcServerHandlers β) (w : World β) (a cbuf L : Nat)
    (cmd : Cmd) (hm : cmd.min_len ≤ L) (hL : cbuf + L ≤ w.c.buf.length) :
    (put_stores h w.c cbuf L (exec h w a cmd) cmd).c =
      { (exec_conn h w.c w.client_data cmd).1 with
        buf := (put_stores h w.c cbuf L (exec h w a cmd) cmd).c.buf } ∧
    (put_stores h w.c cbuf L (exec h w a cmd) cmd).client_data =
      (exec_conn h w.c w.client_data cmd).2 ∧
    (put_stores h w.c cbuf L (exec h w a cmd) cmd).rx = w.rx ∧
    (put_stores h w.c cbuf L (exec h w a cmd) cmd).tx = w.tx ∧
    (put_stores h w.c cbuf L (exec h w a cmd) cmd).send_ok = w.send_ok ∧
    (put_stores h w.c cbuf L (exec h w a cmd) cmd).r = (exec h w a cmd).r ∧
    (put_stores h w.c cbuf L (exec h w a cmd) cmd).calls = (exec h w a cmd).calls ∧
    (put_stores h w.c cbuf L (exec h w a cmd) cmd).c.buf.length = w.c.buf.length ∧
    (put_stores h w.c cbuf L (exec h w a cmd) cmd).c.buf.drop (cbuf + L) =
      w.c.buf.drop (cbuf + L) ∧
    (put_stores h w.c cbuf L (exec h w a cmd) cmd).c.buf.take cbuf = w.c.buf.take cbuf := by
  obtain ⟨hc1, hc2, hc3, hc4, hc5⟩ := exec_c h w a cmd
  have hbuf := exec_conn_keeps_buf h w.c w.client_data cmd
  rw [← hc1] at hbuf
  obtain ⟨s1, s2, s3⟩ := stores_facts h w.c cbuf L cmd hm hL
  have hps : put_stores h w.c cbuf L (exec h w a cmd) cmd =
      (exec h w a cmd).set_buf (stores h w.c cbuf L cmd) := by
    cases cmd with
    | configure body => rfl
    | getinfo => rfl
    | capabilities => rfl
    | error => rfl
    | edpc flags =>
      show exec h w a (Cmd.edpc flags) = (exec h w a (Cmd.edpc flags)).set_buf w.c.buf
      rw [← hbuf]
      rfl
    | idpc flags n data =>
      show exec h w a (Cmd.idpc flags n data) = (exec h w a (Cmd.idpc flags n data)).set_buf w.c.buf
      rw [← hbuf]
      rfl
  rw [hps]
  refine ⟨?_, hc2, hc3, hc4, hc5, rfl, rfl, s1, s2, s3⟩
  simp only [World.set_buf, hc1]

theorem byte_reads_length (a : List Nat) : (byte_reads a).length = a.length := by
  simp [byte_reads]

/-- A read cycle that finds an incomplete command at the head of the input
buffer sends nothing and goes on to `recv`, or fails the assertion. -/
theorem read_more_more {β : Type} (h : XvcServerHandlers β) (F : Nat) (w : World β) (k : Nat)
    (hp : parse h.edpc.isSome h.idpc.isSome w.c.buf_addr w.c.buf = .more k) :
    read_more h (F + 1) w =
      if k ≤ w.c.buf_max then cont h F { w with r := { w.r with reply_len := 0 } }
      else some (Exit.abort, { w with r := { w.r with reply_len := 0 } }) := by
  unfold read_more
  simp only []
  unfold cmd_loop
  rw [dispatch_eq_interp h _ 0 (Nat.zero_le _)]
  simp only [List.drop_zero, Nat.add_zero, hp, interp]
  split_ifs
  · simp only [lt_irrefl, if_false]
    rfl
  · rfl
theorem flush_failed_neutral {β : Type} (h : XvcServerHandlers β) (hf : flush_neutral h)
    (w : World β) : flush_failed h w = false := by
  unfold flush_failed
  cases hfl : h.flush with
  | none => rfl
  | some g =>
    have := (hf g hfl w.client_data).2
    simp only [decide_eq_false_iff_not, not_lt]
    exact this

theorem flush_world_neutral {β : Type} (h : XvcServerHandlers β) (hf : flush_neutral h)
    (w : World β) :
    (flush_world h w).c = w.c ∧ (flush_world h w).client_data = w.client_data ∧
    (flush_world h w).tx = w.tx ∧ (flush_world h w).rx = w.rx ∧
    (flush_world h w).send_ok = w.send_ok ∧ (flush_world h w).r = w.r ∧
    (∀ x, x ∈ w.calls → x ∈ (flush_world h w).calls) := by
  unfold flush_world
  cases hfl : h.flush with
  | none => exact ⟨rfl, rfl, rfl, rfl, rfl, rfl, fun _ hx => hx⟩
  | some g => exact ⟨rfl, (hf g hfl _).1, rfl, rfl, rfl, rfl, fun _ hx => List.mem_append_left _ hx⟩

/-- The first read cycle of a fresh connection finds an empty input buffer
and goes on to `recv`. -/
theorem first_cycle {β : Type} (h : XvcServerHandlers β) (a : Nat) (cd : β)
    (rx : List (Option (List Nat))) :
    read_packet h (accepted_at a cd rx) =
      cont h (rx_bytes rx)
        { accepted_at a cd rx with
          r := { reply_buf_size fresh_reply max_packet_len with reply_len := 0 } } := by
  unfold read_packet
  rw [read_more_more h _ _ 0 (parse_nil _ _ _)]
  rw [if_pos (Nat.zero_le _)]
  rfl

/-- The `recv` of a fresh connection that finds at most `buf_max` bytes takes
them all; with no byte it reports the end of the connection. -/
theorem recv_all {β : Type} (a : Nat) (cd : β) (r : ReplyBuf) (bs : List Nat)
    (hlen : bs.length ≤ max_packet_len) :
    recv_more ({ accepted_at a cd (one_read bs) with r := r } : World β) =
      if 0 < bs.length then
        .inl { accepted_at a cd [] with r := r, c := { accept_at a with buf := bs } }
      else .inr (Exit.closed, { accepted_at a cd [] with r := r }) := by
  have hroom : u32 (max_packet_len + 2 ^ 32 - 0) = 10000 := by decide
  have ht : List.take 10000 bs = bs := List.take_of_length_le hlen
  have hd : List.drop 10000 bs = [] := List.drop_eq_nil_iff.mpr hlen
  unfold recv_more
  simp only [accepted_at, one_read, accept_at, List.length_nil, hroom, ht, hd, if_true,
    gt_iff_lt, List.nil_append]

theorem cont_inr {β : Type} (h : XvcServerHandlers β) (F : Nat) (v : World β) (x : Exit × World β)
    (hr : recv_more v = .inr x) : cont h F v = some x := by
  unfold cont
  rw [hr]

theorem cont_inl {β : Type} (h : XvcServerHandlers β) (F : Nat) (v w4 : World β)
    (hr : recv_more v = .inl w4) : cont h F v = read_more h F w4 := by
  unfold cont
  rw [hr]

/-- Claim C11, failing input: a fresh connection receives the 12 bytes
`configure:` 0x90 0x4e, which declare a body of 10000 bytes.  The command is
incomplete and the end of its declared body lies 10012 bytes past the cursor,
so the assertion `pktend - cbuf < c->buf_max` of the `configure:` branch
fails: `read_packet` does not return, the process is aborted.  The same bytes
delivered one per read end in the same failed assertion. -/
theorem configure_assertion_fails :
    dispatch bare_handlers (fresh_world (cstr "configure:" ++ [0x90, 0x4e]) []) 0 =
      .abort (fresh_world (cstr "configure:" ++ [0x90, 0x4e]) []) ∧
    (read_packet bare_handlers
      (accepted () (one_read (cstr "configure:" ++ [0x90, 0x4e])))).map final_state =
      some (Exit.abort, 0, 0, [], cstr "configure:" ++ [0x90, 0x4e], []) ∧
    (read_packet bare_handlers
      (accepted () (byte_reads (cstr "configure:" ++ [0x90, 0x4e])))).map final_state =
      some (Exit.abort, 0, 0, [], cstr "configure:" ++ [0x90, 0x4e], []) := by
  refine ⟨?_, ?_, ?_⟩ <;> rfl

theorem dispatch_no_colon {β : Type} (h : XvcServerHandlers β) (w : World β) (cbuf : Nat)
    (hc : cbuf ≤ w.c.buf.length) (hn : 58 ∉ (w.c.buf.drop cbuf).take 30) :
    dispatch h w cbuf = if 30 ≤ w.c.buf.length - cbuf then .error w else .fill w := by
  unfold dispatch
  simp only []
  by_cases he : cbuf + 30 < w.c.buf.length
  · have hs : scan ((w.c.buf.take (cbuf + 30)).drop cbuf) cbuf = cbuf + 30 := by
      rw [scan_shift, List.drop_take, Nat.add_sub_cancel_left, scan_no_colon _ hn,
        List.length_take, List.length_drop]
      omega
    rw [if_pos he, hs, if_pos (le_refl _), if_pos (by omega), if_pos (by omega)]
  · have ht : (w.c.buf.drop cbuf).take 30 = w.c.buf.drop cbuf := by
      rw [List.take_of_length_le]
      rw [List.length_drop]
      omega
    rw [ht] at hn
    have hs : scan ((w.c.buf.take w.c.buf.length).drop cbuf) cbuf = w.c.buf.length := by
      rw [List.take_length, scan_shift, scan_no_colon _ hn, List.length_drop]
      omega
    rw [if_neg he, hs, if_pos (le_refl _)]

/-- Claim C13: the scan window of the framer.  At a cursor inside the input
buffer: (1) if the first colon among the bytes from the cursor on has fewer
than 30 bytes before it, the command handed to the command tests is the bytes
up to and including that colon, with the cursor just past it; (2) if there is
no colon among the first 30 available bytes and fewer than 30 bytes are
available, the round ends with `fill`, the command loop stops at the same
cursor and the state is unchanged; (3) if there is no colon among the first
30 available bytes and 30 or more bytes are available (exactly 30 included),
the round and the command loop end at the label `error`. -/
theorem scan_window {β : Type} (h : XvcServerHandlers β) (w : World β) (cbuf fuel : Nat)
    (hc : cbuf ≤ w.c.buf.length) :
    (∀ name rest, w.c.buf.drop cbuf = name ++ 58 :: rest → 58 ∉ name → name.length < 30 →
      dispatch h w cbuf = dispatch_cmd h w cbuf (cbuf + name.length + 1) ∧
      (w.c.buf.drop cbuf).take (u32 (cbuf + name.length + 1 - cbuf)) = name ++ [58]) ∧
    (58 ∉ (w.c.buf.drop cbuf).take 30 → w.c.buf.length - cbuf < 30 →
      dispatch h w cbuf = .fill w ∧ cmd_loop h (fuel + 1) cbuf w = .brk true cbuf w) ∧
    (58 ∉ (w.c.buf.drop cbuf).take 30 → 30 ≤ w.c.buf.length - cbuf →
      dispatch h w cbuf = .error w ∧ cmd_loop h (fuel + 1) cbuf w = .error w) := by
  refine ⟨?_, ?_, ?_⟩
  · intro name rest hd hn hl
    refine ⟨dispatch_framed h w cbuf name rest hd hn hl, ?_⟩
    have e : u32 (cbuf + name.length + 1 - cbuf) = name.length + 1 := by
      rw [show cbuf + name.length + 1 - cbuf = name.length + 1 by omega]
      exact u32_of_lt (by omega)
    rw [e, hd, List.take_append_eq_append_take]
    simp
  · intro hn hl
    have hd := dispatch_no_colon h w cbuf hc hn
    rw [if_neg (by omega)] at hd
    refine ⟨hd, ?_⟩
    unfold cmd_loop
    rw [hd]
  · intro hn hl
    have hd := dispatch_no_colon h w cbuf hc hn
    rw [if_pos hl] at hd
    refine ⟨hd, ?_⟩
    unfold cmd_loop
    rw [hd]

theorem scan_window_witness :
    (dispatch bare_handlers (fresh_world (cstr "getinfo:abc") []) 0 =
        dispatch_cmd bare_handlers (fresh_world (cstr "getinfo:abc") []) 0
          (0 + (cstr "getinfo").length + 1) ∧
      ((fresh_world (cstr "getinfo:abc") []).c.buf.drop 0).take
        (u32 (0 + (cstr "getinfo").length + 1 - 0)) = cstr "getinfo" ++ [58]) ∧
    (dispatch bare_handlers (fresh_world (cstr "getinfo:abc") []) 8 =
        .fill (fresh_world (cstr "getinfo:abc") []) ∧
      cmd_loop bare_handlers (0 + 1) 8 (fresh_world (cstr "getinfo:abc") []) =
        .brk true 8 (fresh_world (cstr "getinfo:abc") [])) ∧
    (dispatch bare_handlers (fresh_world (List.replicate 30 97) []) 0 =
        .error (fresh_world (List.replicate 30 97) []) ∧
      cmd_loop bare_handlers (0 + 1) 0 (fresh_world (List.replicate 30 97) []) =
        .error (fresh_world (List.replicate 30 97) [])) :=
  ⟨(scan_window bare_handlers (fresh_world (cstr "getinfo:abc") []) 0 0 (by decide)).1
     (cstr "getinfo") (cstr "abc") (by decide) (by decide) (by decide),
   (scan_window bare_handlers (fresh_world (cstr "getinfo:abc") []) 8 0 (by decide)).2.1
     (by decide) (by decide),
   (scan_window bare_handlers (fresh_world (List.replicate 30 97) []) 0 0 (by decide)).2.2
     (by decide) (by decide)⟩

/-- The branch `edpc:` with its flag varint buffered is the dispatcher step
`exec` for the command `edpc` with the decoded flags. -/
theorem cmd_edpc_eq_exec {β : Type} (h : XvcServerHandlers β) (w : World β) (cbuf a : Nat)
    (f : β → Nat → EdpcResult β) (hf : h.edpc = some f) (p : Nat)
    (hv : (get_uleb128 w.c.buf p w.c.buf.length).2 ≤ w.c.buf.length) :
    cmd_edpc f w cbuf p = .next (get_uleb128 w.c.buf p w.c.buf.length).2
      (exec h w a (.edpc (u32 (get_uleb128 w.c.buf p w.c.buf.length).1))) := by
  unfold cmd_edpc
  simp only []
  rw [if_neg (by omega)]
  simp only [exec, hf]

/-- Claim C14: the reply of `edpc:`.  With an output transaction `f` in the
backend, the flag varint fully buffered and room in the reply buffer, the
round of `edpc:` ends at the cursor past the varint, and:
(A) with no pending error, if `f` returns `n` words with data `src` and no
error, the reply is varint(n), the `4*n` bytes of `src` and the status byte 0,
and the backend was called once with the decoded flags;
(B) with no pending error, if `f` sets the pending error (to a text that is
not empty), the reply is varint(n), `4*n` zero bytes and the status byte 1;
(C) with a pending error, the backend is not called, nothing of the
connection changes and the reply is varint(0), no payload and the status
byte 1. -/
theorem edpc_reply {β : Type} (h : XvcServerHandlers β) (w : World β) (cbuf : Nat)
    (f : β → Nat → EdpcResult β) (hf : h.edpc = some f) (rest : List Nat)
    (hd : w.c.buf.drop cbuf = cstr "edpc:" ++ rest)
    (hv : (get_uleb128 w.c.buf (cbuf + 5) w.c.buf.length).2 ≤ w.c.buf.length) :
    (w.c.pending_error.headD 0 = 0 →
      ∀ src,
        (f w.client_data (u32 (get_uleb128 w.c.buf (cbuf + 5) w.c.buf.length).1)).epkt_buf =
          some src →
        (f w.client_data (u32 (get_uleb128 w.c.buf (cbuf + 5) w.c.buf.length).1)).error = none →
        w.r.reply_len + 5 +
          4 * (f w.client_data (u32 (get_uleb128 w.c.buf (cbuf + 5) w.c.buf.length).1)).num_words
          + 1 ≤ max_packet_len →
        ∃ w1, dispatch h w cbuf =
            .next (get_uleb128 w.c.buf (cbuf + 5) w.c.buf.length).2 w1 ∧
          w1.r.packet = w.r.packet ++
            (uleb_bytes 5
                (f w.client_data (u32 (get_uleb128 w.c.buf (cbuf + 5) w.c.buf.length).1)).num_words
              ++ mem_slice src 0 (4 *
                (f w.client_data (u32 (get_uleb128 w.c.buf (cbuf + 5) w.c.buf.length).1)).num_words)
              ++ [0]) ∧
          w1.calls = w.calls ++
            [Call.edpc (u32 (get_uleb128 w.c.buf (cbuf + 5) w.c.buf.length).1)] ∧
          w1.c = w.c) ∧
    (w.c.pending_error.headD 0 = 0 →
      ∀ text,
        (f w.client_data (u32 (get_uleb128 w.c.buf (cbuf + 5) w.c.buf.length).1)).error =
          some text →
        (text.take 1023).headD 0 ≠ 0 →
        w.r.reply_len + 5 +
          4 * (f w.client_data (u32 (get_uleb128 w.c.buf (cbuf + 5) w.c.buf.length).1)).num_words
          + 1 ≤ max_packet_len →
        ∃ w1, dispatch h w cbuf =
            .next (get_uleb128 w.c.buf (cbuf + 5) w.c.buf.length).2 w1 ∧
          w1.r.packet = w.r.packet ++
            (uleb_bytes 5
                (f w.client_data (u32 (get_uleb128 w.c.buf (cbuf + 5) w.c.buf.length).1)).num_words
              ++ List.replicate (4 *
                (f w.client_data (u32 (get_uleb128 w.c.buf (cbuf + 5) w.c.buf.length).1)).num_words)
                0
              ++ [1]) ∧
          w1.c = xvcserver_set_error w.c text) ∧
    (w.c.pending_error.headD 0 ≠ 0 → w.r.reply_len + 2 ≤ max_packet_len →
      ∃ w1, dispatch h w cbuf =
          .next (get_uleb128 w.c.buf (cbuf + 5) w.c.buf.length).2 w1 ∧
        w1.r.packet = w.r.packet ++ [0, 1] ∧ w1.calls = w.calls ∧ w1.c = w.c ∧
        w1.client_data = w.client_data) := by
  have hmax : max_packet_len = 10000 := rfl
  have hdisp := dispatch_edpc h w cbuf rest f hf hd
  rw [cmd_edpc_eq_exec h w cbuf 0 f hf _ hv] at hdisp
  generalize (get_uleb128 w.c.buf (cbuf + 5) w.c.buf.length).2 = p2 at hdisp ⊢
  generalize u32 (get_uleb128 w.c.buf (cbuf + 5) w.c.buf.length).1 = flags at hdisp ⊢
  obtain ⟨hc1, hc2, _, _, _⟩ := exec_c h w 0 (.edpc flags)
  refine ⟨?_, ?_, ?_⟩
  · intro hp src hsrc herr hroom
    have hres : edpc_result f w.c w.client_data flags = f w.client_data flags := by
      unfold edpc_result
      rw [if_pos hp]
    have hconn : (exec_conn h w.c w.client_data (.edpc flags)).1 = w.c := by
      simp only [exec_conn, hf, hres, herr]
    obtain ⟨_, _, q3⟩ := exec_reply_edpc h w 0 flags f hf
      ⟨by rw [hres]; omega, fun _ _ => by rw [hres, hsrc]; rfl⟩ (by omega)
    have hrep : cmd_reply h w.c w.client_data (.edpc flags) =
        uleb_bytes 5 (f w.client_data flags).num_words ++
          mem_slice src 0 (4 * (f w.client_data flags).num_words) ++ [0] := by
      have h64 : u64 (f w.client_data flags).num_words = (f w.client_data flags).num_words :=
        u64_of_lt (by omega)
      have hu : u32 (u64 (f w.client_data flags).num_words) = (f w.client_data flags).num_words := by
        rw [h64]
        exact u32_of_lt (by omega)
      have hb : u64 (u64 (f w.client_data flags).num_words * 4) =
          4 * (f w.client_data flags).num_words := by
        rw [h64, Nat.mul_comm]
        exact u64_of_lt (by omega)
      simp only [cmd_reply, hf, hconn, hres, hsrc, hu, hb, hp, status_byte, ne_eq, not_true_eq_false,
        if_false]
    have hlen := uleb_bytes_length_le 5 (f w.client_data flags).num_words
    refine ⟨_, hdisp, ?_, ?_, by rw [hc1, hconn]⟩
    · rw [← hrep]
      apply q3
      rw [hrep]
      simp only [List.length_append, mem_slice_length, List.length_singleton]
      omega
    · simp only [exec, hf, if_pos hp]
  · intro hp text herr hne hroom
    have hres : edpc_result f w.c w.client_data flags = f w.client_data flags := by
      unfold edpc_result
      rw [if_pos hp]
    have hconn : (exec_conn h w.c w.client_data (.edpc flags)).1 = xvcserver_set_error w.c text := by
      simp only [exec_conn, hf, hres, herr]
    have hpe : (xvcserver_set_error w.c text).pending_error.headD 0 ≠ 0 := by
      simp only [xvcserver_set_error]
      cases hx : text.take 1023 with
      | nil => rw [hx] at hne; simp at hne
      | cons b t =>
        rw [hx] at hne
        simp only [List.headD_cons] at hne
        simp [List.takeWhile_cons, hne]
    obtain ⟨_, _, q3⟩ := exec_reply_edpc h w 0 flags f hf
      ⟨by rw [hres]; omega, fun hz => by rw [hconn] at hz; exact absurd hz hpe⟩ (by omega)
    have hrep : cmd_reply h w.c w.client_data (.edpc flags) =
        uleb_bytes 5 (f w.client_data flags).num_words ++
          List.replicate (4 * (f w.client_data flags).num_words) 0 ++ [1] := by
      have h64 : u64 (f w.client_data flags).num_words = (f w.client_data flags).num_words :=
        u64_of_lt (by omega)
      have hu : u32 (u64 (f w.client_data flags).num_words) = (f w.client_data flags).num_words := by
        rw [h64]
        exact u32_of_lt (by omega)
      have hb : u64 (u64 (f w.client_data flags).num_words * 4) =
          4 * (f w.client_data flags).num_words := by
        rw [h64, Nat.mul_comm]
        exact u64_of_lt (by omega)
      simp only [cmd_reply, hf, hconn, hres, hu, hb, status_byte, if_pos hpe]
    have hlen := uleb_bytes_length_le 5 (f w.client_data flags).num_words
    refine ⟨_, hdisp, ?_, by rw [hc1, hconn]⟩
    rw [← hrep]
    apply q3
    rw [hrep]
    simp only [List.length_append, List.length_replicate, List.length_singleton]
    omega
  · intro hp hroom
    have hres : edpc_result f w.c w.client_data flags =
        { client_data := w.client_data, num_words := 0, epkt_buf := none, error := none } := by
      unfold edpc_result
      rw [if_neg hp]
    have hconn : exec_conn h w.c w.client_data (.edpc flags) = (w.c, w.client_data) := by
      simp only [exec_conn, hf, hres]
    obtain ⟨_, _, q3⟩ := exec_reply_edpc h w 0 flags f hf
      ⟨by rw [hres]; exact Nat.zero_le _, fun _ hz => by rw [hres] at hz; exact absurd rfl hz⟩
      (by omega)
    have hrep : cmd_reply h w.c w.client_data (.edpc flags) = [0, 1] := by
      simp only [cmd_reply, hf, hconn, hres, status_byte, if_pos hp]
      rfl
    refine ⟨_, hdisp, ?_, ?_, by rw [hc1, hconn], by rw [hc2, hconn]⟩
    · rw [← hrep]
      apply q3
      rw [hrep]
      simp only [List.length_cons, List.length_nil]
      omega
    · simp only [exec, hf, if_neg hp]

theorem edpc_reply_witness :
    (dispatch edpc_handlers (fresh_world (cstr "edpc:" ++ [0]) []) 0).world.r.packet =
      [2, 1, 2, 3, 4, 5, 6, 7, 8, 0] ∧
    (dispatch edpc_handlers (fresh_world (cstr "edpc:" ++ [1]) []) 0).world.r.packet =
      [2, 0, 0, 0, 0, 0, 0, 0, 0, 1] ∧
    (dispatch edpc_handlers (error_world (cstr "boom") (cstr "edpc:" ++ [0])) 0).world.r.packet =
      [0, 1] ∧
    (∃ w1, dispatch edpc_handlers (fresh_world (cstr "edpc:" ++ [0]) []) 0 =
        .next (get_uleb128 (fresh_world (cstr "edpc:" ++ [0]) []).c.buf (0 + 5)
          (fresh_world (cstr "edpc:" ++ [0]) []).c.buf.length).2 w1 ∧
      w1.r.packet = (fresh_world (cstr "edpc:" ++ [0]) []).r.packet ++
        (uleb_bytes 5 (sample_edpc (fresh_world (cstr "edpc:" ++ [0]) []).client_data
            (u32 (get_uleb128 (fresh_world (cstr "edpc:" ++ [0]) []).c.buf (0 + 5)
              (fresh_world (cstr "edpc:" ++ [0]) []).c.buf.length).1)).num_words ++
          mem_slice (mem_of [1, 2, 3, 4, 5, 6, 7, 8]) 0
            (4 * (sample_edpc (fresh_world (cstr "edpc:" ++ [0]) []).client_data
              (u32 (get_uleb128 (fresh_world (cstr "edpc:" ++ [0]) []).c.buf (0 + 5)
                (fresh_world (cstr "edpc:" ++ [0]) []).c.buf.length).1)).num_words) ++ [0]) ∧
      w1.calls = (fresh_world (cstr "edpc:" ++ [0]) []).calls ++
        [Call.edpc (u32 (get_uleb128 (fresh_world (cstr "edpc:" ++ [0]) []).c.buf (0 + 5)
          (fresh_world (cstr "edpc:" ++ [0]) []).c.buf.length).1)] ∧
      w1.c = (fresh_world (cstr "edpc:" ++ [0]) []).c) ∧
    (∃ w1, dispatch edpc_handlers (fresh_world (cstr "edpc:" ++ [1]) []) 0 =
        .next (get_uleb128 (fresh_world (cstr "edpc:" ++ [1]) []).c.buf (0 + 5)
          (fresh_world (cstr "edpc:" ++ [1]) []).c.buf.length).2 w1 ∧
      w1.r.packet = (fresh_world (cstr "edpc:" ++ [1]) []).r.packet ++
        (uleb_bytes 5 (sample_edpc (fresh_world (cstr "edpc:" ++ [1]) []).client_data
            (u32 (get_uleb128 (fresh_world (cstr "edpc:" ++ [1]) []).c.buf (0 + 5)
              (fresh_world (cstr "edpc:" ++ [1]) []).c.buf.length).1)).num_words ++
          List.replicate
            (4 * (sample_edpc (fresh_world (cstr "edpc:" ++ [1]) []).client_data
              (u32 (get_uleb128 (fresh_world (cstr "edpc:" ++ [1]) []).c.buf (0 + 5)
                (fresh_world (cstr "edpc:" ++ [1]) []).c.buf.length).1)).num_words) 0 ++ [1]) ∧
      w1.c = xvcserver_set_error (fresh_world (cstr "edpc:" ++ [1]) []).c (cstr "fail")) ∧
    (∃ w1, dispatch edpc_handlers (error_world (cstr "boom") (cstr "edpc:" ++ [0])) 0 =
        .next (get_uleb128 (error_world (cstr "boom") (cstr "edpc:" ++ [0])).c.buf (0 + 5)
          (error_world (cstr "boom") (cstr "edpc:" ++ [0])).c.buf.length).2 w1 ∧
      w1.r.packet = (error_world (cstr "boom") (cstr "edpc:" ++ [0])).r.packet ++ [0, 1] ∧
      w1.calls = (error_world (cstr "boom") (cstr "edpc:" ++ [0])).calls ∧
      w1.c = (error_world (cstr "boom") (cstr "edpc:" ++ [0])).c ∧
      w1.client_data = (error_world (cstr "boom") (cstr "edpc:" ++ [0])).client_data) :=
  ⟨rfl, rfl, rfl,
   (edpc_reply edpc_handlers (fresh_world (cstr "edpc:" ++ [0]) []) 0 sample_edpc rfl [0]
      (by decide) (by decide)).1 (by decide) (mem_of [1, 2, 3, 4, 5, 6, 7, 8]) rfl rfl (by decide),
   (edpc_reply edpc_handlers (fresh_world (cstr "edpc:" ++ [1]) []) 0 sample_edpc rfl [1]
      (by decide) (by decide)).2.1 (by decide) (cstr "fail") rfl (by decide) (by decide),
   (edpc_reply edpc_handlers (error_world (cstr "boom") (cstr "edpc:" ++ [0])) 0 sample_edpc rfl
      [0] (by decide) (by decide)).2.2 (by decide) (by decide)⟩

/-- Which framed command is `error:`. -/
theorem parse_error_iff (a b : Bool) (ad : Nat) (d : List Nat) (cmd : Cmd) (L : Nat)
    (hp : parse a b ad d = .ok cmd L) : cmd = .error ↔ d.take 6 = cstr "error:" := by
  rw [parse_eq] at hp
  split_ifs at hp with h30 hlen
  have hsc := scan_lt_colon d (by omega)
  have hsp := scan_split d (by omega)
  generalize scan d 0 = k at *
  have key : ∀ n (s : List Nat), n = s.length → d.take n = s → s.take 6 ≠ cstr "error:" →
      6 ≤ n → d.take 6 ≠ cstr "error:" := by
    intro n s hn hs hne h6 he
    apply hne
    rw [← hs, List.take_take, Nat.min_eq_left h6]
    exact he
  have key5 : ∀ (s : List Nat), d.take 5 = s → s ≠ cstr "error" → d.take 6 ≠ cstr "error:" := by
    intro s hs hne he
    apply hne
    rw [← hs]
    have : d.take 5 = (d.take 6).take 5 := by simp [List.take_take]
    rw [this, he]
    rfl
  unfold parse_cmd at hp
  simp only [] at hp
  split_ifs at hp with h1 h2 h3 h3a h4 h5 h5a h6 h6a h6b
  · injection hp with e1 e2
    subst e1
    rw [h1.1] at h1
    exact ⟨fun e => (by cases e), fun e => absurd e (key 8 (cstr "getinfo:") rfl h1.2 (by decide) (by decide))⟩
  · injection hp with e1 e2
    subst e1
    rw [h2.1] at h2
    exact ⟨fun e => (by cases e), fun e => absurd e (key 13 (cstr "capabilities:") rfl h2.2 (by decide) (by decide))⟩
  · injection hp with e1 e2
    subst e1
    rw [h3.1] at h3
    exact ⟨fun e => (by cases e), fun e => absurd e (key 10 (cstr "configure:") rfl h3.2 (by decide) (by decide))⟩
  · injection hp with e1 e2
    subst e1
    rw [h4.1] at h4
    exact ⟨fun _ => h4.2, fun _ => rfl⟩
  · injection hp with e1 e2
    subst e1
    rw [h5.1] at h5
    exact ⟨fun e => (by cases e), fun e => absurd e (key5 _ h5.2.1 (by decide))⟩
  · injection hp with e1 e2
    subst e1
    rw [h6.1] at h6
    exact ⟨fun e => (by cases e), fun e => absurd e (key5 _ h6.2.1 (by decide))⟩

theorem configure_fields_pending {β : Type} (h : XvcServerHandlers β) (fuel : Nat) (s : List Nat)
    (c : XvcClient) (hp : c.pending_error.headD 0 ≠ 0) : configure_fields h fuel s c = c := by
  cases fuel with
  | zero => rfl
  | succ n =>
    unfold configure_fields
    rw [if_neg (fun x => hp x.2)]

/-- With a pending error a command other than `error:` changes neither the
connection nor the backend state. -/
theorem exec_conn_pending {β : Type} (h : XvcServerHandlers β) (c : XvcClient) (cd : β)
    (cmd : Cmd) (hp : c.pending_error.headD 0 ≠ 0) (hne : cmd ≠ .error) :
    exec_conn h c cd cmd = (c, cd) := by
  cases cmd with
  | getinfo => rfl
  | capabilities => rfl
  | configure body => simp only [exec_conn, configure_fields_pending h _ _ c hp]
  | error => exact absurd rfl hne
  | edpc flags =>
    cases hh : h.edpc with
    | none => simp only [exec_conn, hh]
    | some f => simp only [exec_conn, hh, edpc_result, if_neg hp]
  | idpc flags n data =>
    cases hh : h.idpc with
    | none => simp only [exec_conn, hh]
    | some f => simp only [exec_conn, hh, if_neg hp]

/-- With a pending error no command calls the backend. -/
theorem exec_calls_pending {β : Type} (h : XvcServerHandlers β) (w : World β) (a : Nat)
    (cmd : Cmd) (hp : w.c.pending_error.headD 0 ≠ 0) : (exec h w a cmd).calls = w.calls := by
  cases cmd with
  | getinfo => rfl
  | capabilities => rfl
  | configure body => rfl
  | error => rfl
  | edpc flags =>
    cases hh : h.edpc with
    | none => simp only [exec, hh]
    | some f => simp only [exec, hh, if_neg hp]
  | idpc flags n data =>
    cases hh : h.idpc with
    | none => simp only [exec, hh]
    | some f => simp only [exec, hh, if_neg hp]

/-- The body of a framed `configure:` is the last bytes of the command. -/
theorem parse_configure (a b : Bool) (ad : Nat) (d body : List Nat) (L : Nat)
    (hp : parse a b ad d = .ok (.configure body) L) :
    body.length ≤ L ∧ L ≤ d.length ∧ body = (d.drop (L - body.length)).take body.length := by
  rw [parse_eq] at hp
  split_ifs at hp with h30 hlen
  generalize scan d 0 = k at *
  unfold parse_cmd at hp
  simp only [] at hp
  split_ifs at hp with c1 c2 c3 c4 c5 c6 c7 c8 c9 c10
  · injection hp with e1 e2
    cases e1
  · injection hp with e1 e2
    cases e1
  · injection hp with e1 e2
    injection e1 with e1
    have hbl : body.length = u32 (get_uleb128_loop (d.drop (k + 1)) 0 0 0).1 := by
      rw [← e1, List.length_take, List.length_drop]
      omega
    refine ⟨by omega, by omega, ?_⟩
    rw [hbl, ← e2, Nat.add_sub_cancel]
    exact e1.symm
  · injection hp with e1 e2
    cases e1
  · injection hp with e1 e2
    cases e1
  · injection hp with e1 e2
    cases e1

theorem configure_stores_pending {β : Type} (h : XvcServerHandlers β) (fuel : Nat) (s : List Nat)
    (c : XvcClient) (hp : c.pending_error.headD 0 ≠ 0) : configure_stores h fuel s c = s := by
  cases fuel with
  | zero => rfl
  | succ n =>
    unfold configure_stores
    rw [if_neg (fun x => hp x.2)]

/-- With a pending error a complete command leaves the input buffer as it
is. -/
theorem stores_pending {β : Type} (h : XvcServerHandlers β) (c : XvcClient) (cbuf L : Nat)
    (cmd : Cmd) (a b : Bool) (ad : Nat)
    (hpar : parse a b ad (c.buf.drop cbuf) = .ok cmd L)
    (hp : c.pending_error.headD 0 ≠ 0) : stores h c cbuf L cmd = c.buf := by
  cases cmd with
  | configure body =>
    obtain ⟨h1, h2, h3⟩ := parse_configure a b ad _ body L hpar
    rw [List.length_drop] at h2
    simp only [stores, configure_stores_pending h _ _ c hp]
    have key : ∀ (X n : Nat) (l bd : List Nat), bd = (l.drop X).take n →
        l.take X ++ bd ++ l.drop (X + n) = l := by
      intro X n l bd hb
      rw [hb, List.append_assoc, ← List.drop_drop, List.take_append_drop,
        List.take_append_drop]
    have e1 : cbuf + L - body.length = cbuf + (L - body.length) := by omega
    have e2 : cbuf + L = cbuf + (L - body.length) + body.length := by omega
    rw [List.drop_drop] at h3
    rw [e1, e2]
    exact key _ _ _ _ h3
  | getinfo => rfl
  | capabilities => rfl
  | error => rfl
  | edpc flags => rfl
  | idpc flags n data => rfl

/-- Claim C15: the pending error is sticky and suppresses side effects.  In a
connection with a pending error, a round of the command loop that dispatches
a complete command other than `error:` leaves the connection (pending error
text, locking flag, status flag) and the backend state as they are and makes
no backend call; a round that dispatches `error:` makes the pending error
empty, also without a backend call and with the flags unchanged. -/
theorem pending_error_sticky {β : Type} (h : XvcServerHandlers β) (w : World β) (cbuf : Nat)
    (hc : cbuf ≤ w.c.buf.length) (hp : w.c.pending_error.headD 0 ≠ 0)
    (p : Nat) (w1 : World β) (hd : dispatch h w cbuf = .next p w1) :
    ((w.c.buf.drop cbuf).take 6 ≠ cstr "error:" →
      w1.c = w.c ∧ w1.client_data = w.client_data ∧ w1.calls = w.calls) ∧
    ((w.c.buf.drop cbuf).take 6 = cstr "error:" →
      w1.c = { w.c with pending_error := [] } ∧ w1.client_data = w.client_data ∧
      w1.calls = w.calls) := by
  rw [dispatch_eq_interp h w cbuf hc] at hd
  cases hpar : parse h.edpc.isSome h.idpc.isSome (w.c.buf_addr + cbuf) (w.c.buf.drop cbuf) with
  | more k =>
    rw [hpar] at hd
    simp only [interp] at hd
    split_ifs at hd
  | bad =>
    rw [hpar] at hd
    simp [interp] at hd
  | wrap cmd plen =>
    rw [hpar] at hd
    simp [interp] at hd
  | ok cmd L =>
    rw [hpar] at hd
    simp only [interp, Step.next.injEq] at hd
    obtain ⟨_, hw1⟩ := hd
    have hiff := parse_error_iff _ _ _ _ cmd L hpar
    obtain ⟨hL, _, _⟩ := parse_local _ _ _ _ cmd L hpar
    have hmin := parse_min_len _ _ _ _ cmd L hpar
    rw [List.length_drop] at hL
    obtain ⟨p1, p2, p3, p4, p5, p6, p7, p8, p9, p10⟩ :=
      put_stores_world h w (idpc_avail w.c.buf.length cbuf L cmd) cbuf L cmd hmin (by omega)
    have hcalls := exec_calls_pending h w (idpc_avail w.c.buf.length cbuf L cmd) cmd hp
    rw [hw1] at p1 p2 p7
    rw [← p7] at hcalls
    refine ⟨fun hne => ?_, fun he => ?_⟩
    · have hcmd : cmd ≠ .error := fun e => hne (hiff.mp e)
      have hbuf : w1.c.buf = w.c.buf := by
        rw [← hw1]
        have hst := stores_pending h w.c cbuf L cmd _ _ _ hpar hp
        have hkb := exec_conn_keeps_buf h w.c w.client_data cmd
        obtain ⟨hc1, _, _, _, _⟩ := exec_c h w (idpc_avail w.c.buf.length cbuf L cmd) cmd
        rw [← hc1] at hkb
        cases cmd with
        | configure body =>
          show stores h w.c cbuf L (.configure body) = w.c.buf
          exact hst
        | getinfo => exact hkb
        | capabilities => exact hkb
        | error => exact hkb
        | edpc flags => exact hkb
        | idpc flags n data => exact hkb
      rw [exec_conn_pending h w.c w.client_data cmd hp hcmd] at p1 p2
      rw [hbuf] at p1
      exact ⟨p1, p2, hcalls⟩
    · have hcmd : cmd = .error := hiff.mpr he
      subst hcmd
      have hbuf : w1.c.buf = w.c.buf := by rw [← hw1]; rfl
      rw [hbuf] at p1
      exact ⟨p1, p2, hcalls⟩

theorem pending_error_sticky_witness :
    ((error_world (cstr "boom") (cstr "configure:" ++ [8] ++ cstr "locking+")).c.buf.drop 0).take 6
      ≠ cstr "error:" ∧
    ((dispatch full_handlers
        (error_world (cstr "boom") (cstr "configure:" ++ [8] ++ cstr "locking+")) 0).world.c =
        (error_world (cstr "boom") (cstr "configure:" ++ [8] ++ cstr "locking+")).c ∧
      (dispatch full_handlers
        (error_world (cstr "boom") (cstr "configure:" ++ [8] ++ cstr "locking+")) 0).world.client_data
        = (error_world (cstr "boom") (cstr "configure:" ++ [8] ++ cstr "locking+")).client_data ∧
      (dispatch full_handlers
        (error_world (cstr "boom") (cstr "configure:" ++ [8] ++ cstr "locking+")) 0).world.calls =
        (error_world (cstr "boom") (cstr "configure:" ++ [8] ++ cstr "locking+")).calls) ∧
    ((dispatch full_handlers (error_world (cstr "boom") (cstr "error:")) 0).world.c =
        { (error_world (cstr "boom") (cstr "error:")).c with pending_error := [] } ∧
      (dispatch full_handlers (error_world (cstr "boom") (cstr "error:")) 0).world.client_data =
        (error_world (cstr "boom") (cstr "error:")).client_data ∧
      (dispatch full_handlers (error_world (cstr "boom") (cstr "error:")) 0).world.calls =
        (error_world (cstr "boom") (cstr "error:")).calls) :=
  ⟨by decide,
   (pending_error_sticky full_handlers
      (error_world (cstr "boom") (cstr "configure:" ++ [8] ++ cstr "locking+")) 0 (by decide)
      (by decide) 19
      (dispatch full_handlers
        (error_world (cstr "boom") (cstr "configure:" ++ [8] ++ cstr "locking+")) 0).world
      (by rfl)).1 (by decide),
   (pending_error_sticky full_handlers (error_world (cstr "boom") (cstr "error:")) 0 (by decide)
      (by decide) 6
      (dispatch full_handlers (error_world (cstr "boom") (cstr "error:")) 0).world (by rfl)).2
      (by decide)⟩

/-! ## Decoding of variable-length integers -/

/-- One round of `get_uleb128`: the group `g` is added at bit `i`, reduced to
64 bits. -/
theorem or_group (acc g i : Nat) (hacc : acc < 2 ^ i) (hacc64 : acc < 2 ^ 64) (hg : g < 128) :
    acc ||| u64 (g <<< i) = (acc + 2 ^ i * g) % 2 ^ 64 ∧
    acc ||| u64 (g <<< i) < 2 ^ (i + 7) ∧ acc ||| u64 (g <<< i) < 2 ^ 64 := by
  rw [Nat.shiftLeft_eq]
  by_cases hi : 64 ≤ i
  · have hsplit : 2 ^ i = 2 ^ 64 * 2 ^ (i - 64) := by
      rw [← Nat.pow_add]
      congr 1
      omega
    have hx : u64 (g * 2 ^ i) = 0 := by
      unfold u64
      rw [hsplit, Nat.mul_comm g, Nat.mul_assoc, Nat.mul_mod_right]
    have hy : (acc + 2 ^ i * g) % 2 ^ 64 = acc := by
      rw [hsplit, Nat.mul_assoc, Nat.add_mul_mod_self_left]
      exact Nat.mod_eq_of_lt hacc64
    rw [hx, Nat.or_zero, hy]
    refine ⟨rfl, ?_, hacc64⟩
    exact lt_of_lt_of_le hacc (Nat.pow_le_pow_right (by decide) (by omega))
  · have hsplit : (2 : Nat) ^ 64 = 2 ^ i * 2 ^ (64 - i) := by
      rw [← Nat.pow_add]
      congr 1
      omega
    have hM : 0 < 2 ^ (64 - i) := Nat.pow_pos (by decide)
    have hylt : g % 2 ^ (64 - i) < 2 ^ (64 - i) := Nat.mod_lt _ hM
    have hyle : g % 2 ^ (64 - i) ≤ g := Nat.mod_le _ _
    have hx : u64 (g * 2 ^ i) = 2 ^ i * (g % 2 ^ (64 - i)) := by
      unfold u64
      rw [hsplit, Nat.mul_comm g, Nat.mul_mod_mul_left]
    have hor : acc ||| 2 ^ i * (g % 2 ^ (64 - i)) = 2 ^ i * (g % 2 ^ (64 - i)) + acc := by
      rw [Nat.or_comm, ← Nat.mul_add_lt_is_or hacc]
    have hlt64 : 2 ^ i * (g % 2 ^ (64 - i)) + acc < 2 ^ 64 := by
      have h1 : 2 ^ i * (g % 2 ^ (64 - i)) + 2 ^ i ≤ 2 ^ i * 2 ^ (64 - i) := by
        have := Nat.mul_le_mul_left (2 ^ i) (Nat.succ_le_of_lt hylt)
        rw [Nat.mul_succ] at this
        exact this
      rw [hsplit]
      omega
    have hlt7 : 2 ^ i * (g % 2 ^ (64 - i)) + acc < 2 ^ (i + 7) := by
      have h1 : 2 ^ i * (g % 2 ^ (64 - i)) ≤ 2 ^ i * 127 :=
        Nat.mul_le_mul_left _ (by omega)
      rw [pow_mul_128]
      omega
    have hmod : (acc + 2 ^ i * g) % 2 ^ 64 = 2 ^ i * (g % 2 ^ (64 - i)) + acc := by
      have hg2 : g = g % 2 ^ (64 - i) + 2 ^ (64 - i) * (g / 2 ^ (64 - i)) :=
        (Nat.mod_add_div g _).symm
      have e : acc + 2 ^ i * g =
          (2 ^ i * (g % 2 ^ (64 - i)) + acc) + 2 ^ 64 * (g / 2 ^ (64 - i)) := by
        conv_lhs => rw [hg2]
        rw [Nat.mul_add, ← Nat.mul_assoc, ← hsplit]
        omega
      rw [e, Nat.add_mul_mod_self_left]
      exact Nat.mod_eq_of_lt hlt64
    rw [hx, hor, hmod]
    exact ⟨rfl, hlt7, hlt64⟩

theorem group_value_append (pre : List Nat) (t : Nat) :
    group_value (pre ++ [t]) = group_value pre + 128 ^ pre.length * (t &&& 0x7f) := by
  induction pre with
  | nil => simp [group_value]
  | cons b p ih =>
    show (b &&& 0x7f) + 128 * group_value (p ++ [t]) = _
    rw [ih]
    simp only [group_value, List.length_cons, Nat.pow_succ]
    ring

theorem group_value_lt (l : List Nat) : group_value l < 128 ^ l.length := by
  induction l with
  | nil => simp [group_value]
  | cons b p ih =>
    have hb : b &&& 0x7f < 128 := by
      rw [and_127]
      exact Nat.mod_lt _ (by decide)
    simp only [group_value, List.length_cons, Nat.pow_succ]
    omega

/-- The cursor of the loop of `get_uleb128`: just past the first byte without
continuation bit, or one past the bytes when there is none. -/
theorem get_uleb128_loop_cursor (l : List Nat) :
    ∀ (acc i p : Nat),
      (∀ pre t rest, l = pre ++ t :: rest → (∀ b ∈ pre, b &&& 0x80 ≠ 0) → t &&& 0x80 = 0 →
        (get_uleb128_loop l acc i p).2 = p + pre.length + 1) ∧
      ((∀ b ∈ l, b &&& 0x80 ≠ 0) → (get_uleb128_loop l acc i p).2 = p + l.length + 1) := by
  induction l with
  | nil =>
    intro acc i p
    refine ⟨fun pre t rest e => ?_, fun _ => ?_⟩
    · cases pre <;> simp at e
    · simp [get_uleb128_loop]
  | cons b l ih =>
    intro acc i p
    obtain ⟨ih1, ih2⟩ := ih (acc ||| u64 ((b &&& 0x7f) <<< (i % 64))) (i + 7) (p + 1)
    refine ⟨fun pre t rest e hpre ht => ?_, fun hall => ?_⟩
    · cases pre with
      | nil =>
        simp only [List.nil_append, List.cons.injEq] at e
        obtain ⟨e1, _⟩ := e
        subst e1
        simp only [get_uleb128_loop, ht, ne_eq, not_true_eq_false, if_false, List.length_nil,
          Nat.add_zero]
      | cons b1 pre1 =>
        simp only [List.cons_append, List.cons.injEq] at e
        obtain ⟨e1, e2⟩ := e
        subst e1
        have hb80 : b &&& 0x80 ≠ 0 := hpre b (by simp)
        simp only [get_uleb128_loop, if_pos hb80]
        rw [ih1 pre1 t rest e2 (fun x hx => hpre x (by simp [hx])) ht]
        simp only [List.length_cons]
        omega
    · have hb80 : b &&& 0x80 ≠ 0 := hall b (by simp)
      simp only [get_uleb128_loop, if_pos hb80]
      rw [ih2 (fun x hx => hall x (by simp [hx]))]
      simp only [List.length_cons]
      omega

/-- The value of the loop of `get_uleb128` started with `acc` below bit `i`,
as long as every group is shifted by less than 64: when a byte without
continuation bit ends the encoding, and when the bytes run out before one. -/
theorem get_uleb128_loop_value (l : List Nat) :
    ∀ (acc i p : Nat), acc < 2 ^ i → acc < 2 ^ 64 →
      (∀ pre t rest, l = pre ++ t :: rest → (∀ b ∈ pre, b &&& 0x80 ≠ 0) → t &&& 0x80 = 0 →
        i + 7 * pre.length < 64 →
        (get_uleb128_loop l acc i p).1 = (acc + 2 ^ i * group_value (pre ++ [t])) % 2 ^ 64) ∧
      ((∀ b ∈ l, b &&& 0x80 ≠ 0) → i + 7 * l.length < 71 →
        (get_uleb128_loop l acc i p).1 = (acc + 2 ^ i * group_value l) % 2 ^ 64) := by
  induction l with
  | nil =>
    intro acc i p hacc h64
    refine ⟨fun pre t rest e => ?_, fun _ _ => ?_⟩
    · cases pre <;> simp at e
    · simp only [get_uleb128_loop, group_value, Nat.zero_and, Nat.zero_shiftLeft, Nat.mul_zero,
        Nat.add_zero]
      rw [Nat.mod_eq_of_lt h64]
      simp [u64]
  | cons b l ih =>
    intro acc i p hacc h64
    have hb : b &&& 0x7f < 128 := by
      rw [and_127]
      exact Nat.mod_lt _ (by decide)
    obtain ⟨s1, s2, s3⟩ := or_group acc (b &&& 0x7f) i hacc h64 hb
    obtain ⟨ih1, ih2⟩ := ih (acc ||| u64 ((b &&& 0x7f) <<< i)) (i + 7) (p + 1) s2 s3
    have hcomb : ∀ V, ((acc ||| u64 ((b &&& 0x7f) <<< i)) + 2 ^ (i + 7) * V) % 2 ^ 64 =
        (acc + 2 ^ i * ((b &&& 0x7f) + 128 * V)) % 2 ^ 64 := by
      intro V
      rw [s1, Nat.mod_add_mod, pow_mul_128]
      congr 1
      ring
    refine ⟨fun pre t rest e hpre ht hsh => ?_, fun hall hsh => ?_⟩
    · have hi : i % 64 = i := Nat.mod_eq_of_lt (by omega)
      cases pre with
      | nil =>
        simp only [List.nil_append, List.cons.injEq] at e
        obtain ⟨e1, _⟩ := e
        subst e1
        simp only [get_uleb128_loop, ht, ne_eq, not_true_eq_false, if_false, List.nil_append,
          group_value, Nat.mul_zero, Nat.add_zero, hi]
        rw [s1]
      | cons b1 pre1 =>
        simp only [List.cons_append, List.cons.injEq] at e
        obtain ⟨e1, e2⟩ := e
        subst e1
        have hb80 : b &&& 0x80 ≠ 0 := hpre b (by simp)
        simp only [get_uleb128_loop, if_pos hb80, hi]
        simp only [List.length_cons] at hsh
        rw [ih1 pre1 t rest e2 (fun x hx => hpre x (by simp [hx])) ht (by omega), hcomb]
        rfl
    · have hi : i % 64 = i := by
        simp only [List.length_cons] at hsh
        exact Nat.mod_eq_of_lt (by omega)
      have hb80 : b &&& 0x80 ≠ 0 := hall b (by simp)
      simp only [get_uleb128_loop, if_pos hb80, hi]
      simp only [List.length_cons] at hsh
      rw [ih2 (fun x hx => hall x (by simp [hx])) (by omega), hcomb]
      simp only [group_value]

theorem split_first_plain (l : List Nat) :
    (∀ b ∈ l, b &&& 0x80 ≠ 0) ∨
    ∃ pre t rest, l = pre ++ t :: rest ∧ (∀ b ∈ pre, b &&& 0x80 ≠ 0) ∧ t &&& 0x80 = 0 := by
  induction l with
  | nil => left; simp
  | cons b l ih =>
    by_cases hb : b &&& 0x80 = 0
    · right
      exact ⟨[], b, l, rfl, by simp, hb⟩
    · rcases ih with h1 | ⟨pre, t, rest, e, h1, h2⟩
      · left
        intro x hx
        rcases List.mem_cons.mp hx with e | e
        · rw [e]; exact hb
        · exact h1 x e
      · right
        refine ⟨b :: pre, t, rest, by rw [e]; rfl, ?_, h2⟩
        intro x hx
        rcases List.mem_cons.mp hx with e | e
        · rw [e]; exact hb
        · exact h1 x e

/-- Claim C16, counterexample: the ten bytes 0x80 (nine times) 0x02 end with a
byte without continuation bit inside the buffer, and the little-endian value
of their 7-bit groups is `2 * 2^63 = 2^64`; `get_uleb128` returns the value 0,
because the last group is shifted out of `size_t`. -/
theorem uleb128_overlong_wraps :
    get_uleb128 (List.replicate 9 0x80 ++ [0x02]) 0 10 = (0, 10) ∧
    group_value (List.replicate 9 0x80 ++ [0x02]) = 2 ^ 64 := by
  constructor <;> decide

/-- Claim C16, amended: decoding never faults and shows truncation through
the cursor.  For a cursor `p <= bufend` inside the buffer, `get_uleb128`
makes between 1 and `bufend - p + 1` rounds (one per step of the cursor) and
its result depends on the bytes `[p, bufend)` only.  If a byte without
continuation bit occurs before `bufend`, the new cursor is just past the
first such byte (at most `bufend`), and the value is the little-endian value
of the 7-bit groups up to it reduced modulo `2^64` when it is among the first
ten bytes, which is that value itself when it is among the first nine.  If
there is none, the new cursor is `bufend + 1` and, for at most nine bytes,
the value is that of the groups read.  So the new cursor exceeds `bufend`
exactly when the encoding is truncated. -/
theorem uleb128_decode (buf : List Nat) (p bufend : Nat) (hp : p ≤ bufend)
    (he : bufend ≤ buf.length) :
    p < (get_uleb128 buf p bufend).2 ∧ (get_uleb128 buf p bufend).2 ≤ bufend + 1 ∧
    (∀ buf2 : List Nat, (buf2.take bufend).drop p = (buf.take bufend).drop p →
      get_uleb128 buf2 p bufend = get_uleb128 buf p bufend) ∧
    (∀ pre t rest, (buf.take bufend).drop p = pre ++ t :: rest →
      (∀ b ∈ pre, b &&& 0x80 ≠ 0) → t &&& 0x80 = 0 →
      (get_uleb128 buf p bufend).2 = p + pre.length + 1 ∧
      (get_uleb128 buf p bufend).2 ≤ bufend ∧
      (pre.length ≤ 9 → (get_uleb128 buf p bufend).1 = group_value (pre ++ [t]) % 2 ^ 64) ∧
      (pre.length ≤ 8 → (get_uleb128 buf p bufend).1 = group_value (pre ++ [t]))) ∧
    ((∀ b ∈ (buf.take bufend).drop p, b &&& 0x80 ≠ 0) →
      (get_uleb128 buf p bufend).2 = bufend + 1 ∧
      (bufend - p ≤ 9 →
        (get_uleb128 buf p bufend).1 = group_value ((buf.take bufend).drop p))) ∧
    (bufend < (get_uleb128 buf p bufend).2 ↔ ∀ b ∈ (buf.take bufend).drop p, b &&& 0x80 ≠ 0) := by
  have hlen : ((buf.take bufend).drop p).length = bufend - p := by
    rw [List.length_drop, List.length_take]
    omega
  obtain ⟨c1, c2⟩ := get_uleb128_loop_cursor ((buf.take bufend).drop p) 0 0 p
  obtain ⟨v1, v2⟩ := get_uleb128_loop_value ((buf.take bufend).drop p) 0 0 p (by decide)
    (by decide)
  have hterm : ∀ pre t rest, (buf.take bufend).drop p = pre ++ t :: rest →
      (∀ b ∈ pre, b &&& 0x80 ≠ 0) → t &&& 0x80 = 0 →
      (get_uleb128 buf p bufend).2 = p + pre.length + 1 ∧ p + pre.length + 1 ≤ bufend ∧
      (pre.length ≤ 9 → (get_uleb128 buf p bufend).1 = group_value (pre ++ [t]) % 2 ^ 64) := by
    intro pre t rest e h1 h2
    refine ⟨c1 pre t rest e h1 h2, ?_, fun h9 => ?_⟩
    · have hl := congrArg List.length e
      rw [hlen] at hl
      simp only [List.length_append, List.length_cons] at hl
      omega
    · have := v1 pre t rest e h1 h2 (by omega)
      simp only [Nat.pow_zero, Nat.one_mul, Nat.zero_add] at this
      exact this
  have htrunc : (∀ b ∈ (buf.take bufend).drop p, b &&& 0x80 ≠ 0) →
      (get_uleb128 buf p bufend).2 = bufend + 1 ∧
      (bufend - p ≤ 9 → (get_uleb128 buf p bufend).1 =
        group_value ((buf.take bufend).drop p) % 2 ^ 64) := by
    intro hall
    refine ⟨?_, fun h9 => ?_⟩
    · have := c2 hall
      rw [hlen, show p + (bufend - p) + 1 = bufend + 1 by omega] at this
      exact this
    · have := v2 hall (by rw [hlen]; omega)
      simp only [Nat.pow_zero, Nat.one_mul, Nat.zero_add] at this
      exact this
  have hsmall : ∀ l : List Nat, l.length ≤ 9 → group_value l % 2 ^ 64 = group_value l := by
    intro l hl
    apply Nat.mod_eq_of_lt
    have h1 := group_value_lt l
    have h2 : 128 ^ l.length ≤ 128 ^ 9 := Nat.pow_le_pow_right (by decide) hl
    have h3 : (128 : Nat) ^ 9 < 2 ^ 64 := by decide
    omega
  refine ⟨?_, ?_, ?_, ?_, ?_, ?_⟩
  · rcases split_first_plain ((buf.take bufend).drop p) with hall | ⟨pre, t, rest, e, h1, h2⟩
    · rw [(htrunc hall).1]
      omega
    · rw [(hterm pre t rest e h1 h2).1]
      omega
  · rcases split_first_plain ((buf.take bufend).drop p) with hall | ⟨pre, t, rest, e, h1, h2⟩
    · rw [(htrunc hall).1]
    · have := hterm pre t rest e h1 h2
      rw [this.1]
      omega
  · intro buf2 e
    unfold get_uleb128
    rw [e]
  · intro pre t rest e h1 h2
    have := hterm pre t rest e h1 h2
    refine ⟨this.1, by rw [this.1]; exact this.2.1, this.2.2, fun h8 => ?_⟩
    rw [this.2.2 (by omega)]
    exact hsmall _ (by simp only [List.length_append, List.length_singleton]; omega)
  · intro hall
    refine ⟨(htrunc hall).1, fun h9 => ?_⟩
    rw [(htrunc hall).2 h9]
    exact hsmall _ (by rw [hlen]; exact h9)
  · constructor
    · intro hgt
      rcases split_first_plain ((buf.take bufend).drop p) with hall | ⟨pre, t, rest, e, h1, h2⟩
      · exact hall
      · have := hterm pre t rest e h1 h2
        rw [this.1] at hgt
        have h2 := this.2.1
        omega
    · intro hall
      rw [(htrunc hall).1]
      omega

theorem uleb128_decode_witness :
    (get_uleb128 (cstr "edpc:" ++ [0x90, 0x4e, 0x81]) 5 8).2 = 5 + [0x90].length + 1 ∧
    (get_uleb128 (cstr "edpc:" ++ [0x90, 0x4e, 0x81]) 5 8).1 = group_value ([0x90] ++ [0x4e]) ∧
    group_value ([0x90] ++ [0x4e]) = 10000 ∧
    (get_uleb128 (cstr "edpc:" ++ [0x90, 0x4e, 0x81]) 7 8).2 = 8 + 1 ∧
    (8 < (get_uleb128 (cstr "edpc:" ++ [0x90, 0x4e, 0x81]) 7 8).2 ↔
      ∀ b ∈ ((cstr "edpc:" ++ [0x90, 0x4e, 0x81]).take 8).drop 7, b &&& 0x80 ≠ 0) :=
  ⟨((uleb128_decode (cstr "edpc:" ++ [0x90, 0x4e, 0x81]) 5 8 (by decide) (by decide)).2.2.2.1
      [0x90] 0x4e [0x81] (by decide) (by decide) (by decide)).1,
   ((uleb128_decode (cstr "edpc:" ++ [0x90, 0x4e, 0x81]) 5 8 (by decide) (by decide)).2.2.2.1
      [0x90] 0x4e [0x81] (by decide) (by decide) (by decide)).2.2.2 (by decide),
   by decide,
   ((uleb128_decode (cstr "edpc:" ++ [0x90, 0x4e, 0x81]) 7 8 (by decide) (by decide)).2.2.2.2.1
      (by decide)).1,
   (uleb128_decode (cstr "edpc:" ++ [0x90, 0x4e, 0x81]) 7 8 (by decide) (by decide)).2.2.2.2.2⟩

/-! ## Fields of configure -/

/-- One boolean field at the head of the body sets its flag; `locking` needs a
backend with lock and unlock. -/
theorem configure_fields_flag_ok {β : Type} (h : XvcServerHandlers β) (fuel : Nat)
    (f : Bool × Bool) (s tail : List Nat) (c : XvcClient)
    (hlock : f.1 = true → h.lock = true ∧ h.unlock = true)
    (hpe : c.pending_error.headD 0 = 0)
    (hg : get_field s 44 = (flag_field f, tail)) (hs : s.headD 0 ≠ 0) :
    configure_fields h (fuel + 1) s c = configure_fields h fuel tail (set_flag c f) := by
  have hce := config_enable_flag f
  have hne : cstr "status" ≠ cstr "locking" := by decide
  conv_lhs => unfold configure_fields
  simp only [Char.reduceToNat, hg, hce]
  rw [if_pos ⟨hs, hpe⟩]
  rcases f with ⟨a, b⟩
  cases a
  · cases b <;> simp [set_flag, hne]
  · have hl := hlock rfl
    cases b <;> simp [set_flag, hl.1, hl.2]

theorem field_error_head {β : Type} (h : XvcServerHandlers β) (config msg : List Nat)
    (he : field_error h config = some msg) : msg.headD 0 ≠ 0 := by
  unfold field_error at he
  simp only [] at he
  split_ifs at he <;> (injection he with he; rw [← he]; first | decide | simp [cstr])

/-- The field loop at a field that fails validation: the error is set and the
loop is left. -/
theorem configure_fields_bad {β : Type} (h : XvcServerHandlers β) (fuel : Nat)
    (bad tail msg : List Nat) (c : XvcClient) (hpe : c.pending_error.headD 0 = 0)
    (hbad : ∀ b ∈ bad, b ≠ 0 ∧ b ≠ 44) (htail : tail = [] ∨ ∃ more, tail = 44 :: more)
    (hne : bad ++ tail ≠ []) (herr : field_error h bad = some msg) :
    configure_fields h (fuel + 1) (bad ++ tail) c = xvcserver_set_error c msg := by
  have hg : (get_field (bad ++ tail) 44).1 = bad := by
    rw [get_field_append bad tail 44 hbad]
    rcases htail with e | ⟨more, e⟩
    · rw [e]
      simp [get_field]
    · rw [e]
      simp [get_field]
  have hhead : (bad ++ tail).headD 0 ≠ 0 := by
    cases bad with
    | nil =>
      rcases htail with e | ⟨more, e⟩
      · rw [e] at hne
        exact absurd rfl hne
      · rw [e]
        simp
    | cons b t => simpa using (hbad b (by simp)).1
  unfold field_error at herr
  simp only [] at herr
  conv_lhs => unfold configure_fields
  simp only [Char.reduceToNat, hg]
  rw [if_pos ⟨hhead, hpe⟩]
  split_ifs at herr with h1 h2 h3 h4
  · injection herr with herr
    rw [if_pos h1, if_pos h2, herr]
  · injection herr with herr
    rw [if_neg h1, if_pos h3, if_pos h4, herr]
  · injection herr with herr
    rw [if_neg h1, if_neg h3, herr]

theorem fields_before_head (fs : List (Bool × Bool)) (s : List Nat) (hs : s.headD 0 ≠ 0) :
    (fields_before fs s).headD 0 ≠ 0 := by
  cases fs with
  | nil => exact hs
  | cons f t => exact flag_field_head f _

theorem foldl_set_flag_pending (fs : List (Bool × Bool)) (c : XvcClient) :
    (fs.foldl set_flag c).pending_error = c.pending_error := by
  induction fs generalizing c with
  | nil => rfl
  | cons f t ih => rw [List.foldl_cons, ih, set_flag_pending]

theorem foldl_set_flag_buf (fs : List (Bool × Bool)) (c : XvcClient) :
    (fs.foldl set_flag c).buf = c.buf := by
  induction fs generalizing c with
  | nil => rfl
  | cons f t ih =>
    rw [List.foldl_cons, ih]
    unfold set_flag
    split <;> rfl

/-- The field loop over boolean fields followed by a field that fails
validation: the boolean fields are applied, the error of the failing field is
set, and what follows it is not looked at. -/
theorem configure_fields_stop {β : Type} (h : XvcServerHandlers β)
    (fs : List (Bool × Bool)) (fuel : Nat) (bad tail msg : List Nat) (c : XvcClient)
    (hpe : c.pending_error.headD 0 = 0)
    (hfs : ∀ f ∈ fs, f.1 = true → h.lock = true ∧ h.unlock = true)
    (hbad : ∀ b ∈ bad, b ≠ 0 ∧ b ≠ 44) (htail : tail = [] ∨ ∃ more, tail = 44 :: more)
    (hne : bad ++ tail ≠ []) (herr : field_error h bad = some msg)
    (hfuel : fs.length + 1 ≤ fuel) :
    configure_fields h fuel (fields_before fs (bad ++ tail)) c =
      xvcserver_set_error (fs.foldl set_flag c) msg := by
  induction fs generalizing fuel c with
  | nil =>
    obtain ⟨k, hk⟩ : ∃ k, fuel = k + 1 := ⟨fuel - 1, by simp at hfuel; omega⟩
    rw [hk]
    exact configure_fields_bad h k bad tail msg c hpe hbad htail hne herr
  | cons f t ih =>
    obtain ⟨k, hk⟩ : ∃ k, fuel = k + 1 := ⟨fuel - 1, by simp at hfuel; omega⟩
    rw [hk]
    have hstep := configure_fields_flag_ok h k f (fields_before (f :: t) (bad ++ tail))
      (fields_before t (bad ++ tail)) c (hfs f (by simp)) hpe
      (get_field_flag f _) (flag_field_head f _)
    rw [hstep, List.foldl_cons]
    exact ih k (set_flag c f) (by rw [set_flag_pending]; exact hpe)
      (fun x hx => hfs x (by simp [hx])) (by simp at hfuel; omega)

theorem fields_before_length (fs : List (Bool × Bool)) (s : List Nat) :
    fs.length + s.length ≤ (fields_before fs s).length := by
  induction fs with
  | nil => simp [fields_before]
  | cons f t ih =>
    simp only [fields_before, List.foldr_cons, List.length_append, List.length_cons] at ih ⊢
    omega

/-- Claim C17: a validation error stops the current `configure:` command but
not the connection.  With no pending error, for a body that consists of
boolean fields `fs` (each followed by a comma), then a field `bad` for which
the field loop sets the error `msg`, then possibly a comma and more fields:
the flags afterwards are those obtained by applying `fs` only, the pending
error is `msg` (as stored by `xvcserver_set_error`), nothing else in the
connection changes apart from the terminators stored into the bytes of the
body, the cursor is past the whole declared body, the reply is the status
byte 1 alone, and the command loop goes on with the bytes that follow the
body. -/
theorem validation_error_stops {β : Type} (h : XvcServerHandlers β) (w : World β)
    (cbuf fuel : Nat) (fs : List (Bool × Bool)) (bad tail msg rest : List Nat)
    (hpe : w.c.pending_error.headD 0 = 0)
    (hfs : ∀ f ∈ fs, f.1 = true → h.lock = true ∧ h.unlock = true)
    (hbad : ∀ b ∈ bad, b ≠ 0 ∧ b ≠ 44) (htail : tail = [] ∨ ∃ more, tail = 44 :: more)
    (hne : bad ++ tail ≠ []) (herr : field_error h bad = some msg)
    (hL : (fields_before fs (bad ++ tail)).length < 2 ^ 32)
    (hroom : w.r.reply_len + 1 ≤ max_packet_len)
    (hd : w.c.buf.drop cbuf = cstr "configure:" ++
      (uleb_bytes 5 (fields_before fs (bad ++ tail)).length ++
        (fields_before fs (bad ++ tail) ++ rest))) :
    ∃ w1 : World β,
      dispatch h w cbuf =
        .next (cbuf + 10 + (uleb_bytes 5 (fields_before fs (bad ++ tail)).length).length +
          (fields_before fs (bad ++ tail)).length) w1 ∧
      { w1.c with buf := w.c.buf } = xvcserver_set_error (fs.foldl set_flag w.c) msg ∧
      w1.c.buf.length = w.c.buf.length ∧
      w1.c.buf.take (cbuf + 10 + (uleb_bytes 5 (fields_before fs (bad ++ tail)).length).length) =
        w.c.buf.take
          (cbuf + 10 + (uleb_bytes 5 (fields_before fs (bad ++ tail)).length).length) ∧
      w1.c.enable_locking = (fs.foldl set_flag w.c).enable_locking ∧
      w1.c.enable_status = (fs.foldl set_flag w.c).enable_status ∧
      w1.c.pending_error.headD 0 ≠ 0 ∧
      w1.r.packet = w.r.packet ++ [1] ∧
      w1.c.buf.drop (cbuf + 10 + (uleb_bytes 5 (fields_before fs (bad ++ tail)).length).length +
          (fields_before fs (bad ++ tail)).length) = rest ∧
      cmd_loop h (fuel + 1) cbuf w =
        cmd_loop h fuel (cbuf + 10 + (uleb_bytes 5 (fields_before fs (bad ++ tail)).length).length +
          (fields_before fs (bad ++ tail)).length) w1 := by
  have e1 := cmd_configure_eq h w cbuf _ rest hL hd
  have hfl := fields_before_length fs (bad ++ tail)
  have e2 := configure_fields_stop h fs (fields_before fs (bad ++ tail)).length bad tail msg w.c
    hpe hfs hbad htail hne herr (by
      have : 0 < (bad ++ tail).length := List.length_pos.mpr hne
      omega)
  rw [e2] at e1
  have hdisp := dispatch_configure h w cbuf _ hd
  rw [e1] at hdisp
  have hmsg := field_error_head h bad msg herr
  have hpe1 : (xvcserver_set_error (fs.foldl set_flag w.c) msg).pending_error.headD 0 ≠ 0 := by
    simp only [xvcserver_set_error]
    cases msg with
    | nil => exact absurd rfl hmsg
    | cons b t =>
      simp only [List.headD_cons] at hmsg
      simp [List.take_succ_cons, List.takeWhile_cons, hmsg]
  have hst := packet_status (xvcserver_set_error (fs.foldl set_flag w.c) msg) w.r hroom
  have hsb : status_byte (xvcserver_set_error (fs.foldl set_flag w.c) msg) = 1 := by
    unfold status_byte
    rw [if_pos hpe1]
  rw [hsb] at hst
  have hd1 : w.c.buf.drop (cbuf + 10 + (uleb_bytes 5 (fields_before fs (bad ++ tail)).length).length +
      (fields_before fs (bad ++ tail)).length) = rest :=
    drop_add_of_drop _ _ _ _ (drop_add_of_drop _ _ _ _ (drop_add_of_drop _ _ _ _ hd))
  have hle : cbuf + 10 + (uleb_bytes 5 (fields_before fs (bad ++ tail)).length).length +
      (fields_before fs (bad ++ tail)).length ≤ w.c.buf.length := by
    have h1 := congrArg List.length hd
    simp only [List.length_drop, List.length_append] at h1
    have h10 : (cstr "configure:").length = 10 := by decide
    omega
  obtain ⟨b1, b2, b3⟩ := stored_buf w.c.buf
    (configure_stores h (fields_before fs (bad ++ tail)).length
      (fields_before fs (bad ++ tail)) w.c) rest
    (cbuf + 10 + (uleb_bytes 5 (fields_before fs (bad ++ tail)).length).length) _
    (by rw [configure_stores_length]) hle hd1
  refine ⟨_, hdisp, ?_, b1, b2, rfl, rfl, hpe1, hst.1, b3, ?_⟩
  · show ({ xvcserver_set_error (fs.foldl set_flag w.c) msg with buf := w.c.buf } : XvcClient) = _
    have hb : (xvcserver_set_error (fs.foldl set_flag w.c) msg).buf = w.c.buf := by
      show (fs.foldl set_flag w.c).buf = w.c.buf
      exact foldl_set_flag_buf fs w.c
    rw [← hb]
  · conv_lhs => unfold cmd_loop
    rw [hdisp]

theorem validation_error_stops_witness :
    fields_before [(true, true)] (cstr "status=1" ++ cstr ",status-") =
      cstr "locking+,status=1,status-" ∧
    (dispatch full_handlers
      (fresh_world (cstr "configure:" ++ [25] ++ cstr "locking+,status=1,status-" ++
        cstr "getinfo:") []) 0).world.c =
      { accept_client with
        buf := cstr "configure:" ++ [25] ++ cstr "locking" ++ [0, 0] ++ cstr "status" ++ [0] ++
          cstr "1" ++ [0] ++ cstr "status-" ++ cstr "getinfo:",
        enable_locking := 1, enable_status := 0,
        pending_error := cstr "configuration \"status\" requires boolean + or -" } ∧
    ∃ w1 : World Unit,
      dispatch full_handlers
        (fresh_world (cstr "configure:" ++ [25] ++ cstr "locking+,status=1,status-" ++
          cstr "getinfo:") []) 0 =
        .next (0 + 10 + (uleb_bytes 5
            (fields_before [(true, true)] (cstr "status=1" ++ cstr ",status-")).length).length +
          (fields_before [(true, true)] (cstr "status=1" ++ cstr ",status-")).length) w1 ∧
      { w1.c with buf := (fresh_world (cstr "configure:" ++ [25] ++
          cstr "locking+,status=1,status-" ++ cstr "getinfo:") []).c.buf } =
        xvcserver_set_error ([(true, true)].foldl set_flag
          (fresh_world (cstr "configure:" ++ [25] ++ cstr "locking+,status=1,status-" ++
            cstr "getinfo:") []).c)
        (cstr "configuration \"status\" requires boolean + or -") ∧
      w1.c.buf.length = (fresh_world (cstr "configure:" ++ [25] ++
          cstr "locking+,status=1,status-" ++ cstr "getinfo:") []).c.buf.length ∧
      w1.c.buf.take (0 + 10 + (uleb_bytes 5
            (fields_before [(true, true)] (cstr "status=1" ++ cstr ",status-")).length).length) =
        (fresh_world (cstr "configure:" ++ [25] ++
          cstr "locking+,status=1,status-" ++ cstr "getinfo:") []).c.buf.take
          (0 + 10 + (uleb_bytes 5
            (fields_before [(true, true)] (cstr "status=1" ++ cstr ",status-")).length).length) ∧
      w1.c.enable_locking = ([(true, true)].foldl set_flag
          (fresh_world (cstr "configure:" ++ [25] ++ cstr "locking+,status=1,status-" ++
            cstr "getinfo:") []).c).enable_locking ∧
      w1.c.enable_status = ([(true, true)].foldl set_flag
          (fresh_world (cstr "configure:" ++ [25] ++ cstr "locking+,status=1,status-" ++
            cstr "getinfo:") []).c).enable_status ∧
      w1.c.pending_error.headD 0 ≠ 0 ∧
      w1.r.packet = (fresh_world (cstr "configure:" ++ [25] ++
          cstr "locking+,status=1,status-" ++ cstr "getinfo:") []).r.packet ++ [1] ∧
      w1.c.buf.drop (0 + 10 + (uleb_bytes 5
            (fields_before [(true, true)] (cstr "status=1" ++ cstr ",status-")).length).length +
          (fields_before [(true, true)] (cstr "status=1" ++ cstr ",status-")).length) =
        cstr "getinfo:" ∧
      cmd_loop full_handlers (1 + 1) 0
          (fresh_world (cstr "configure:" ++ [25] ++ cstr "locking+,status=1,status-" ++
            cstr "getinfo:") []) =
        cmd_loop full_handlers 1 (0 + 10 + (uleb_bytes 5
            (fields_before [(true, true)] (cstr "status=1" ++ cstr ",status-")).length).length +
          (fields_before [(true, true)] (cstr "status=1" ++ cstr ",status-")).length) w1 :=
  ⟨by decide, by decide,
   validation_error_stops full_handlers
     (fresh_world (cstr "configure:" ++ [25] ++ cstr "locking+,status=1,status-" ++
       cstr "getinfo:") []) 0 1 [(true, true)] (cstr "status=1") (cstr ",status-")
     (cstr "configuration \"status\" requires boolean + or -") (cstr "getinfo:")
     (by decide) (fun _ _ _ => ⟨rfl, rfl⟩) (by decide) (Or.inr ⟨cstr "status-", by decide⟩)
     (by decide) (by decide) (by decide) (by decide) (by decide)⟩

theorem set_error_text (c : XvcClient) (text : List Nat) (hl : text.length ≤ 1023)
    (h0 : ∀ b ∈ text, b ≠ 0) : xvcserver_set_error c text = { c with pending_error := text } := by
  unfold xvcserver_set_error
  rw [List.take_of_length_le hl, List.takeWhile_eq_self_iff.mpr (by
    intro b hb
    simpa using h0 b hb)]

/-- A field without `=` and longer than one character: the last character is
cut off whatever it is, and it decides the value of `enable`. -/
theorem config_enable_strip (config : List Nat) (h61 : 61 ∉ config) (h0 : ∀ b ∈ config, b ≠ 0)
    (h1 : 1 < config.length) (h32 : config.length < 2 ^ 32) :
    config_enable config =
      (config.take (config.length - 1),
        if config.getD (config.length - 1) 0 = 43 then 1
        else if config.getD (config.length - 1) 0 = 45 then 0 else -1) := by
  unfold config_enable
  simp only [Char.reduceToNat, strchr_none config 61 h61, strlen_eq_length config h0,
    u32_of_lt h32]
  rw [if_pos h1]

/-- A field `name=value`: the name is the text before the first `=` and the
field is not a boolean. -/
theorem config_enable_assign (name value : List Nat) (h61 : 61 ∉ name) :
    config_enable (name ++ 61 :: value) = (name, -1) := by
  unfold config_enable
  simp only [Char.reduceToNat, strchr_found name value 61 h61]

theorem configure_fields_assign {β : Type} (h : XvcServerHandlers β) (fuel : Nat)
    (name value : List Nat) (c : XvcClient) (hpe : c.pending_error.headD 0 = 0)
    (hne : name ≠ []) (hn : ∀ b ∈ name, b ≠ 0 ∧ b ≠ 44 ∧ b ≠ 61) :
    configure_fields h (fuel + 1) (name ++ 61 :: value) c =
      if name = cstr "locking" ∧ h.lock = true ∧ h.unlock = true then
        xvcserver_set_error c (cstr "configuration \"locking\" requires boolean + or -")
      else if name = cstr "status" then
        xvcserver_set_error c (cstr "configuration \"status\" requires boolean + or -")
      else xvcserver_set_error c (cstr "unexpected configuration: " ++ name) := by
  have hg := get_field_append name (61 :: value) 44 (fun b hb => ⟨(hn b hb).1, (hn b hb).2.1⟩)
  have hg2 : (get_field (61 :: value) 44).1 = 61 :: (get_field value 44).1 := by
    simp [get_field]
  have h61 : 61 ∉ name := fun hm => (hn 61 hm).2.2 rfl
  have hce := config_enable_assign name (get_field value 44).1 h61
  have hhead : (name ++ 61 :: value).headD 0 ≠ 0 := by
    cases name with
    | nil => exact absurd rfl hne
    | cons b t => simpa using (hn b (by simp)).1
  conv_lhs => unfold configure_fields
  simp only [Char.reduceToNat, hg, hg2, hce]
  rw [if_pos ⟨hhead, hpe⟩]
  simp

/-- Claim C19: the last character of a `configure:` field without `=`.  A
field without `=` that is longer than one character loses its last character
before the name is matched, whatever the character is, and is a boolean only
if the character was `+` or `-`.  So, with no pending error, the field
`bogus` sets the error `unexpected configuration: bogu`, the field `statusx`
sets `configuration "status" requires boolean + or -`, and every field
`status=value`, and `locking=value` for a backend with lock and unlock, sets
the `requires boolean + or -` error of its name; the flags and the rest of
the connection are unchanged. -/
theorem field_last_char_stripped {β : Type} (h : XvcServerHandlers β) (c : XvcClient)
    (fuel : Nat) (hpe : c.pending_error.headD 0 = 0) :
    (∀ config : List Nat, 61 ∉ config → (∀ b ∈ config, b ≠ 0) → 1 < config.length →
      config.length < 2 ^ 32 →
      config_enable config =
        (config.take (config.length - 1),
          if config.getD (config.length - 1) 0 = 43 then 1
          else if config.getD (config.length - 1) 0 = 45 then 0 else -1)) ∧
    configure_fields h (fuel + 1) (cstr "bogus") c =
      { c with pending_error := cstr "unexpected configuration: bogu" } ∧
    configure_fields h (fuel + 1) (cstr "statusx") c =
      { c with pending_error := cstr "configuration \"status\" requires boolean + or -" } ∧
    (∀ value : List Nat, configure_fields h (fuel + 1) (cstr "status=" ++ value) c =
      { c with pending_error := cstr "configuration \"status\" requires boolean + or -" }) ∧
    (h.lock = true → h.unlock = true →
      ∀ value : List Nat, configure_fields h (fuel + 1) (cstr "locking=" ++ value) c =
        { c with pending_error := cstr "configuration \"locking\" requires boolean + or -" }) := by
  have hmsgS := set_error_text c (cstr "configuration \"status\" requires boolean + or -")
    (by decide) (by decide)
  have hmsgL := set_error_text c (cstr "configuration \"locking\" requires boolean + or -")
    (by decide) (by decide)
  have hmsgU := set_error_text c (cstr "unexpected configuration: bogu") (by decide) (by decide)
  refine ⟨config_enable_strip, ?_, ?_, ?_, ?_⟩
  · have hb := configure_fields_bad h fuel (cstr "bogus") [] (cstr "unexpected configuration: bogu")
      c hpe (by decide) (Or.inl rfl) (by decide) (by
        unfold field_error
        have e : config_enable (cstr "bogus") = (cstr "bogu", -1) := by decide
        simp only [e]
        rw [if_neg (fun x => absurd x.1 (by decide)), if_neg (by decide)]
        rfl)
    rw [List.append_nil] at hb
    rw [hb, hmsgU]
  · have hb := configure_fields_bad h fuel (cstr "statusx") []
      (cstr "configuration \"status\" requires boolean + or -")
      c hpe (by decide) (Or.inl rfl) (by decide) (by
        unfold field_error
        have e : config_enable (cstr "statusx") = (cstr "status", -1) := by decide
        simp only [e]
        rw [if_neg (fun x => absurd x.1 (by decide)), if_pos (by decide), if_pos (by decide)])
    rw [List.append_nil] at hb
    rw [hb, hmsgS]
  · intro value
    have hb := configure_fields_assign h fuel (cstr "status") value c hpe (by decide) (by decide)
    rw [if_neg (fun x => absurd x.1 (by decide)), if_pos rfl] at hb
    have e : cstr "status=" ++ value = cstr "status" ++ 61 :: value := by
      simp [cstr]
    rw [e, hb, hmsgS]
  · intro hl hu value
    have hb := configure_fields_assign h fuel (cstr "locking") value c hpe (by decide) (by decide)
    rw [if_pos ⟨rfl, hl, hu⟩] at hb
    have e : cstr "locking=" ++ value = cstr "locking" ++ 61 :: value := by
      simp [cstr]
    rw [e, hb, hmsgL]

theorem field_last_char_stripped_witness :
    config_enable (cstr "bogus") = (cstr "bogu", -1) ∧
    config_enable (cstr "status+") = (cstr "status", 1) ∧
    (dispatch full_handlers (fresh_world (cstr "configure:" ++ [5] ++ cstr "bogus") []) 0).world.c =
      { accept_client with buf := cstr "configure:" ++ [5] ++ cstr "bogu" ++ [0],
                           pending_error := cstr "unexpected configuration: bogu" } ∧
    configure_fields full_handlers (0 + 1) (cstr "bogus") accept_client =
      { accept_client with pending_error := cstr "unexpected configuration: bogu" } ∧
    configure_fields full_handlers (0 + 1) (cstr "statusx") accept_client =
      { accept_client with
        pending_error := cstr "configuration \"status\" requires boolean + or -" } ∧
    configure_fields full_handlers (0 + 1) (cstr "status=" ++ cstr "1") accept_client =
      { accept_client with
        pending_error := cstr "configuration \"status\" requires boolean + or -" } ∧
    configure_fields full_handlers (0 + 1) (cstr "locking=" ++ cstr "+") accept_client =
      { accept_client with
        pending_error := cstr "configuration \"locking\" requires boolean + or -" } :=
  ⟨by decide, by decide, by decide,
   (field_last_char_stripped full_handlers accept_client 0 (by decide)).2.1,
   (field_last_char_stripped full_handlers accept_client 0 (by decide)).2.2.1,
   (field_last_char_stripped full_handlers accept_client 0 (by decide)).2.2.2.1 (cstr "1"),
   (field_last_char_stripped full_handlers accept_client 0 (by decide)).2.2.2.2 rfl rfl
     (cstr "+")⟩

/-! ## The input buffer -/

theorem configure_fields_buf_max {β : Type} (h : XvcServerHandlers β) (fuel : Nat) (s : List Nat)
    (c : XvcClient) : (configure_fields h fuel s c).buf_max = c.buf_max := by
  induction fuel generalizing s c with
  | zero => rfl
  | succ n ih =>
    unfold configure_fields
    simp only []
    split_ifs
    · rfl
    · rw [ih]
    · rfl
    · rw [ih]
    · rfl
    · rfl

theorem exec_conn_buf_max {β : Type} (h : XvcServerHandlers β) (c : XvcClient) (cd : β)
    (cmd : Cmd) : (exec_conn h c cd cmd).1.buf_max = c.buf_max := by
  cases cmd with
  | getinfo => rfl
  | capabilities => rfl
  | configure body => exact configure_fields_buf_max h _ _ c
  | error => rfl
  | edpc flags =>
    cases hh : h.edpc with
    | none => simp only [exec_conn, hh]
    | some f =>
      simp only [exec_conn, hh]
      cases (edpc_result f c cd flags).error <;> rfl
  | idpc flags n data =>
    cases hh : h.idpc with
    | none => simp only [exec_conn, hh]
    | some f =>
      simp only [exec_conn, hh]
      split_ifs
      · cases (f cd flags n data).2 <;> rfl
      · rfl

/-- A round of the command loop leaves the number of buffered bytes and the
capacity as they are; a dispatched command ends inside the buffered bytes and
leaves the bytes after it as they are. -/
theorem dispatch_keeps_buf {β : Type} (h : XvcServerHandlers β) (w : World β) (cbuf : Nat)
    (hc : cbuf ≤ w.c.buf.length) :
    (dispatch h w cbuf).world.c.buf.length = w.c.buf.length ∧
    (dispatch h w cbuf).world.c.buf_max = w.c.buf_max ∧
    (∀ p w1, dispatch h w cbuf = .next p w1 →
      cbuf < p ∧ p ≤ w.c.buf.length ∧ w1.c.buf.drop p = w.c.buf.drop p ∧
      w1.c.buf.take cbuf = w.c.buf.take cbuf) ∧
    (∀ w1, dispatch h w cbuf = .fill w1 → w1 = w) := by
  rw [dispatch_eq_interp h w cbuf hc]
  cases hp : parse h.edpc.isSome h.idpc.isSome (w.c.buf_addr + cbuf) (w.c.buf.drop cbuf) with
  | more k =>
    have e0 : interp h w cbuf (.more k) = (if k ≤ w.c.buf_max then .fill w else .abort w) := rfl
    rw [e0]
    by_cases hk : k ≤ w.c.buf_max
    · rw [if_pos hk]
      exact ⟨rfl, rfl, fun p w1 e => (by cases e), fun w1 e => (by cases e; rfl)⟩
    · rw [if_neg hk]
      exact ⟨rfl, rfl, fun p w1 e => (by cases e), fun w1 e => (by cases e)⟩
  | bad => exact ⟨rfl, rfl, fun p w1 e => (by cases e), fun w1 e => (by cases e)⟩
  | wrap cmd plen =>
    obtain ⟨hc1, _⟩ := exec_c h w (w.c.buf.length - (cbuf + plen)) cmd
    simp only [interp, Step.world]
    exact ⟨by rw [hc1, exec_conn_keeps_buf], by rw [hc1, exec_conn_buf_max],
      fun p w1 e => (by cases e), fun w1 e => (by cases e)⟩
  | ok cmd L =>
    obtain ⟨hL, hL1, _⟩ := parse_local _ _ _ _ cmd L hp
    have hmin := parse_min_len _ _ _ _ cmd L hp
    rw [List.length_drop] at hL
    obtain ⟨p1, p2, p3, p4, p5, p6, p7, p8, p9, p10⟩ :=
      put_stores_world h w (idpc_avail w.c.buf.length cbuf L cmd) cbuf L cmd hmin (by omega)
    simp only [interp, Step.world]
    refine ⟨p8, by rw [p1]; exact exec_conn_buf_max h w.c w.client_data cmd, ?_,
      fun w1 e => (by cases e)⟩
    intro p w1 e
    injection e with e1 e2
    subst e1 e2
    exact ⟨by omega, by omega, p9, p10⟩

/-- The command loop leaves the number of buffered bytes and the capacity as
they are; it stops at a cursor inside the buffered bytes and leaves the bytes
from that cursor on as they are. -/
theorem cmd_loop_keeps_buf {β : Type} (h : XvcServerHandlers β) :
    ∀ (fuel cbuf : Nat) (w : World β), cbuf ≤ w.c.buf.length →
      (∀ w1, (cmd_loop h fuel cbuf w).world = some w1 →
        w1.c.buf.length = w.c.buf.length ∧ w1.c.buf_max = w.c.buf_max) ∧
      (∀ fill cbuf1 w1, cmd_loop h fuel cbuf w = .brk fill cbuf1 w1 →
        cbuf ≤ cbuf1 ∧ cbuf1 ≤ w.c.buf.length ∧ w1.c.buf.drop cbuf1 = w.c.buf.drop cbuf1) := by
  intro fuel
  induction fuel with
  | zero =>
    intro cbuf w _
    exact ⟨fun w1 e => by simp [cmd_loop, Loop.world] at e, fun _ _ _ e => by simp [cmd_loop] at e⟩
  | succ n ih =>
    intro cbuf w hc
    obtain ⟨k1, k2, k3, k4⟩ := dispatch_keeps_buf h w cbuf hc
    unfold cmd_loop
    cases hd : dispatch h w cbuf with
    | next p w1 =>
      rw [hd] at k1 k2
      simp only [Step.world] at k1 k2
      obtain ⟨hp1, hp2, hp3, _⟩ := k3 p w1 hd
      obtain ⟨i1, i2⟩ := ih p w1 (by rw [k1]; exact hp2)
      simp only []
      refine ⟨fun w2 e => ?_, fun fill cbuf1 w2 e => ?_⟩
      · have := i1 w2 e
        rw [k1, k2] at this
        exact this
      · have := i2 fill cbuf1 w2 e
        rw [k1] at this
        exact ⟨by omega, this.2.1, by
          rw [this.2.2]
          exact drop_eq_of_drop_eq _ _ _ _ hp3 this.1⟩
    | fill w1 =>
      rw [hd] at k1 k2
      simp only [Step.world] at k1 k2
      have hw := k4 w1 hd
      simp only [Loop.world, Option.some.injEq, Loop.brk.injEq]
      refine ⟨fun w2 e => by rw [← e]; exact ⟨k1, k2⟩, fun fill cbuf1 w2 e => ?_⟩
      obtain ⟨_, e2, e3⟩ := e
      subst e2 e3
      exact ⟨le_refl _, hc, by rw [hw]⟩
    | error w1 =>
      rw [hd] at k1 k2
      simp only [Step.world] at k1 k2
      simp only [Loop.world, Option.some.injEq]
      exact ⟨fun w2 e => by rw [← e]; exact ⟨k1, k2⟩, fun fill cbuf1 w2 e => by cases e⟩
    | abort w1 =>
      rw [hd] at k1 k2
      simp only [Step.world] at k1 k2
      simp only [Loop.world, Option.some.injEq]
      exact ⟨fun w2 e => by rw [← e]; exact ⟨k1, k2⟩, fun fill cbuf1 w2 e => by cases e⟩
    | wild w1 =>
      rw [hd] at k1 k2
      simp only [Step.world] at k1 k2
      simp only [Loop.world, Option.some.injEq]
      exact ⟨fun w2 e => by rw [← e]; exact ⟨k1, k2⟩, fun fill cbuf1 w2 e => by cases e⟩

/-- A `recv` appends what it gets after the buffered bytes and never more than
the free room; without bytes the connection state is left as it is. -/
theorem recv_more_buf {β : Type} (w : World β) (hinv : w.c.buf.length ≤ w.c.buf_max)
    (hmax : w.c.buf_max < 2 ^ 32) :
    (∀ w4, recv_more w = .inl w4 →
      ∃ got, w4.c.buf = w.c.buf ++ got ∧ got.length ≤ w.c.buf_max - w.c.buf.length ∧
        w4.c.buf.length ≤ w4.c.buf_max ∧ w4.c.buf_max = w.c.buf_max) ∧
    (∀ x, recv_more w = .inr x → x.2.c = w.c) := by
  have hroom : u32 (w.c.buf_max + 2 ^ 32 - w.c.buf.length) = w.c.buf_max - w.c.buf.length := by
    have e : w.c.buf_max + 2 ^ 32 - w.c.buf.length = 2 ^ 32 + (w.c.buf_max - w.c.buf.length) := by
      omega
    rw [e]
    unfold u32
    omega
  unfold recv_more
  cases hrx : w.rx with
  | nil =>
    simp only []
    exact ⟨fun w4 e => (by cases e), fun x e => (by cases e; rfl)⟩
  | cons a rest =>
    cases a with
    | none =>
      simp only []
      exact ⟨fun w4 e => (by cases e), fun x e => (by cases e; rfl)⟩
    | some chunk =>
      simp only [hroom]
      have hgl : (chunk.take (w.c.buf_max - w.c.buf.length)).length ≤
          w.c.buf_max - w.c.buf.length := by
        rw [List.length_take]
        omega
      by_cases hpos : (chunk.take (w.c.buf_max - w.c.buf.length)).length > 0
      · rw [if_pos hpos]
        refine ⟨fun w4 e => ?_, fun x e => (by cases e)⟩
        injection e with e
        subst e
        refine ⟨chunk.take (w.c.buf_max - w.c.buf.length), rfl, hgl, ?_, rfl⟩
        simp only [List.length_append]
        omega
      · rw [if_neg hpos]
        exact ⟨fun w4 e => (by cases e), fun x e => (by cases e; rfl)⟩

/-- One read cycle, with the `recv` at its end written as `cont`. -/
theorem read_more_succ {β : Type} (h : XvcServerHandlers β) (fuel : Nat) (w : World β) :
    read_more h (fuel + 1) w =
      match cmd_loop h (w.c.buf.length + 1) 0 { w with r := { w.r with reply_len := 0 } } with
      | .stuck => none
      | .error w1 => some (Exit.error, w1)
      | .abort w1 => some (Exit.abort, w1)
      | .wild w1 => some (Exit.wild, w1)
      | .brk fill cbuf w1 =>
        if 0 < cbuf then
          if flush_failed h w1 = true then some (Exit.error, flush_world h w1)
          else if (flush_world h w1).send_ok (flush_world h w1).tx.length = false then
            some (Exit.error, flush_world h w1)
          else if cbuf ≤ (flush_world h w1).c.buf.length then
            if (consume_packet (flush_world h w1).c cbuf).buf.length ≠ 0 ∧ fill = false then
              read_more h fuel
                { flush_world h w1 with
                  tx := (flush_world h w1).tx ++ [(flush_world h w1).r.packet],
                  c := consume_packet (flush_world h w1).c cbuf }
            else
              cont h fuel
                { flush_world h w1 with
                  tx := (flush_world h w1).tx ++ [(flush_world h w1).r.packet],
                  c := consume_packet (flush_world h w1).c cbuf }
          else some (Exit.abort,
            { flush_world h w1 with
              tx := (flush_world h w1).tx ++ [(flush_world h w1).r.packet] })
        else cont h fuel w1 := by
  conv_lhs => unfold read_more
  rfl

theorem flush_world_c {β : Type} (h : XvcServerHandlers β) (w : World β) :
    (flush_world h w).c = w.c := by
  unfold flush_world
  cases h.flush <;> rfl

/-- Every run of the connection driver keeps `buf_len <= buf_max`. -/
theorem read_more_buf {β : Type} (h : XvcServerHandlers β) :
    ∀ (fuel : Nat) (w : World β), w.c.buf.length ≤ w.c.buf_max → w.c.buf_max < 2 ^ 32 →
      ∀ x, read_more h fuel w = some x →
        x.2.c.buf.length ≤ x.2.c.buf_max ∧ x.2.c.buf_max = w.c.buf_max := by
  intro fuel
  induction fuel with
  | zero =>
    intro w _ _ x e
    simp [read_more] at e
  | succ n ih =>
    intro w hinv hmax x e
    have hcont : ∀ v : World β, v.c.buf.length ≤ v.c.buf_max → v.c.buf_max = w.c.buf_max →
        cont h n v = some x → x.2.c.buf.length ≤ x.2.c.buf_max ∧ x.2.c.buf_max = w.c.buf_max := by
      intro v hv1 hv2 ev
      obtain ⟨r1, r2⟩ := recv_more_buf v hv1 (by rw [hv2]; exact hmax)
      cases hr : recv_more v with
      | inl w4 =>
        rw [cont_inl h n v w4 hr] at ev
        obtain ⟨got, _, _, g3, g4⟩ := r1 w4 hr
        have := ih w4 g3 (by rw [g4, hv2]; exact hmax) x ev
        rw [g4, hv2] at this
        exact this
      | inr y =>
        rw [cont_inr h n v y hr] at ev
        injection ev with ev
        subst ev
        rw [r2 y hr]
        exact ⟨hv1, hv2⟩
    rw [read_more_succ] at e
    obtain ⟨k1, k2⟩ := cmd_loop_keeps_buf h (w.c.buf.length + 1) 0
      { w with r := { w.r with reply_len := 0 } } (Nat.zero_le _)
    cases hl : cmd_loop h (w.c.buf.length + 1) 0 { w with r := { w.r with reply_len := 0 } } with
    | stuck =>
      rw [hl] at e
      cases e
    | error w1 =>
      rw [hl] at e k1
      obtain ⟨b1, b2⟩ := k1 w1 rfl
      injection e with e
      subst e
      exact ⟨by show w1.c.buf.length ≤ w1.c.buf_max; rw [b1, b2]; exact hinv, b2⟩
    | abort w1 =>
      rw [hl] at e k1
      obtain ⟨b1, b2⟩ := k1 w1 rfl
      injection e with e
      subst e
      exact ⟨by show w1.c.buf.length ≤ w1.c.buf_max; rw [b1, b2]; exact hinv, b2⟩
    | wild w1 =>
      rw [hl] at e k1
      obtain ⟨b1, b2⟩ := k1 w1 rfl
      injection e with e
      subst e
      exact ⟨by show w1.c.buf.length ≤ w1.c.buf_max; rw [b1, b2]; exact hinv, b2⟩
    | brk fill cbuf w1 =>
      rw [hl] at e k1
      obtain ⟨b1, b2⟩ := k1 w1 rfl
      have b1 : w1.c.buf.length = w.c.buf.length := b1
      have b2 : w1.c.buf_max = w.c.buf_max := b2
      have hfc := flush_world_c h w1
      have hfl : (flush_world h w1).c.buf.length ≤ (flush_world h w1).c.buf_max := by
        rw [hfc, b1, b2]
        exact hinv
      have hfm : (flush_world h w1).c.buf_max = w.c.buf_max := by rw [hfc, b2]
      have hcl : (consume_packet (flush_world h w1).c cbuf).buf.length ≤
          (flush_world h w1).c.buf_max := by
        simp only [consume_packet, hfc, b2, List.length_drop]
        omega
      simp only [] at e
      split_ifs at e with c1 c2 c3 c4 c5
      · injection e with e
        subst e
        exact ⟨hfl, hfm⟩
      · injection e with e
        subst e
        exact ⟨hfl, hfm⟩
      · have hlt : (flush_world h w1).c.buf_max < 2 ^ 32 := by
          rw [hfm]
          exact hmax
        have := ih ({ flush_world h w1 with
            tx := (flush_world h w1).tx ++ [(flush_world h w1).r.packet],
            c := consume_packet (flush_world h w1).c cbuf } : World β) hcl hlt x e
        exact ⟨this.1, by rw [this.2]; exact hfm⟩
      · exact hcont ({ flush_world h w1 with
            tx := (flush_world h w1).tx ++ [(flush_world h w1).r.packet],
            c := consume_packet (flush_world h w1).c cbuf } : World β) hcl hfm e
      · injection e with e
        subst e
        exact ⟨hfl, hfm⟩
      · exact hcont w1 (by rw [b1, b2]; exact hinv) b2 e

/-- Claim C18: the input buffer invariant.  In a connection with
`buf_len <= buf_max`:
(1) a transport read that delivers bytes appends them after the buffered
bytes, at most `buf_max - buf_len` of them, so `buf_len <= buf_max` holds
again;
(2) `consume_packet(len)` with `len <= buf_len` leaves exactly the buffered
bytes from offset `len` on, in order;
(3) the command loop of a read cycle stores only into the bytes of the
commands it dispatches: it leaves `buf_len`, the capacity and the buffered
bytes from its final cursor on as they are (the byte that the `configure:`
parser overwrites at the end of a body is put back), and it stops at a cursor
`cbuf <= buf_len`, which is the length handed to `consume_packet`, so that
after `consume_packet(cbuf)` the buffer holds exactly the bytes that were
buffered from offset `cbuf` on;
(4) every run of the read cycles from this state ends with
`buf_len <= buf_max` and the same capacity. -/
theorem input_buffer_invariant {β : Type} (h : XvcServerHandlers β) (w : World β)
    (hinv : w.c.buf.length ≤ w.c.buf_max) (hmax : w.c.buf_max < 2 ^ 32) :
    (∀ w4, recv_more w = .inl w4 →
      ∃ got, w4.c.buf = w.c.buf ++ got ∧ got.length ≤ w.c.buf_max - w.c.buf.length ∧
        w4.c.buf.length ≤ w4.c.buf_max ∧ w4.c.buf_max = w.c.buf_max) ∧
    (∀ len, len ≤ w.c.buf.length →
      (consume_packet w.c len).buf = w.c.buf.drop len ∧
      (consume_packet w.c len).buf.length = w.c.buf.length - len ∧
      w.c.buf = w.c.buf.take len ++ (consume_packet w.c len).buf ∧
      (consume_packet w.c len).buf.length ≤ (consume_packet w.c len).buf_max) ∧
    (∀ fuel fill cbuf w1,
      cmd_loop h fuel 0 { w with r := { w.r with reply_len := 0 } } = .brk fill cbuf w1 →
      cbuf ≤ w.c.buf.length ∧ w1.c.buf.length = w.c.buf.length ∧
      w1.c.buf.drop cbuf = w.c.buf.drop cbuf ∧ w1.c.buf_max = w.c.buf_max ∧
      (consume_packet w1.c cbuf).buf = w.c.buf.drop cbuf) ∧
    (∀ fuel x, read_more h fuel w = some x →
      x.2.c.buf.length ≤ x.2.c.buf_max ∧ x.2.c.buf_max = w.c.buf_max) := by
  refine ⟨(recv_more_buf w hinv hmax).1, ?_, ?_, fun fuel x e => read_more_buf h fuel w hinv hmax x e⟩
  · intro len hlen
    refine ⟨rfl, ?_, ?_, ?_⟩
    · simp only [consume_packet, List.length_drop]
    · simp only [consume_packet, List.take_append_drop]
    · simp only [consume_packet, List.length_drop]
      omega
  · intro fuel fill cbuf w1 e
    obtain ⟨k1, k2⟩ := cmd_loop_keeps_buf h fuel 0
      { w with r := { w.r with reply_len := 0 } } (Nat.zero_le _)
    have := k1 w1 (by rw [e]; rfl)
    obtain ⟨_, q2, q3⟩ := k2 fill cbuf w1 e
    exact ⟨q2, this.1, q3, this.2, q3⟩

theorem input_buffer_invariant_witness :
    (∃ got, (fresh_world (cstr "getinfo:get") [some (cstr "info:")]).c.buf ++ cstr "info:" =
        (fresh_world (cstr "getinfo:get") [some (cstr "info:")]).c.buf ++ got ∧
      got.length ≤ (fresh_world (cstr "getinfo:get") [some (cstr "info:")]).c.buf_max -
        (fresh_world (cstr "getinfo:get") [some (cstr "info:")]).c.buf.length ∧
      ((fresh_world (cstr "getinfo:get") [some (cstr "info:")]).c.buf ++ cstr "info:").length ≤
        (fresh_world (cstr "getinfo:get") [some (cstr "info:")]).c.buf_max ∧
      (fresh_world (cstr "getinfo:get") [some (cstr "info:")]).c.buf_max =
        (fresh_world (cstr "getinfo:get") [some (cstr "info:")]).c.buf_max) ∧
    (consume_packet (fresh_world (cstr "getinfo:get") [some (cstr "info:")]).c 8).buf =
      cstr "get" ∧
    (cmd_loop full_handlers 3 0
        (fresh_world (cstr "configure:" ++ [8] ++ cstr "locking+" ++ cstr "geti") [])).world.map
        (fun w1 => w1.c.buf) =
      some (cstr "configure:" ++ [8] ++ cstr "locking" ++ [0] ++ cstr "geti") ∧
    (19 ≤ (fresh_world (cstr "configure:" ++ [8] ++ cstr "locking+" ++ cstr "geti") []).c.buf.length ∧
      (cstr "configure:" ++ [8] ++ cstr "locking" ++ [0] ++ cstr "geti").length =
        (fresh_world (cstr "configure:" ++ [8] ++ cstr "locking+" ++ cstr "geti") []).c.buf.length ∧
      (cstr "configure:" ++ [8] ++ cstr "locking" ++ [0] ++ cstr "geti").drop 19 =
        (fresh_world (cstr "configure:" ++ [8] ++ cstr "locking+" ++ cstr "geti") []).c.buf.drop 19 ∧
      (fresh_world (cstr "configure:" ++ [8] ++ cstr "locking+" ++ cstr "geti") []).c.buf_max =
        (fresh_world (cstr "configure:" ++ [8] ++ cstr "locking+" ++ cstr "geti") []).c.buf_max ∧
      (consume_packet
          { (fresh_world (cstr "configure:" ++ [8] ++ cstr "locking+" ++ cstr "geti") []).c with
            buf := cstr "configure:" ++ [8] ++ cstr "locking" ++ [0] ++ cstr "geti",
            enable_locking := 1 } 19).buf =
        (fresh_world (cstr "configure:" ++ [8] ++ cstr "locking+" ++ cstr "geti") []).c.buf.drop 19) ∧
    (read_packet bare_handlers (accepted () [some (cstr "getinfo:get"), some (cstr "info:")])).map
      final_state = some (Exit.closed, 0, 0, [], [],
        cstr "xvcServer_v1.1:10000\n" ++ cstr "xvcServer_v1.1:10000\n") :=
  ⟨(input_buffer_invariant bare_handlers (fresh_world (cstr "getinfo:get") [some (cstr "info:")])
      (by decide) (by decide)).1
      { fresh_world (cstr "getinfo:get") [some (cstr "info:")] with
        c := { (fresh_world (cstr "getinfo:get") [some (cstr "info:")]).c with
               buf := (fresh_world (cstr "getinfo:get") [some (cstr "info:")]).c.buf ++
                 cstr "info:" },
        rx := [] } (by rfl),
   ((input_buffer_invariant bare_handlers (fresh_world (cstr "getinfo:get") [some (cstr "info:")])
      (by decide) (by decide)).2.1 8 (by decide)).1,
   by rfl,
   (input_buffer_invariant full_handlers
      (fresh_world (cstr "configure:" ++ [8] ++ cstr "locking+" ++ cstr "geti") [])
      (by decide) (by decide)).2.2.1 3 true 19
      { fresh_world (cstr "configure:" ++ [8] ++ cstr "locking+" ++ cstr "geti") [] with
        c := { (fresh_world (cstr "configure:" ++ [8] ++ cstr "locking+" ++ cstr "geti") []).c with
               buf := cstr "configure:" ++ [8] ++ cstr "locking" ++ [0] ++ cstr "geti",
               enable_locking := 1 },
        r := reply_status
          { (fresh_world (cstr "configure:" ++ [8] ++ cstr "locking+" ++ cstr "geti") []).c with
            enable_locking := 1 }
          { (fresh_world (cstr "configure:" ++ [8] ++ cstr "locking+" ++ cstr "geti") []).r with
            reply_len := 0 } } (by rfl),
   by rfl⟩

/-! ## Length of the reply of a batch -/

theorem getinfo_batch_succ (n : Nat) :
    getinfo_batch (n + 1) = cstr "getinfo:" ++ getinfo_batch n := by
  simp [getinfo_batch, List.replicate_succ]

theorem getinfo_batch_length (n : Nat) : (getinfo_batch n).length = 8 * n := by
  induction n with
  | zero => rfl
  | succ k ih =>
    rw [getinfo_batch_succ, List.length_append, ih]
    have : (cstr "getinfo:").length = 8 := by decide
    omega

/-- The reply buffer after one `getinfo:` for the capacity 10000: 21 bytes of
text are counted, and the terminator is stored one byte further. -/
theorem cmd_getinfo_10000 {β : Type} (w : World β) (p : Nat) (hmax : w.c.buf_max = 10000)
    (h32 : w.r.reply_len + 21 < 2 ^ 32) :
    ∃ w1 : World β, cmd_getinfo w p = .next p w1 ∧ w1.c = w.c ∧
      w1.r.reply_len = w.r.reply_len + 21 ∧ w1.r.hi = max w.r.hi (w.r.reply_len + 22) ∧
      w1.r.reply_max = w.r.reply_max ∧ w1.rx = w.rx ∧ w1.tx = w.tx ∧ w1.send_ok = w.send_ok ∧
      w1.client_data = w.client_data ∧ w1.calls = w.calls := by
  have ht : getinfo_text 10000 = cstr "xvcServer_v1.1:10000\n" := by decide
  have hs : strlen (cstr "xvcServer_v1.1:10000\n") = 21 := by decide
  have hl : (cstr "xvcServer_v1.1:10000\n").length = 21 := by decide
  refine ⟨_, rfl, rfl, ?_, ?_, rfl, rfl, rfl, rfl, rfl, rfl⟩
  · simp only [ReplyBuf.advance, ReplyBuf.copy, hmax, ht, hs]
    exact u32_of_lt h32
  · simp only [ReplyBuf.advance, ReplyBuf.copy, hmax, ht, hl]
    simp

/-- The command loop over `n` times `getinfo:` and nothing else: every
command is dispatched, 21 bytes are counted for each, and the last terminator
is stored at offset `21 * n`. -/
theorem getinfo_batch_loop {β : Type} (h : XvcServerHandlers β) :
    ∀ (n fuel cbuf : Nat) (w : World β), w.c.buf_max = 10000 →
      w.c.buf.drop cbuf = getinfo_batch n → cbuf ≤ w.c.buf.length → n + 1 ≤ fuel →
      w.r.reply_len + 21 * n < 2 ^ 32 →
      ∃ w1 : World β, cmd_loop h fuel cbuf w = .brk true (cbuf + 8 * n) w1 ∧ w1.c = w.c ∧
        w1.r.reply_len = w.r.reply_len + 21 * n ∧
        w1.r.hi = (if n = 0 then w.r.hi else max w.r.hi (w.r.reply_len + 21 * n + 1)) ∧
        w1.r.reply_max = w.r.reply_max ∧ w1.rx = w.rx ∧ w1.tx = w.tx ∧
        w1.send_ok = w.send_ok ∧ w1.client_data = w.client_data ∧ w1.calls = w.calls := by
  intro n
  induction n with
  | zero =>
    intro fuel cbuf w _ hd hc hf _
    obtain ⟨k, hk⟩ : ∃ k, fuel = k + 1 := ⟨fuel - 1, by omega⟩
    have hl : w.c.buf.length - cbuf = 0 := by
      have := congrArg List.length hd
      rw [List.length_drop] at this
      exact this
    have hdisp := dispatch_no_colon h w cbuf hc (by rw [hd]; decide)
    rw [if_neg (by omega)] at hdisp
    refine ⟨w, ?_, rfl, rfl, rfl, rfl, rfl, rfl, rfl, rfl, rfl⟩
    rw [hk]
    unfold cmd_loop
    rw [hdisp]
    rfl
  | succ m ih =>
    intro fuel cbuf w hmax hd hc hf h32
    obtain ⟨k, hk⟩ : ∃ k, fuel = k + 1 := ⟨fuel - 1, by omega⟩
    rw [getinfo_batch_succ] at hd
    have hdisp := dispatch_getinfo h w cbuf _ hd
    obtain ⟨w1, e1, e2, e3, e4, e5, e6, e7, e8, e9, e10⟩ :=
      cmd_getinfo_10000 w (cbuf + 8) hmax (by omega)
    rw [e1] at hdisp
    have hd1 : w1.c.buf.drop (cbuf + 8) = getinfo_batch m := by
      rw [e2]
      exact drop_add_of_drop _ _ (cstr "getinfo:") _ hd
    have hc1 : cbuf + 8 ≤ w1.c.buf.length := by
      rw [e2]
      have := congrArg List.length hd
      rw [List.length_drop, List.length_append] at this
      have h8 : (cstr "getinfo:").length = 8 := by decide
      omega
    obtain ⟨w2, i1, i2, i3, i4, i5, i6, i7, i8, i9, i10⟩ :=
      ih k (cbuf + 8) w1 (by rw [e2]; exact hmax) hd1 hc1 (by omega) (by rw [e3]; omega)
    refine ⟨w2, ?_, by rw [i2, e2], by rw [i3, e3]; omega, ?_, by rw [i5, e5], by rw [i6, e6],
      by rw [i7, e7], by rw [i8, e8], by rw [i9, e9], by rw [i10, e10]⟩
    · rw [hk]
      unfold cmd_loop
      rw [hdisp]
      simp only []
      rw [i1]
      congr 1
      omega
    · rw [if_neg (Nat.succ_ne_zero m), i4]
      by_cases hm : m = 0
      · subst hm
        rw [if_pos rfl, e4]
      · rw [if_neg hm, e4, e3]
        simp only [Nat.max_def]
        split_ifs <;> omega

theorem recv_more_closed {β : Type} (w : World β) (hrx : w.rx = []) :
    recv_more w = .inr (Exit.closed, w) := by
  unfold recv_more
  rw [hrx]

/-- A read cycle whose command loop dispatches all buffered bytes, with
nothing more to receive: the reply is sent as one packet, the buffer is
emptied and `read_packet` returns. -/
theorem cycle_all_consumed {β : Type} (h : XvcServerHandlers β) (hf : flush_neutral h) (F : Nat)
    (w w1 : World β) (fill : Bool)
    (hloop : cmd_loop h (w.c.buf.length + 1) 0 { w with r := { w.r with reply_len := 0 } } =
      .brk fill w.c.buf.length w1)
    (hpos : 0 < w.c.buf.length) (hsend : w1.send_ok = fun _ => true) (hrx : w1.rx = [])
    (hbuf : w1.c.buf = w.c.buf) :
    read_more h (F + 1) w = some (Exit.closed,
      { flush_world h w1 with
        tx := (flush_world h w1).tx ++ [(flush_world h w1).r.packet],
        c := consume_packet (flush_world h w1).c w.c.buf.length }) := by
  obtain ⟨f1, f2, f3, f4, f5, f6, _⟩ := flush_world_neutral h hf w1
  have hso : (flush_world h w1).send_ok (flush_world h w1).tx.length = true := by
    rw [f5, hsend]
  have hb : (flush_world h w1).c.buf = w.c.buf := by rw [f1, hbuf]
  have hcons : (consume_packet (flush_world h w1).c w.c.buf.length).buf = [] := by
    simp only [consume_packet, hb, List.drop_length]
  rw [read_more_succ, hloop]
  simp only []
  rw [if_pos hpos, flush_failed_neutral h hf w1, if_neg (by decide), hso,
    if_neg (by decide), if_pos (by rw [hb]), if_neg (by rw [hcons]; simp)]
  exact cont_inr h _ _ _ (recv_more_closed _ (by
    show (flush_world h w1).rx = []
    rw [f4, hrx]))

/-- The run of `read_packet` on a fresh connection that receives `n` times
`getinfo:` in one read and nothing more: all commands are dispatched in one
cycle, the reply is sent as one packet of `21 * n` counted bytes, and the
highest offset written in the reply buffer is `21 * n`. -/
theorem getinfo_batch_run {β : Type} (h : XvcServerHandlers β) (hf : flush_neutral h) (cd : β)
    (n : Nat) (hn : 1 ≤ n) (hlen : 8 * n ≤ max_packet_len) :
    ∃ wA : World β,
      read_packet h (accepted cd (one_read (getinfo_batch n))) = some (Exit.closed, wA) ∧
      wA.r.reply_len = 21 * n ∧ wA.r.hi = 21 * n + 1 ∧ wA.r.reply_max = 16384 ∧
      wA.tx = [wA.r.packet] ∧ wA.c = accept_client := by
  have hmax : max_packet_len = 10000 := rfl
  have hbl := getinfo_batch_length n
  have hrb : rx_bytes (one_read (getinfo_batch n)) = (getinfo_batch n).length := by
    simp [one_read, rx_bytes]
  have hfresh : reply_buf_size fresh_reply max_packet_len = fresh_reply := rfl
  show ∃ wA : World β,
      read_packet h (accepted_at (2 ^ 40) cd (one_read (getinfo_batch n))) =
        some (Exit.closed, wA) ∧ _
  rw [first_cycle, hrb, hfresh]
  have hr := recv_all (2 ^ 40) cd ({ fresh_reply with reply_len := 0 } : ReplyBuf)
    (getinfo_batch n) (by rw [hbl]; exact hlen)
  rw [if_pos (by omega)] at hr
  rw [cont_inl h _ _ _ hr]
  obtain ⟨F, hF⟩ : ∃ F, (getinfo_batch n).length = F + 1 := ⟨8 * n - 1, by omega⟩
  obtain ⟨w1, l1, l2, l3, l4, l5, l6, l7, l8, l9, l10⟩ := getinfo_batch_loop h n
    ((getinfo_batch n).length + 1) 0
    ({ accepted_at (2 ^ 40) cd [] with r := { fresh_reply with reply_len := 0 },
                                       c := { accept_at (2 ^ 40) with
                                              buf := getinfo_batch n } } : World β)
    rfl rfl (Nat.zero_le _) (by omega) (by
      show 0 + 21 * n < 2 ^ 32
      omega)
  rw [show 0 + 8 * n = (getinfo_batch n).length by omega] at l1
  have hcyc := cycle_all_consumed h hf F
    ({ accepted_at (2 ^ 40) cd [] with r := { fresh_reply with reply_len := 0 },
                                       c := { accept_at (2 ^ 40) with
                                              buf := getinfo_batch n } } : World β)
    w1 true l1 (by show 0 < (getinfo_batch n).length; omega) (by rw [l8]; rfl) (by rw [l6]; rfl)
    (by rw [l2])
  rw [hF, hcyc]
  obtain ⟨f1, f2, f3, f4, f5, f6, _⟩ := flush_world_neutral h hf w1
  refine ⟨_, rfl, ?_, ?_, ?_, ?_, ?_⟩
  · show (flush_world h w1).r.reply_len = 21 * n
    rw [f6, l3]
    show 0 + 21 * n = 21 * n
    omega
  · show (flush_world h w1).r.hi = 21 * n + 1
    rw [f6, l4, if_neg (by omega)]
    show max 0 (0 + 21 * n + 1) = 21 * n + 1
    simp
  · show (flush_world h w1).r.reply_max = 16384
    rw [f6, l5]
    rfl
  · show (flush_world h w1).tx ++ [(flush_world h w1).r.packet] = [(flush_world h w1).r.packet]
    rw [f3, l7]
    rfl
  · show consume_packet (flush_world h w1).c (getinfo_batch n).length = accept_client
    rw [f1, l2]
    simp only [consume_packet, List.drop_length]
    rfl

theorem get_field_length (s : List Nat) (c : Nat) :
    (get_field s c).1.length ≤ s.length ∧ (get_field s c).2.length ≤ s.length := by
  induction s with
  | nil => simp [get_field]
  | cons b t ih =>
    simp only [get_field]
    split_ifs
    · simp
    · simp
    · simp only [List.length_cons]
      omega

theorem strchr_length (s : List Nat) (ch : Nat) (q : List Nat × List Nat)
    (h : strchr s ch = some q) : q.1.length ≤ s.length := by
  induction s generalizing q with
  | nil => simp [strchr] at h
  | cons b t ih =>
    simp only [strchr] at h
    split_ifs at h
    · injection h with h
      rw [← h]
      simp
    · cases hq : strchr t ch with
      | none => rw [hq] at h; simp at h
      | some q1 =>
        rw [hq] at h
        simp only [Option.map_some', Option.some.injEq] at h
        rw [← h]
        have := ih q1 hq
        simp only [List.length_cons]
        omega

theorem config_enable_length (config : List Nat) :
    (config_enable config).1.length ≤ config.length := by
  unfold config_enable
  cases hq : strchr config (Char.toNat '=') with
  | some q => exact strchr_length config _ q hq
  | none =>
    simp only []
    by_cases h1 : u32 (strlen config) > 1
    · rw [if_pos h1]
      simp only [List.length_take]
      omega
    · rw [if_neg h1]

theorem strlen_set_error (c : XvcClient) (text : List Nat) :
    strlen (xvcserver_set_error c text).pending_error ≤ text.length := by
  have h1 := strlen_le (xvcserver_set_error c text).pending_error
  have h2 : (xvcserver_set_error c text).pending_error.length ≤ text.length := by
    simp only [xvcserver_set_error]
    have h3 : ((List.take 1023 text).takeWhile (fun b => decide (b ≠ 0))).length ≤
        (List.take 1023 text).length := (List.takeWhile_sublist _).length_le
    rw [List.length_take] at h3
    omega
  omega

theorem strlen_of_head (s : List Nat) (h : s.headD 0 = 0) : strlen s = 0 := by
  unfold strlen
  cases s with
  | nil => rfl
  | cons b t =>
    simp only [List.headD_cons] at h
    simp [List.takeWhile_cons, h]

theorem err_cost_mono (a b : Nat) (h : a ≤ b) : err_cost a ≤ err_cost b := by
  unfold err_cost
  split_ifs <;> omega

/-- The name of a field is shorter than the field, unless the field has at
most one character. -/
theorem config_enable_strict (config : List Nat) :
    (config_enable config).1.length + 1 ≤ config.length ∨
    ((config_enable config).1 = config ∧ u32 (strlen config) ≤ 1) := by
  unfold config_enable
  cases hq : strchr config (Char.toNat '=') with
  | some q =>
    left
    have := congrArg List.length (strchr_split config _ q hq)
    simp only [List.length_append, List.length_cons] at this
    simp only []
    omega
  | none =>
    simp only []
    by_cases h1 : u32 (strlen config) > 1
    · rw [if_pos h1]
      left
      have h2 := strlen_le config
      have h3 := u32_le (strlen config)
      simp only [List.length_take]
      omega
    · rw [if_neg h1]
      right
      exact ⟨rfl, by omega⟩

/-- The pending error that the field loop leaves is paid for by the body it
has read. -/
theorem configure_fields_cost {β : Type} (h : XvcServerHandlers β) (fuel : Nat) (s : List Nat)
    (c : XvcClient) (hpe : c.pending_error.headD 0 = 0) :
    err_cost (strlen (configure_fields h fuel s c).pending_error) ≤ 108 + 21 * s.length := by
  have hz : err_cost 0 = 0 := by decide
  induction fuel generalizing s c with
  | zero =>
    have := strlen_of_head _ hpe
    simp only [configure_fields, this, hz]
    omega
  | succ n ih =>
    have h0 := strlen_of_head _ hpe
    have hg := get_field_length s 44
    have hce := config_enable_length (get_field s 44).1
    have hst := config_enable_strict (get_field s 44).1
    unfold configure_fields
    simp only [Char.reduceToNat]
    split_ifs with c1 c2 c3 c4 c5
    · have hm := strlen_set_error c (cstr "configuration \"locking\" requires boolean + or -")
      have hl : (cstr "configuration \"locking\" requires boolean + or -").length = 47 := by
        decide
      have h7 : (config_enable (get_field s 44).1).1.length = 7 := by
        rw [c2.1]
        decide
      have h8 : 8 ≤ s.length := by
        rcases hst with hst | ⟨hst1, hst2⟩
        · omega
        · rw [c2.1] at hst1
          rw [← hst1] at hst2
          exact absurd hst2 (by decide)
      rw [hl] at hm
      have hmono := err_cost_mono _ 47 hm
      have e47 : err_cost 47 = 258 := by decide
      omega
    · have := ih (get_field s 44).2
        { c with enable_locking := (config_enable (get_field s 44).1).2 } hpe
      omega
    · have hm := strlen_set_error c (cstr "configuration \"status\" requires boolean + or -")
      have hl : (cstr "configuration \"status\" requires boolean + or -").length = 46 := by
        decide
      have h6 : (config_enable (get_field s 44).1).1.length = 6 := by
        rw [c4]
        decide
      have h7 : 7 ≤ s.length := by
        rcases hst with hst | ⟨hst1, hst2⟩
        · omega
        · rw [c4] at hst1
          rw [← hst1] at hst2
          exact absurd hst2 (by decide)
      rw [hl] at hm
      have hmono := err_cost_mono _ 46 hm
      have e46 : err_cost 46 = 250 := by decide
      omega
    · have := ih (get_field s 44).2
        { c with enable_status := (config_enable (get_field s 44).1).2 } hpe
      omega
    · have hm := strlen_set_error c
        (cstr "unexpected configuration: " ++ (config_enable (get_field s 44).1).1)
      have hl : (cstr "unexpected configuration: ").length = 26 := by decide
      rw [List.length_append, hl] at hm
      have hmono := err_cost_mono _ (26 + s.length) (le_trans hm (by omega))
      have hb : err_cost (26 + s.length) ≤ 98 + 8 * s.length := by
        unfold err_cost
        split_ifs <;> omega
      omega
    · rw [h0, hz]
      omega

theorem uleb_bytes_one (n : Nat) (hn : n < 128) : (uleb_bytes 5 n).length = 1 := by
  have hz : n >>> 7 = 0 := by
    rw [Nat.shiftRight_eq_div_pow]
    exact Nat.div_eq_of_lt (by omega)
  unfold uleb_bytes
  simp [hz]

/-- The reply of one command against its input bytes, at 21 reply bytes per 8
input bytes, with the pending error accounted for by `err_cost`: without
output transactions and without errors from the backend no command adds more
than its share, and a command other than `getinfo:` that finds no pending
error leaves 115 units of it unused. -/
theorem cmd_cost {β : Type} (h : XvcServerHandlers β) (c : XvcClient) (cd : β) (cmd : Cmd)
    (he : h.edpc = none) (hq : idpc_quiet h) (hmax : c.buf_max = 10000)
    (hpe : c.pending_error.length ≤ 1023) :
    8 * (cmd_reply h c cd cmd).length +
        err_cost (strlen (exec_conn h c cd cmd).1.pending_error) ≤
      err_cost (strlen c.pending_error) + 21 * cmd.min_len ∧
    (c.pending_error.headD 0 = 0 → cmd ≠ .getinfo →
      8 * (cmd_reply h c cd cmd).length +
          err_cost (strlen (exec_conn h c cd cmd).1.pending_error) + 115 ≤
        21 * cmd.min_len) := by
  have hz : err_cost 0 = 0 := by decide
  cases cmd with
  | getinfo =>
    have ht : (getinfo_text 10000).length = 21 := by decide
    simp only [cmd_reply, exec_conn, Cmd.min_len, hmax, ht]
    exact ⟨by omega, fun _ hne => absurd rfl hne⟩
  | capabilities =>
    have hl : (uleb_bytes 5 (u32 (u32 (strlen (cstr "status," ++ ([] : List Nat))))) ++
        mem_slice (mem_of (cstr "status," ++ ([] : List Nat))) 0
          (u32 (strlen (cstr "status," ++ ([] : List Nat))))).length = 8 := by decide
    simp only [cmd_reply, exec_conn, Cmd.min_len, he, Option.isSome_none,
      Bool.false_eq_true, and_false, if_false, hl]
    exact ⟨by omega, fun h0 _ => by
      rw [strlen_of_head _ h0, hz]
      omega⟩
  | configure body =>
    simp only [cmd_reply, exec_conn, Cmd.min_len, List.length_singleton]
    by_cases hp : c.pending_error.headD 0 = 0
    · have hc := configure_fields_cost h body.length body c hp
      exact ⟨by omega, fun _ _ => by omega⟩
    · rw [configure_fields_pending h _ _ c hp]
      exact ⟨by omega, fun h0 _ => absurd h0 hp⟩
  | error =>
    have hs := strlen_le c.pending_error
    have hn : ∀ lim : Nat, (if u32 (strlen c.pending_error) > lim then lim
        else u32 (strlen c.pending_error)) ≤ strlen c.pending_error := by
      intro lim
      have := u32_le (strlen c.pending_error)
      split_ifs <;> omega
    generalize hN : (if u32 (strlen c.pending_error) >
        u32 (c.buf_max + 2 ^ 32 - u32 (u32 (strlen c.pending_error) + 127) / 128)
      then u32 (c.buf_max + 2 ^ 32 - u32 (u32 (strlen c.pending_error) + 127) / 128)
      else u32 (strlen c.pending_error)) = N
    have hN2 := hn (u32 (c.buf_max + 2 ^ 32 - u32 (u32 (strlen c.pending_error) + 127) / 128))
    rw [hN] at hN2
    have hu := u32_le N
    have hv := uleb_bytes_short (u32 N) (by
      have : (128 : Nat) ^ 2 = 16384 := by decide
      omega)
    have hv1 : N < 128 → (uleb_bytes 5 (u32 N)).length = 1 := fun hlt =>
      uleb_bytes_one (u32 N) (by omega)
    have hsz : strlen ([] : List Nat) = 0 := rfl
    simp only [cmd_reply, exec_conn, Cmd.min_len, hN, List.length_append, mem_slice_length, hsz,
      hz]
    refine ⟨?_, fun h0 _ => ?_⟩
    · unfold err_cost
      by_cases hlt : strlen c.pending_error < 128
      · have := hv1 (by omega)
        rw [if_pos hlt]
        omega
      · rw [if_neg hlt]
        omega
    · have h00 := strlen_of_head _ h0
      have := hv1 (by omega)
      omega
  | edpc flags =>
    simp only [cmd_reply, exec_conn, he, List.length_nil, Cmd.min_len]
    exact ⟨by omega, fun h0 _ => by
      rw [strlen_of_head _ h0, hz]
      omega⟩
  | idpc flags n data =>
    cases hi : h.idpc with
    | none =>
      simp only [cmd_reply, exec_conn, hi, List.length_nil, Cmd.min_len]
      exact ⟨by omega, fun h0 _ => by
        rw [strlen_of_head _ h0, hz]
        omega⟩
    | some f =>
      have hnone := hq f hi cd flags n data
      have hsame : (if c.pending_error.headD 0 = 0 then (c, (f cd flags n data).1)
          else (c, cd)).1 = c := by
        split_ifs <;> rfl
      simp only [cmd_reply, exec_conn, hi, hnone, List.length_singleton, Cmd.min_len, ite_self]
      rw [hsame]
      exact ⟨by omega, fun h0 _ => by
        rw [strlen_of_head _ h0, hz]
        omega⟩

theorem no_edpc_sound {β : Type} (h : XvcServerHandlers β) (he : h.edpc = none) :
    edpc_sound h := by
  intro f hf
  rw [he] at hf
  cases hf

/-- Along the command loop of a backend without output transactions and
without errors from the backend: as long as only `getinfo:` was dispatched,
the reply holds 21 bytes for each 8 input bytes; from the first other command
on, the counted reply bytes stay 115 units below 21/8 of the input bytes
dispatched, the share of a pending error included. -/
theorem cmd_loop_cost {β : Type} (h : XvcServerHandlers β) (he : h.edpc = none)
    (hq : idpc_quiet h) :
    ∀ (fuel cbuf : Nat) (w : World β) (fill : Bool) (cbuf1 : Nat) (w1 : World β),
      cmd_loop h fuel cbuf w = .brk fill cbuf1 w1 →
      cbuf ≤ w.c.buf.length → w.c.buf.length ≤ 10000 → w.c.buf_max = 10000 →
      w.c.pending_error.length ≤ 1023 →
      ((∃ k, w.r.reply_len = 21 * k ∧ 8 * k ≤ cbuf ∧ w.c.pending_error.headD 0 = 0) ∨
        8 * w.r.reply_len + err_cost (strlen w.c.pending_error) + 115 ≤ 21 * cbuf) →
      ((∃ k, w1.r.reply_len = 21 * k ∧ 8 * k ≤ cbuf1) ∨
        8 * w1.r.reply_len + 115 ≤ 21 * cbuf1) ∧
      cbuf1 ≤ w.c.buf.length := by
  intro fuel
  induction fuel with
  | zero =>
    intro cbuf w fill cbuf1 w1 hl
    simp [cmd_loop] at hl
  | succ f ih =>
    intro cbuf w fill cbuf1 w1 hl hc hlen hmax hpe hpot
    unfold cmd_loop at hl
    rw [dispatch_eq_interp h w cbuf hc] at hl
    cases hp : parse h.edpc.isSome h.idpc.isSome (w.c.buf_addr + cbuf) (w.c.buf.drop cbuf) with
    | more k =>
      rw [hp] at hl
      simp only [interp] at hl
      split_ifs at hl
      simp only [Loop.brk.injEq] at hl
      obtain ⟨e1, e2, e3⟩ := hl
      subst e2 e3
      refine ⟨?_, hc⟩
      rcases hpot with ⟨k, g1, g2, _⟩ | hpot
      · exact Or.inl ⟨k, g1, g2⟩
      · exact Or.inr (by omega)
    | bad =>
      rw [hp] at hl
      simp [interp] at hl
    | wrap cmd plen =>
      rw [hp] at hl
      simp [interp] at hl
    | ok cmd L =>
      rw [hp] at hl
      simp only [interp] at hl
      obtain ⟨hL, hL1, _⟩ := parse_local _ _ _ _ cmd L hp
      rw [List.length_drop] at hL
      have hmin := parse_min_len _ _ _ _ cmd L hp
      generalize idpc_avail w.c.buf.length cbuf L cmd = a at hl
      obtain ⟨_, hr2, _⟩ := exec_reply h w a cmd (no_edpc_sound h he) hpe (by omega)
      obtain ⟨p1, p2, p3, p4, p5, p6, p7, p8, p9, p10⟩ :=
        put_stores_world h w a cbuf L cmd hmin (by omega)
      have hinv := exec_conn_inv h w.c w.client_data cmd hpe
      obtain ⟨hcost, hfirst⟩ := cmd_cost h w.c w.client_data cmd he hq hmax hpe
      generalize put_stores h w.c cbuf L (exec h w a cmd) cmd = W
        at hl p1 p2 p3 p4 p5 p6 p7 p8 p9 p10
      have hWpe : W.c.pending_error = (exec_conn h w.c w.client_data cmd).1.pending_error := by
        rw [p1]
      have hWmax : W.c.buf_max = w.c.buf_max := by rw [p1]; exact hinv.2
      have := ih (cbuf + L) W fill cbuf1 w1 hl (by rw [p8]; omega)
        (by rw [p8]; exact hlen) (by rw [hWmax]; exact hmax) (by rw [hWpe]; exact hinv.1) (by
          rw [p6, hr2, hWpe]
          rcases hpot with ⟨k, g1, g2, g3⟩ | hpot
          · by_cases hgi : cmd = .getinfo
            · subst hgi
              left
              have ht : (getinfo_text 10000).length = 21 := by decide
              refine ⟨k + 1, ?_, ?_, g3⟩
              · simp only [cmd_reply, hmax, ht]
                omega
              · simp only [Cmd.min_len] at hmin
                omega
            · right
              have := hfirst g3 hgi
              omega
          · right
            omega)
      rw [p8] at this
      exact this

theorem bare_handlers_neutral : flush_neutral bare_handlers := by
  intro f hf
  simp [bare_handlers] at hf

theorem cmd_loop_next {β : Type} (h : XvcServerHandlers β) (f cbuf p : Nat) (w w1 : World β)
    (hd : dispatch h w cbuf = .next p w1) : cmd_loop h (f + 1) cbuf w = cmd_loop h f p w1 := by
  rw [cmd_loop, hd]

/-- The command loop over `error:` followed by `n` times `getinfo:`: the
error text is copied to the reply, and 21 bytes are counted for each
`getinfo:`. -/
theorem error_getinfo_batch_loop {β : Type} (h : XvcServerHandlers β) (n cbuf : Nat)
    (w W : World β) (hmax : w.c.buf_max = 10000)
    (hb : w.c.buf.drop cbuf = cstr "error:" ++ getinfo_batch n)
    (hW : cmd_error w (cbuf + 6) = .next (cbuf + 6) W)
    (h32 : W.r.reply_len + 21 * n < 2 ^ 32) :
    (cmd_loop h (n + 2) cbuf w).sent = some (true, cbuf + 6 + 8 * n, W.r.reply_len + 21 * n) := by
  have hWc : W.c.buf = w.c.buf ∧ W.c.buf_max = w.c.buf_max := by
    simp only [cmd_error, Step.next.injEq, true_and] at hW
    rw [← hW]
    exact ⟨rfl, rfl⟩
  have h6 : (cstr "error:").length = 6 := by decide
  have hl := congrArg List.length hb
  rw [List.length_drop, List.length_append, h6, getinfo_batch_length] at hl
  rw [cmd_loop_next h (n + 1) cbuf (cbuf + 6) w W (by rw [dispatch_error h w cbuf _ hb, hW])]
  obtain ⟨w1, l1, _, l3, _⟩ := getinfo_batch_loop h n (n + 1) (cbuf + 6) W
    (by rw [hWc.2, hmax]) (by rw [hWc.1]; exact drop_add_of_drop _ _ (cstr "error:") _ hb)
    (by rw [hWc.1]; omega) (le_refl _) h32
  rw [l1]
  simp only [Loop.sent, l3]

theorem step_next_of {β : Type} (s : Step β) (p : Nat) (h : s.cursor = some p) :
    s = .next p s.world := by
  cases s <;> simp_all [Step.world, Step.cursor]

/-- Claim C12, counterexample: batches of complete commands of fewer than
10000 bytes whose reply length at the time of the `send` exceeds
`max_packet_len = 10000`, inside the reply buffer of 16384 bytes.
(1) 477 times `getinfo:` (3816 bytes), received in one read by a fresh
connection, are dispatched in one cycle with the reply length
`477 * 21 = 10017`.
(2) With a pending error of 1023 bytes, `error:` and 476 times `getinfo:`
(3814 bytes) give the reply length `1025 + 476 * 21 = 11021`.
(3) With a backend whose input transaction reports an error of 1023 bytes,
`idpc:` with no data, `error:` and 475 times `getinfo:` (3813 bytes) give the
reply length `1 + 1025 + 475 * 21 = 11001`. -/
theorem getinfo_batch_exceeds_packet :
    ((getinfo_batch 477).length = 3816 ∧
      ∃ wA : World Unit,
        read_packet bare_handlers (accepted () (one_read (getinfo_batch 477))) =
          some (Exit.closed, wA) ∧
        wA.r.reply_len = 10017 ∧ wA.tx = [wA.r.packet] ∧ max_packet_len < wA.r.reply_len ∧
        wA.r.hi = 10018 ∧ wA.r.reply_max = 16384) ∧
    ((cstr "error:" ++ getinfo_batch 476).length = 3814 ∧
      (cmd_loop bare_handlers 478 0
        (error_world (List.replicate 1023 65) (cstr "error:" ++ getinfo_batch 476))).sent =
        some (true, 3814, 11021)) ∧
    ((cstr "idpc:" ++ ([0, 0] ++ (cstr "error:" ++ getinfo_batch 475))).length = 3813 ∧
      (cmd_loop loud_handlers 478 0
        (fresh_world (cstr "idpc:" ++ ([0, 0] ++ (cstr "error:" ++ getinfo_batch 475))) [])).sent =
        some (true, 3813, 11001)) := by
  refine ⟨⟨getinfo_batch_length 477, ?_⟩, ⟨by decide!, ?_⟩, ⟨by decide!, ?_⟩⟩
  · obtain ⟨wA, h1, h2, h3, h4, h5, _⟩ :=
      getinfo_batch_run bare_handlers bare_handlers_neutral () 477 (by decide) (by decide)
    exact ⟨wA, h1, h2, h5, by rw [h2]; decide, h3, h4⟩
  · have e2 : (cmd_error (error_world (List.replicate 1023 65)
        (cstr "error:" ++ getinfo_batch 476)) (0 + 6)).world.r.reply_len = 1025 := by decide!
    have := error_getinfo_batch_loop bare_handlers 476 0
      (error_world (List.replicate 1023 65) (cstr "error:" ++ getinfo_batch 476))
      (cmd_error (error_world (List.replicate 1023 65)
        (cstr "error:" ++ getinfo_batch 476)) (0 + 6)).world rfl rfl rfl (by rw [e2]; decide)
    rw [e2] at this
    exact this
  · have e1 := step_next_of (dispatch loud_handlers
        (fresh_world (cstr "idpc:" ++ ([0, 0] ++ (cstr "error:" ++ getinfo_batch 475))) []) 0) 7 (by
      rw [dispatch_idpc loud_handlers _ 0 ([0, 0] ++ (cstr "error:" ++ getinfo_batch 475)) _
        rfl rfl]
      decide!)
    obtain ⟨k1, k2, k3, _⟩ := dispatch_keeps_buf loud_handlers
      (fresh_world (cstr "idpc:" ++ ([0, 0] ++ (cstr "error:" ++ getinfo_batch 475))) []) 0
      (Nat.zero_le _)
    obtain ⟨_, _, k4, _⟩ := k3 _ _ e1
    have hb : List.drop 7
        (fresh_world (cstr "idpc:" ++ ([0, 0] ++ (cstr "error:" ++ getinfo_batch 475))) []).c.buf =
        cstr "error:" ++ getinfo_batch 475 := by
      show List.drop 7 (cstr "idpc:" ++ ([0, 0] ++ (cstr "error:" ++ getinfo_batch 475))) = _
      rw [← List.append_assoc]
      exact List.drop_left' (by decide)
    have e2 : (cmd_error (dispatch loud_handlers
        (fresh_world (cstr "idpc:" ++ ([0, 0] ++ (cstr "error:" ++ getinfo_batch 475))) []) 0).world
        (7 + 6)).world.r.reply_len = 1026 := by decide!
    have := error_getinfo_batch_loop loud_handlers 475 7 _
      (cmd_error (dispatch loud_handlers
        (fresh_world (cstr "idpc:" ++ ([0, 0] ++ (cstr "error:" ++ getinfo_batch 475))) []) 0).world
        (7 + 6)).world (k2.trans rfl) (k4.trans hb) rfl (by rw [e2]; decide)
    rw [e2] at this
    rw [cmd_loop_next loud_handlers 477 0 7 _ _ e1]
    exact this

/-- Claim C12, amended: the reply length of a batch.  For a backend without
output transactions whose input transaction, if any, reports no error, and a
connection of capacity 10000 with no pending error: the command loop of a
read cycle, started with `reply_len = 0` at the head of fewer than 3816
buffered bytes, ends with a reply length of at most `max_packet_len = 10000`.
3816 bytes are 477 times `getinfo:`, with the reply length 10017. -/
theorem batch_reply_length {β : Type} (h : XvcServerHandlers β) (he : h.edpc = none)
    (hq : idpc_quiet h) (w : World β) (fuel : Nat) (fill : Bool) (cbuf : Nat) (w1 : World β)
    (hlen : w.c.buf.length < 3816) (hmax : w.c.buf_max = max_packet_len)
    (hpe : w.c.pending_error = []) (hr : w.r.reply_len = 0)
    (hl : cmd_loop h fuel 0 w = .brk fill cbuf w1) :
    w1.r.reply_len ≤ max_packet_len ∧ cbuf ≤ w.c.buf.length := by
  have hm : max_packet_len = 10000 := rfl
  obtain ⟨k1, k2⟩ := cmd_loop_cost h he hq fuel 0 w fill cbuf w1 hl (Nat.zero_le _)
    (by omega) (hmax.trans hm) (by rw [hpe]; exact Nat.zero_le _)
    (Or.inl ⟨0, by rw [hr], le_refl _, by rw [hpe]; rfl⟩)
  refine ⟨?_, k2⟩
  rw [hm]
  rcases k1 with ⟨k, g1, g2⟩ | k1
  · omega
  · omega

theorem bare_handlers_quiet : idpc_quiet bare_handlers := by
  intro f hf
  simp [bare_handlers] at hf

theorem batch_reply_length_witness :
    cmd_loop bare_handlers 4 0 (fresh_world (getinfo_batch 2 ++ cstr "error:") []) =
      .brk true 22
        (((cmd_loop bare_handlers 4 0
          (fresh_world (getinfo_batch 2 ++ cstr "error:") [])).world).getD
          (fresh_world [] [])) ∧
    (((cmd_loop bare_handlers 4 0
        (fresh_world (getinfo_batch 2 ++ cstr "error:") [])).world).getD
        (fresh_world [] [])).r.reply_len = 43 ∧
    (((cmd_loop bare_handlers 4 0
        (fresh_world (getinfo_batch 2 ++ cstr "error:") [])).world).getD
        (fresh_world [] [])).r.reply_len ≤ max_packet_len ∧
    22 ≤ (fresh_world (getinfo_batch 2 ++ cstr "error:") []).c.buf.length :=
  ⟨by rfl, by rfl,
   batch_reply_length bare_handlers rfl bare_handlers_quiet
     (fresh_world (getinfo_batch 2 ++ cstr "error:") []) 4
     true 22
     (((cmd_loop bare_handlers 4 0
        (fresh_world (getinfo_batch 2 ++ cstr "error:") [])).world).getD (fresh_world [] []))
     (by decide) (by rfl) (by rfl) (by rfl) (by rfl)⟩

/-- Claim C20, failing input: 781 times `getinfo:` (6248 bytes of complete
commands, no `edpc:`) received in one read by a fresh connection.  The reply
buffer has the capacity 16384 that `reply_buf_size(10000)` establishes in a
fresh process; the `snprintf` of the 781st `getinfo:` is made at offset
`780 * 21 = 16380` and stores the 21 bytes of the banner and the terminator,
the last of them at offset 16401, past the end of the buffer. -/
theorem getinfo_batch_overruns_reply_buffer :
    (reply_buf_size { reply_buf := fun _ => 0, reply_max := 0, reply_len := 0, hi := 0 }
      max_packet_len).reply_max = 16384 ∧
    (getinfo_batch 781).length = 6248 ∧
    ∃ wA : World Unit,
      read_packet bare_handlers (accepted () (one_read (getinfo_batch 781))) =
        some (Exit.closed, wA) ∧
      wA.r.reply_max = 16384 ∧ wA.r.hi = 16402 ∧ wA.r.reply_max < wA.r.hi := by
  refine ⟨by decide, getinfo_batch_length 781, ?_⟩
  obtain ⟨wA, h1, _, h3, h4, _, _⟩ :=
    getinfo_batch_run bare_handlers bare_handlers_neutral () 781 (by decide) (by decide)
  exact ⟨wA, h1, h4, h3, by rw [h3, h4]; decide⟩

end Xvc
